import Mathlib

/-!
# The richacl text codec (librichacl/richacl_text.c)

A shallow embedding of the text form of rich access control lists: the
serializer richacl_to_text, the parser richacl_from_text and the field
codecs they are built from, with theorems about their behaviour.

Conventions of the embedding.

* The header richacl.h and the file that defines richace_set_who and the names of the
  special identities are not among the sources.  The ACE4_ masks and flags have the values
  of the NFSv4 protocol that their names denote, the other constants the values of the
  richacl interface; apart from the values named in a statement, the theorems only use
  that the bits of a table are single bits.
* A C string is the list of its characters before the terminating NUL.
* Machine integers are natural numbers; a store into a narrower field is a
  reduction modulo the field's width.  unsigned long has 64 bits (LP64).
* buffer_sprintf only appends, so every writer returns the text it appends.
  Allocation failure is outside the model.
* The character classes of ctype.h are those of the C locale.
* The identity directory (getpwuid, getgrgid, getpwnam, getgrnam) is a
  parameter of the functions that consult it.
-/

namespace RichaclText

/-- A C string without its terminating NUL. -/
abbrev Str := List Char

/-! ## The C library -/

/-- The isspace class of the C locale: space, tab, newline, vertical tab, form feed, carriage return. -/
def isspace (c : Char) : Bool :=
  c == ' ' || c == '\t' || c == '\n' || c == Char.ofNat 11 || c == Char.ofNat 12 || c == '\r'

/-- The tolower map of the C locale. -/
def tolower (c : Char) : Char :=
  if 65 ≤ c.toNat ∧ c.toNat ≤ 90 then Char.ofNat (c.toNat + 32) else c

/-- The toupper map of the C locale. -/
def toupper (c : Char) : Char :=
  if 97 ≤ c.toNat ∧ c.toNat ≤ 122 then Char.ofNat (c.toNat - 32) else c

/-- The test strcasecmp(a, b) == 0. -/
def strcasecmp (a b : Str) : Bool :=
  a.map tolower == b.map tolower

/-- The largest unsigned long. -/
def ULONG_MAX : Nat := 2 ^ 64 - 1

/-- The value of a character as a digit of strtoul, in any base up to 36. -/
def digit_value (c : Char) : Option Nat :=
  if 48 ≤ c.toNat ∧ c.toNat ≤ 57 then some (c.toNat - 48)
  else if 97 ≤ c.toNat ∧ c.toNat ≤ 122 then some (c.toNat - 87)
  else if 65 ≤ c.toNat ∧ c.toNat ≤ 90 then some (c.toNat - 55)
  else none

/-- The digit loop of strtoul: the exact value of the longest run of digits of the base,
whether a digit was read, and the unread rest. -/
def strtoul_digits (base : Nat) : Str → Nat → Bool → Nat × Bool × Str
  | [], acc, any => (acc, any, [])
  | c :: cs, acc, any =>
    match digit_value c with
    | some d =>
      if d < base then strtoul_digits base cs (acc * base + d) true
      else (acc, any, c :: cs)
    | none => (acc, any, c :: cs)

/-- The base chosen by strtoul(_, _, 0) and the place where the digits start: 16 after
0x or 0X followed by a hexadecimal digit, 8 after a leading 0, 10 otherwise. -/
def strtoul_base (s : Str) : Nat × Str :=
  match s with
  | c0 :: x :: h :: r =>
    if c0 == '0' && (x == 'x' || x == 'X') && (digit_value h).any (fun d => decide (d < 16)) then
      (16, h :: r)
    else if c0 == '0' then (8, s) else (10, s)
  | c0 :: _ => if c0 == '0' then (8, s) else (10, s)
  | [] => (10, s)

/-- The call strtoul(nptr, &c, 0): the value returned and the string left at c.  White space
and one sign are skipped; without any digit the value is 0 and c is nptr; a value above
ULONG_MAX is returned as ULONG_MAX; a minus sign negates modulo 2^64. -/
def strtoul (nptr : Str) : Nat × Str :=
  let s := nptr.dropWhile isspace
  let neg := s.head? == some '-'
  let s := if s.head? == some '-' || s.head? == some '+' then s.tail else s
  let bd := strtoul_base s
  let r := strtoul_digits bd.1 bd.2 0 false
  if r.2.1 then
    if r.1 > ULONG_MAX then (ULONG_MAX, r.2.2)
    else if neg then ((2 ^ 64 - r.1) % 2 ^ 64, r.2.2)
    else (r.1, r.2.2)
  else (0, nptr)

/-- The character of a digit below 16, lower case as printed by %x. -/
def digit_char (d : Nat) : Char :=
  if d < 10 then Char.ofNat (48 + d) else Char.ofNat (87 + d)

/-- The digits of n in the base, most significant first, put before acc. -/
def fmt_digits (base : Nat) : Nat → Nat → Str → Str
  | 0, _, acc => acc
  | fuel + 1, n, acc =>
    if n < base then digit_char n :: acc
    else fmt_digits base fuel (n / base) (digit_char (n % base) :: acc)

/-- The conversion %x of printf. -/
def fmt_x (n : Nat) : Str := fmt_digits 16 (n + 1) n []

/-- The conversion %u of printf. -/
def fmt_u (n : Nat) : Str := fmt_digits 10 (n + 1) n []

/-- The conversion %d of printf applied to a 32-bit value: values from 2^31 on are
printed as the negative numbers they are as an int. -/
def fmt_d (n : Nat) : Str :=
  if n < 2 ^ 31 then fmt_u n else '-' :: fmt_u (2 ^ 32 - n)

/-- The conversion %*s (and %*d) of printf with a width that is not negative: the text,
right justified with spaces. -/
def pad (width : Nat) (s : Str) : Str :=
  List.replicate (width - s.length) ' ' ++ s

/-- The assignment x &= ~y. -/
def andNot (x y : Nat) : Nat := x ^^^ (x &&& y)

/-- The split at strchr(s, ch): the text before the first ch and the text after it,
none when s has no ch. -/
def strchr_split (ch : Char) : Str → Option (Str × Str)
  | [] => none
  | c :: cs =>
    if c = ch then some ([], cs)
    else match strchr_split ch cs with
      | some p => some (c :: p.1, p.2)
      | none => none

/-! ## The constants of richacl.h -/

/-- Modelled from the spec: the header richacl.h (the ACL4_, ACE4_ and RICHACL_TEXT_
constants) is not among the sources; each ACL flag is one numeric bit of the
unsigned char a_flags. -/
def ACL4_AUTO_INHERIT : Nat := 0x01
/-- Modelled from the spec: constant of richacl.h, see ACL4_AUTO_INHERIT. -/
def ACL4_PROTECTED : Nat := 0x02
/-- Modelled from the spec: constant of richacl.h, see ACL4_AUTO_INHERIT. -/
def ACL4_DEFAULTED : Nat := 0x04
/-- Modelled from the spec: constant of richacl.h, see ACL4_AUTO_INHERIT. -/
def ACL4_POSIX_MAPPED : Nat := 0x10
/-- Modelled from the spec: constant of richacl.h, see ACL4_AUTO_INHERIT. -/
def ACL4_MASKED : Nat := 0x80

/-- Modelled from the spec: constant of richacl.h, the entry type Allow. -/
def ACE4_ACCESS_ALLOWED_ACE_TYPE : Nat := 0
/-- Modelled from the spec: constant of richacl.h, the entry type Deny. -/
def ACE4_ACCESS_DENIED_ACE_TYPE : Nat := 1

/-- Modelled from the spec: constant of richacl.h; each entry flag is one numeric bit of
the 16-bit e_flags. -/
def ACE4_FILE_INHERIT_ACE : Nat := 0x0001
/-- Modelled from the spec: constant of richacl.h, see ACE4_FILE_INHERIT_ACE. -/
def ACE4_DIRECTORY_INHERIT_ACE : Nat := 0x0002
/-- Modelled from the spec: constant of richacl.h, see ACE4_FILE_INHERIT_ACE. -/
def ACE4_NO_PROPAGATE_INHERIT_ACE : Nat := 0x0004
/-- Modelled from the spec: constant of richacl.h, see ACE4_FILE_INHERIT_ACE. -/
def ACE4_INHERIT_ONLY_ACE : Nat := 0x0008
/-- Modelled from the spec: constant of richacl.h, see ACE4_FILE_INHERIT_ACE. -/
def ACE4_IDENTIFIER_GROUP : Nat := 0x0040
/-- Modelled from the spec: constant of richacl.h, see ACE4_FILE_INHERIT_ACE. -/
def ACE4_INHERITED_ACE : Nat := 0x0080
/-- Modelled from the spec: constant of richacl.h, the flag implied by a special identifier. -/
def ACE4_SPECIAL_WHO : Nat := 0x4000

/-- Modelled from the spec: constant of richacl.h; each permission is one numeric bit of
the 32-bit mask, and a file permission shares its bit with the directory permission of
the same letter. -/
def ACE4_READ_DATA : Nat := 0x00000001
/-- Modelled from the spec: constant of richacl.h, see ACE4_READ_DATA. -/
def ACE4_LIST_DIRECTORY : Nat := 0x00000001
/-- Modelled from the spec: constant of richacl.h, see ACE4_READ_DATA. -/
def ACE4_WRITE_DATA : Nat := 0x00000002
/-- Modelled from the spec: constant of richacl.h, see ACE4_READ_DATA. -/
def ACE4_ADD_FILE : Nat := 0x00000002
/-- Modelled from the spec: constant of richacl.h, see ACE4_READ_DATA. -/
def ACE4_APPEND_DATA : Nat := 0x00000004
/-- Modelled from the spec: constant of richacl.h, see ACE4_READ_DATA. -/
def ACE4_ADD_SUBDIRECTORY : Nat := 0x00000004
/-- Modelled from the spec: constant of richacl.h, see ACE4_READ_DATA. -/
def ACE4_READ_NAMED_ATTRS : Nat := 0x00000008
/-- Modelled from the spec: constant of richacl.h, see ACE4_READ_DATA. -/
def ACE4_WRITE_NAMED_ATTRS : Nat := 0x00000010
/-- Modelled from the spec: constant of richacl.h, see ACE4_READ_DATA. -/
def ACE4_EXECUTE : Nat := 0x00000020
/-- Modelled from the spec: constant of richacl.h, see ACE4_READ_DATA. -/
def ACE4_DELETE_CHILD : Nat := 0x00000040
/-- Modelled from the spec: constant of richacl.h, see ACE4_READ_DATA. -/
def ACE4_READ_ATTRIBUTES : Nat := 0x00000080
/-- Modelled from the spec: constant of richacl.h, see ACE4_READ_DATA. -/
def ACE4_WRITE_ATTRIBUTES : Nat := 0x00000100
/-- Modelled from the spec: constant of richacl.h, see ACE4_READ_DATA. -/
def ACE4_WRITE_RETENTION : Nat := 0x00000200
/-- Modelled from the spec: constant of richacl.h, see ACE4_READ_DATA. -/
def ACE4_WRITE_RETENTION_HOLD : Nat := 0x00000400
/-- Modelled from the spec: constant of richacl.h, see ACE4_READ_DATA. -/
def ACE4_DELETE : Nat := 0x00010000
/-- Modelled from the spec: constant of richacl.h, see ACE4_READ_DATA. -/
def ACE4_READ_ACL : Nat := 0x00020000
/-- Modelled from the spec: constant of richacl.h, see ACE4_READ_DATA. -/
def ACE4_WRITE_ACL : Nat := 0x00040000
/-- Modelled from the spec: constant of richacl.h, see ACE4_READ_DATA. -/
def ACE4_WRITE_OWNER : Nat := 0x00080000
/-- Modelled from the spec: constant of richacl.h, see ACE4_READ_DATA. -/
def ACE4_SYNCHRONIZE : Nat := 0x00100000

/-- Modelled from the spec: constant of richacl.h, the permissions always allowed by POSIX
semantics, which simplify mode hides. -/
def ACE4_POSIX_ALWAYS_ALLOWED : Nat :=
  ACE4_SYNCHRONIZE ||| ACE4_READ_ATTRIBUTES ||| ACE4_READ_ACL

/-- Modelled from the spec: constant of richacl.h, the formatting option long form. -/
def RICHACL_TEXT_LONG : Nat := 1
/-- Modelled from the spec: constant of richacl.h, the formatting option file context. -/
def RICHACL_TEXT_FILE_CONTEXT : Nat := 2
/-- Modelled from the spec: constant of richacl.h, the formatting option directory context. -/
def RICHACL_TEXT_DIRECTORY_CONTEXT : Nat := 4
/-- Modelled from the spec: constant of richacl.h, the formatting option show masks. -/
def RICHACL_TEXT_SHOW_MASKS : Nat := 8
/-- Modelled from the spec: constant of richacl.h, the formatting option simplify. -/
def RICHACL_TEXT_SIMPLIFY : Nat := 16
/-- Modelled from the spec: constant of richacl.h, the formatting option align. -/
def RICHACL_TEXT_ALIGN : Nat := 32
/-- Modelled from the spec: constant of richacl.h, the formatting option numeric ids. -/
def RICHACL_TEXT_NUMERIC_IDS : Nat := 64

/-- Modelled from the spec: constant of richacl.h, the section bit of the owner mask. -/
def RICHACL_TEXT_OWNER_MASK : Nat := 1
/-- Modelled from the spec: constant of richacl.h, the section bit of the group mask. -/
def RICHACL_TEXT_GROUP_MASK : Nat := 2
/-- Modelled from the spec: constant of richacl.h, the section bit of the other mask. -/
def RICHACL_TEXT_OTHER_MASK : Nat := 4
/-- Modelled from the spec: constant of richacl.h, the section bit of the ACL flags. -/
def RICHACL_TEXT_FLAGS : Nat := 8

/-- Modelled from the spec: the identifiers of the fixed special identities (the ACE_..._ID
constants of richacl.h, not among the sources); only that they differ is used. -/
def ACE_OWNER_ID : Nat := 0
/-- Modelled from the spec: constant of richacl.h, see ACE_OWNER_ID. -/
def ACE_GROUP_ID : Nat := 1
/-- Modelled from the spec: constant of richacl.h, see ACE_OWNER_ID. -/
def ACE_EVERYONE_ID : Nat := 2
/-- Modelled from the spec: constant of richacl.h, see ACE_OWNER_ID. -/
def ACE_INTERACTIVE_ID : Nat := 3
/-- Modelled from the spec: constant of richacl.h, see ACE_OWNER_ID. -/
def ACE_NETWORK_ID : Nat := 4
/-- Modelled from the spec: constant of richacl.h, see ACE_OWNER_ID. -/
def ACE_DIALUP_ID : Nat := 5
/-- Modelled from the spec: constant of richacl.h, see ACE_OWNER_ID. -/
def ACE_BATCH_ID : Nat := 6
/-- Modelled from the spec: constant of richacl.h, see ACE_OWNER_ID. -/
def ACE_ANONYMOUS_ID : Nat := 7
/-- Modelled from the spec: constant of richacl.h, see ACE_OWNER_ID. -/
def ACE_AUTHENTICATED_ID : Nat := 8
/-- Modelled from the spec: constant of richacl.h, see ACE_OWNER_ID. -/
def ACE_SERVICE_ID : Nat := 9
/-- Modelled from the spec: constant of richacl.h, see ACE_OWNER_ID. -/
def ACE_ADMINISTRATOR_ID : Nat := 10
/-- Modelled from the spec: constant of richacl.h, see ACE_OWNER_ID. -/
def ACE_ADMINUSERS_ID : Nat := 11
/-- Modelled from the spec: constant of richacl.h, see ACE_OWNER_ID. -/
def ACE_NOBODY_ID : Nat := 12
/-- Modelled from the spec: constant of richacl.h, see ACE_OWNER_ID. -/
def ACE_UNKNOWN_ID : Nat := 13

/-! ## The data model -/

/-- The struct richace: one entry, with a 16-bit type, 16-bit flags, a 32-bit mask and a
32-bit identifier. -/
structure richace where
  e_type : Nat
  e_flags : Nat
  e_mask : Nat
  e_id : Nat
deriving DecidableEq, Repr

/-- The struct richacl: 8-bit flags, three 32-bit masks and the ordered entries
(a_count is the length of a_entries). -/
structure richacl where
  a_flags : Nat
  a_owner_mask : Nat
  a_group_mask : Nat
  a_other_mask : Nat
  a_entries : List richace
deriving DecidableEq, Repr

/-- The identity directory consulted through getpwuid, getgrgid, getpwnam and getgrnam. -/
structure Resolver where
  getpwuid : Nat → Option Str
  getgrgid : Nat → Option Str
  getpwnam : Str → Option Nat
  getgrnam : Str → Option Nat

/-- An identity directory without any user or group. -/
def no_names : Resolver :=
  ⟨fun _ => none, fun _ => none, fun _ => none, fun _ => none⟩

/-- An identity directory that is consistent and whose only user, with uid 5, has the
name 123. -/
def numeric_name : Resolver :=
  ⟨fun id => if id = 5 then some "123".toList else none, fun _ => none,
   fun name => if name = "123".toList then some 5 else none, fun _ => none⟩

/-! ## The tables -/

/-- A row of acl_flag_bits. -/
structure AclFlagBit where
  a_char : Char
  a_flag : Nat
  a_name : Str
deriving DecidableEq, Repr

/-- The table acl_flag_bits. -/
def acl_flag_bits : List AclFlagBit :=
  [ ⟨'m', ACL4_MASKED, "masked".toList⟩,
    ⟨'a', ACL4_AUTO_INHERIT, "auto_inherit".toList⟩,
    ⟨'p', ACL4_PROTECTED, "protected".toList⟩,
    ⟨'d', ACL4_DEFAULTED, "defaulted".toList⟩,
    ⟨'P', ACL4_POSIX_MAPPED, "posix_mapped".toList⟩ ]

/-- A row of type_values. -/
structure TypeValue where
  e_type : Nat
  e_name : Str
deriving DecidableEq, Repr

/-- The table type_values. -/
def type_values : List TypeValue :=
  [ ⟨ACE4_ACCESS_ALLOWED_ACE_TYPE, "allow".toList⟩,
    ⟨ACE4_ACCESS_DENIED_ACE_TYPE, "deny".toList⟩ ]

/-- A row of ace_flag_bits. -/
structure AceFlagBit where
  e_flag : Nat
  e_char : Char
  e_name : Str
deriving DecidableEq, Repr

/-- The table ace_flag_bits.  The defining FLAGS_BIT(c, name, str) expands to
ACE4_ ## name, c, #name: the name of a row is the stringified second argument, and the
third argument (file_inherit, dir_inherit, ...) is not used. -/
def ace_flag_bits : List AceFlagBit :=
  [ ⟨ACE4_FILE_INHERIT_ACE, 'f', "FILE_INHERIT_ACE".toList⟩,
    ⟨ACE4_DIRECTORY_INHERIT_ACE, 'd', "DIRECTORY_INHERIT_ACE".toList⟩,
    ⟨ACE4_NO_PROPAGATE_INHERIT_ACE, 'n', "NO_PROPAGATE_INHERIT_ACE".toList⟩,
    ⟨ACE4_INHERIT_ONLY_ACE, 'i', "INHERIT_ONLY_ACE".toList⟩,
    ⟨ACE4_IDENTIFIER_GROUP, 'g', "IDENTIFIER_GROUP".toList⟩,
    ⟨ACE4_INHERITED_ACE, 'a', "INHERITED_ACE".toList⟩ ]

/-- The struct mask_flag_struct, a row of mask_flags. -/
structure MaskFlag where
  e_mask : Nat
  e_char : Char
  e_name : Str
  e_context : Nat
deriving DecidableEq, Repr

/-- The context of a MASK_BIT row. -/
def BOTH_CONTEXTS : Nat := RICHACL_TEXT_FILE_CONTEXT ||| RICHACL_TEXT_DIRECTORY_CONTEXT

/-- The table mask_flags. -/
def mask_flags : List MaskFlag :=
  [ ⟨ACE4_READ_DATA, 'r', "read_data".toList, RICHACL_TEXT_FILE_CONTEXT⟩,
    ⟨ACE4_LIST_DIRECTORY, 'r', "list_directory".toList, RICHACL_TEXT_DIRECTORY_CONTEXT⟩,
    ⟨ACE4_WRITE_DATA, 'w', "write_data".toList, RICHACL_TEXT_FILE_CONTEXT⟩,
    ⟨ACE4_ADD_FILE, 'w', "add_file".toList, RICHACL_TEXT_DIRECTORY_CONTEXT⟩,
    ⟨ACE4_APPEND_DATA, 'p', "append_data".toList, RICHACL_TEXT_FILE_CONTEXT⟩,
    ⟨ACE4_ADD_SUBDIRECTORY, 'p', "add_subdirectory".toList, RICHACL_TEXT_DIRECTORY_CONTEXT⟩,
    ⟨ACE4_EXECUTE, 'x', "execute".toList, BOTH_CONTEXTS⟩,
    ⟨ACE4_DELETE_CHILD, 'd', "delete_child".toList, BOTH_CONTEXTS⟩,
    ⟨ACE4_DELETE, 'D', "delete".toList, BOTH_CONTEXTS⟩,
    ⟨ACE4_READ_ATTRIBUTES, 'a', "read_attributes".toList, BOTH_CONTEXTS⟩,
    ⟨ACE4_WRITE_ATTRIBUTES, 'A', "write_attributes".toList, BOTH_CONTEXTS⟩,
    ⟨ACE4_READ_NAMED_ATTRS, 'R', "read_xattr".toList, BOTH_CONTEXTS⟩,
    ⟨ACE4_WRITE_NAMED_ATTRS, 'W', "write_xattr".toList, BOTH_CONTEXTS⟩,
    ⟨ACE4_READ_ACL, 'c', "read_acl".toList, BOTH_CONTEXTS⟩,
    ⟨ACE4_WRITE_ACL, 'C', "write_acl".toList, BOTH_CONTEXTS⟩,
    ⟨ACE4_WRITE_OWNER, 'o', "write_owner".toList, BOTH_CONTEXTS⟩,
    ⟨ACE4_SYNCHRONIZE, 'S', "synchronize".toList, BOTH_CONTEXTS⟩,
    ⟨ACE4_WRITE_RETENTION, 'e', "write_retention".toList, BOTH_CONTEXTS⟩,
    ⟨ACE4_WRITE_RETENTION_HOLD, 'E', "write_retention_hold".toList, BOTH_CONTEXTS⟩ ]

/-- Modelled from the spec: the names richace_owner_who, ..., richace_unknown_who of the
fixed special identities (defined outside the sources), each with the identifier that
write_identifier prints it for; the names are in upper case with the trailing marker,
the form identifier_from_text looks them up in. -/
def special_whos : List (Nat × Str) :=
  [ (ACE_OWNER_ID, "OWNER@".toList),
    (ACE_GROUP_ID, "GROUP@".toList),
    (ACE_EVERYONE_ID, "EVERYONE@".toList),
    (ACE_INTERACTIVE_ID, "INTERACTIVE@".toList),
    (ACE_NETWORK_ID, "NETWORK@".toList),
    (ACE_DIALUP_ID, "DIALUP@".toList),
    (ACE_BATCH_ID, "BATCH@".toList),
    (ACE_ANONYMOUS_ID, "ANONYMOUS@".toList),
    (ACE_AUTHENTICATED_ID, "AUTHENTICATED@".toList),
    (ACE_SERVICE_ID, "SERVICE@".toList),
    (ACE_ADMINISTRATOR_ID, "ADMINISTRATOR@".toList),
    (ACE_ADMINUSERS_ID, "ADMINUSERS@".toList),
    (ACE_NOBODY_ID, "NOBODY@".toList),
    (ACE_UNKNOWN_ID, "UNKNOWN@".toList) ]

/-- Modelled from the spec: richace_set_who (defined outside the sources) maps the upper
case name of a special identity to that identity: the entry gets the implied special_who
flag and the identifier of the identity; any other name is refused. -/
def richace_set_who (ace : richace) (who : Str) : Option richace :=
  match special_whos.find? (fun p => p.2 == who) with
  | some p => some { ace with e_flags := ace.e_flags ||| ACE4_SPECIAL_WHO, e_id := p.1 }
  | none => none

/-- Modelled from the spec: richace_is_owner (richacl.h): the special identity owner. -/
def richace_is_owner (ace : richace) : Bool :=
  ace.e_flags &&& ACE4_SPECIAL_WHO != 0 && ace.e_id == ACE_OWNER_ID

/-- Modelled from the spec: richace_is_group (richacl.h): the special identity group. -/
def richace_is_group (ace : richace) : Bool :=
  ace.e_flags &&& ACE4_SPECIAL_WHO != 0 && ace.e_id == ACE_GROUP_ID

/-- Modelled from the spec: richace_is_everyone (richacl.h): the special identity everyone. -/
def richace_is_everyone (ace : richace) : Bool :=
  ace.e_flags &&& ACE4_SPECIAL_WHO != 0 && ace.e_id == ACE_EVERYONE_ID

/-- Modelled from the spec: richace_is_inherit_only (richacl.h): the entry only applies
to inheritance. -/
def richace_is_inherit_only (ace : richace) : Bool :=
  ace.e_flags &&& ACE4_INHERIT_ONLY_ACE != 0

/-- Modelled from the spec: richace_is_allow (richacl.h): the entry type is Allow. -/
def richace_is_allow (ace : richace) : Bool :=
  ace.e_type == ACE4_ACCESS_ALLOWED_ACE_TYPE

/-! ## The writers -/

/-- The loop of write_acl_flags over the rows that are left, followed by the residual
written after the loop: flags holds the bits not consumed yet and cont tells whether
something was written. -/
def write_acl_flags_loop (fmt : Nat) : List AclFlagBit → Nat → Bool → Str
  | [], flags, cont =>
    if flags != 0 then (if cont then ['/'] else []) ++ ('0' :: 'x' :: fmt_x flags) else []
  | b :: bs, flags, cont =>
    if flags &&& b.a_flag == 0 then write_acl_flags_loop fmt bs flags cont
    else if fmt &&& RICHACL_TEXT_LONG != 0 then
      (if cont then ['/'] else []) ++ b.a_name ++
        write_acl_flags_loop fmt bs (andNot flags b.a_flag) true
    else b.a_char :: write_acl_flags_loop fmt bs (andNot flags b.a_flag) true

/-- The function write_acl_flags: nothing for flags 0, else the line of the flags. -/
def write_acl_flags (flags : Nat) (align : Nat) (fmt : Nat) : Str :=
  if flags == 0 then []
  else pad align "flags".toList ++ [':'] ++ write_acl_flags_loop fmt acl_flag_bits flags false
    ++ ['\n']

/-- The function write_type: the name of a type of the table, else the number. -/
def write_type (type : Nat) : Str :=
  match type_values.find? (fun v => type == v.e_type) with
  | some v => v.e_name
  | none => fmt_u type

/-- The loop of write_ace_flags over the rows that are left, followed by the residual
written after the loop. -/
def write_ace_flags_loop (fmt : Nat) : List AceFlagBit → Nat → Bool → Str
  | [], flags, cont =>
    if flags != 0 then (if cont then ['/'] else []) ++ ('0' :: 'x' :: fmt_x flags) else []
  | b :: bs, flags, cont =>
    if flags &&& b.e_flag == 0 then write_ace_flags_loop fmt bs flags cont
    else if fmt &&& RICHACL_TEXT_LONG != 0 then
      (if cont then ['/'] else []) ++ b.e_name ++
        write_ace_flags_loop fmt bs (andNot flags b.e_flag) true
    else b.e_char :: write_ace_flags_loop fmt bs (andNot flags b.e_flag) true

/-- The function write_ace_flags: the special_who bit is dropped first. -/
def write_ace_flags (flags : Nat) (fmt : Nat) : Str :=
  write_ace_flags_loop fmt ace_flag_bits (andNot flags ACE4_SPECIAL_WHO) false

/-- The loop of write_mask over the rows that are left, followed by the residual written
after the loop; fmt is the format after the adjustment of the contexts. -/
def write_mask_loop (fmt : Nat) : List MaskFlag → Nat → Nat → Bool → Str
  | [], nondir_mask, dir_mask, stuff_written =>
    if nondir_mask ||| dir_mask != 0 then
      (if stuff_written then ['/'] else []) ++ ('0' :: 'x' :: fmt_x (nondir_mask ||| dir_mask))
    else []
  | r :: rs, nondir_mask, dir_mask, stuff_written =>
    let found1 := nondir_mask &&& r.e_mask != 0 && r.e_context &&& RICHACL_TEXT_FILE_CONTEXT != 0
    let nondir_mask := if found1 then andNot nondir_mask r.e_mask else nondir_mask
    let found2 := dir_mask &&& r.e_mask != 0 && r.e_context &&& RICHACL_TEXT_DIRECTORY_CONTEXT != 0
    let dir_mask := if found2 then andNot dir_mask r.e_mask else dir_mask
    if fmt &&& RICHACL_TEXT_SIMPLIFY != 0 && r.e_mask &&& ACE4_POSIX_ALWAYS_ALLOWED != 0 then
      write_mask_loop fmt rs nondir_mask dir_mask stuff_written
    else if found1 || found2 then
      if fmt &&& RICHACL_TEXT_LONG != 0 then
        (if stuff_written then ['/'] else []) ++ r.e_name ++
          write_mask_loop fmt rs nondir_mask dir_mask true
      else r.e_char :: write_mask_loop fmt rs nondir_mask dir_mask true
    else if fmt &&& RICHACL_TEXT_LONG == 0 && fmt &&& RICHACL_TEXT_ALIGN != 0 &&
        r.e_context &&& RICHACL_TEXT_FILE_CONTEXT != 0 then
      '-' :: write_mask_loop fmt rs nondir_mask dir_mask true
    else write_mask_loop fmt rs nondir_mask dir_mask stuff_written

/-- The bits of the rows of a table that apply in one of the contexts ctx. -/
def ctx_bits (ctx : Nat) : List MaskFlag → Nat
  | [] => 0
  | r :: rs => if r.e_context &&& ctx != 0 then r.e_mask ||| ctx_bits ctx rs else ctx_bits ctx rs

/-- The bits of the table mask_flags; the other bits of a mask are its residual. -/
def mask_table_bits : Nat := ctx_bits BOTH_CONTEXTS mask_flags

/-- The adjustment of the contexts at the start of write_mask: the short form is written
in file context only, the long form without any context in both. -/
def write_mask_fmt (fmt : Nat) : Nat :=
  if fmt &&& RICHACL_TEXT_LONG == 0 then
    andNot fmt RICHACL_TEXT_DIRECTORY_CONTEXT ||| RICHACL_TEXT_FILE_CONTEXT
  else if fmt &&& (RICHACL_TEXT_FILE_CONTEXT ||| RICHACL_TEXT_DIRECTORY_CONTEXT) == 0 then
    fmt ||| (RICHACL_TEXT_FILE_CONTEXT ||| RICHACL_TEXT_DIRECTORY_CONTEXT)
  else fmt

/-- The function write_mask. -/
def write_mask (mask : Nat) (fmt : Nat) : Str :=
  let fmt := write_mask_fmt fmt
  let nondir_mask := if fmt &&& RICHACL_TEXT_FILE_CONTEXT != 0 then mask else 0
  let dir_mask := if fmt &&& RICHACL_TEXT_DIRECTORY_CONTEXT != 0 then mask else 0
  write_mask_loop fmt mask_flags nondir_mask dir_mask false

/-- The function richacl_mask_to_text. -/
def richacl_mask_to_text (mask : Nat) (fmt : Nat) : Str :=
  write_mask mask fmt

/-- The switch of write_identifier: the name of the special identity of an identifier,
the name of unknown for every other identifier. -/
def special_who_name (id : Nat) : Str :=
  match special_whos.find? (fun p => p.1 == id) with
  | some p => p.2
  | none => "UNKNOWN@".toList

/-- The function write_identifier: a special identity in lower case, else the name of
the group or user unless numeric ids are asked for or there is no name, else the number. -/
def write_identifier (R : Resolver) (ace : richace) (align : Nat) (fmt : Nat) : Str :=
  if ace.e_flags &&& ACE4_SPECIAL_WHO != 0 then
    pad align ((special_who_name ace.e_id).map tolower)
  else if ace.e_flags &&& ACE4_IDENTIFIER_GROUP != 0 then
    match (if fmt &&& RICHACL_TEXT_NUMERIC_IDS == 0 then R.getgrgid ace.e_id else none) with
    | some name => pad align name
    | none => pad align (fmt_d ace.e_id)
  else
    match (if fmt &&& RICHACL_TEXT_NUMERIC_IDS == 0 then R.getpwuid ace.e_id else none) with
    | some name => pad align name
    | none => pad align (fmt_d ace.e_id)

/-- The width a of one entry in the alignment pass of richacl_to_text. -/
def align_width (R : Resolver) (fmt : Nat) (ace : richace) : Nat :=
  if richace_is_owner ace || richace_is_group ace then 6
  else if richace_is_everyone ace then 9
  else if ace.e_flags &&& ACE4_IDENTIFIER_GROUP != 0 then
    match (if fmt &&& RICHACL_TEXT_NUMERIC_IDS == 0 then R.getgrgid ace.e_id else none) with
    | some name => name.length
    | none => (fmt_d ace.e_id).length
  else
    match (if fmt &&& RICHACL_TEXT_NUMERIC_IDS == 0 then R.getpwuid ace.e_id else none) with
    | some name => name.length
    | none => (fmt_d ace.e_id).length

/-- The alignment pass of richacl_to_text over the entries. -/
def align_loop (R : Resolver) (fmt : Nat) : List richace → Nat → Nat
  | [], align => align
  | ace :: rest, align =>
    let a := align_width R fmt ace
    align_loop R fmt rest (if a ≥ align then a + 1 else align)

/-- The value of align computed at the start of richacl_to_text. -/
def compute_align (R : Resolver) (acl : richacl) (fmt : Nat) : Nat :=
  if fmt &&& RICHACL_TEXT_ALIGN != 0 then
    let align := 0
    let align := if acl.a_flags != 0 && align < 6 then 6 else align
    let align := if fmt &&& RICHACL_TEXT_SHOW_MASKS != 0 && align < 6 then 6 else align
    align_loop R fmt acl.a_entries align
  else 0

/-- The pass of richacl_to_text that collects, over the entries that are not inherit
only, the permissions allowed and the contexts of the mask lines. -/
def masks_loop : List richace → Nat → Nat → Nat × Nat
  | [], allowed, fmt2 => (allowed, fmt2)
  | ace :: rest, allowed, fmt2 =>
    if richace_is_inherit_only ace then masks_loop rest allowed fmt2
    else
      let allowed := if richace_is_allow ace then allowed ||| ace.e_mask else allowed
      let fmt2 := if ace.e_flags &&& ACE4_FILE_INHERIT_ACE != 0 then
        fmt2 ||| RICHACL_TEXT_FILE_CONTEXT else fmt2
      let fmt2 := if ace.e_flags &&& ACE4_DIRECTORY_INHERIT_ACE != 0 then
        fmt2 ||| RICHACL_TEXT_DIRECTORY_CONTEXT else fmt2
      masks_loop rest allowed fmt2

/-- The three mask lines of richacl_to_text, written when masks are shown. -/
def write_masks (acl : richacl) (align : Nat) (fmt : Nat) : Str :=
  if fmt &&& RICHACL_TEXT_SHOW_MASKS != 0 then
    let r := masks_loop acl.a_entries 0 fmt
    let allowed := if fmt &&& RICHACL_TEXT_SIMPLIFY == 0 then 0xffffffff else r.1
    pad align "owner".toList ++ [':'] ++ write_mask (acl.a_owner_mask &&& allowed) r.2
      ++ "::mask\n".toList ++
    pad align "group".toList ++ [':'] ++ write_mask (acl.a_group_mask &&& allowed) r.2
      ++ "::mask\n".toList ++
    pad align "other".toList ++ [':'] ++ write_mask (acl.a_other_mask &&& allowed) r.2
      ++ "::mask\n".toList
  else []

/-- The format fmt2 of one entry line: an inherit only entry loses the contexts of the
call, and the inherit flags of the entry add theirs. -/
def entry_fmt (ace : richace) (fmt : Nat) : Nat :=
  let fmt2 := if ace.e_flags &&& ACE4_INHERIT_ONLY_ACE != 0 then
    andNot fmt (RICHACL_TEXT_FILE_CONTEXT ||| RICHACL_TEXT_DIRECTORY_CONTEXT) else fmt
  let fmt2 := if ace.e_flags &&& ACE4_FILE_INHERIT_ACE != 0 then
    fmt2 ||| RICHACL_TEXT_FILE_CONTEXT else fmt2
  if ace.e_flags &&& ACE4_DIRECTORY_INHERIT_ACE != 0 then
    fmt2 ||| RICHACL_TEXT_DIRECTORY_CONTEXT else fmt2

/-- The line of one entry in richacl_to_text. -/
def write_entry (R : Resolver) (ace : richace) (align : Nat) (fmt : Nat) : Str :=
  write_identifier R ace align fmt ++ [':'] ++
  write_mask ace.e_mask (entry_fmt ace fmt) ++ [':'] ++
  write_ace_flags ace.e_flags (entry_fmt ace fmt) ++ [':'] ++
  write_type ace.e_type ++ ['\n']

/-- The last loop of richacl_to_text: one line for each entry, in order. -/
def write_entries (R : Resolver) (align : Nat) (fmt : Nat) : List richace → Str
  | [] => []
  | ace :: rest => write_entry R ace align fmt ++ write_entries R align fmt rest

/-- The function richacl_to_text. -/
def richacl_to_text (R : Resolver) (acl : richacl) (fmt : Nat) : Str :=
  let align := compute_align R acl fmt
  write_acl_flags acl.a_flags align fmt ++
  write_masks acl align fmt ++
  write_entries R align fmt acl.a_entries

/-! ## The parsers -/

/-- The tokenizing loop that acl_flags_from_text, ace_flags_from_text and mask_from_text
share word for word: skip the slashes at end, cut the sub-token dup at the next slash,
stop at an empty sub-token, else run the body on it and go on after the slash, if any.
The fuel bounds the number of rounds; each round shortens the text. -/
def token_loop {α : Type} (body : Str → α → Option α) : Nat → Str → α → Option α
  | 0, _, _ => none
  | fuel + 1, text, acc =>
    let dup := text.dropWhile (fun c => c == '/')
    if dup.isEmpty then some acc
    else match strchr_split '/' dup with
      | none => body dup acc
      | some p =>
        match body p.1 acc with
        | none => none
        | some acc => token_loop body fuel p.2 acc

/-- The tokenizing loop as its three callers start it: on the whole field, with more fuel
than the field has characters. -/
def run_tokens {α : Type} (body : Str → α → Option α) (text : Str) (acc : α) : Option α :=
  token_loop body (text.length + 1) text acc

/-- The single-character loop of acl_flags_from_text. -/
def acl_flags_chars : Str → Nat → Option Nat
  | [], flags => some flags
  | c :: cs, flags =>
    match acl_flag_bits.find? (fun b => c == b.a_char) with
    | some b => acl_flags_chars cs (flags ||| b.a_flag)
    | none => none

/-- The body of the loop of acl_flags_from_text for the sub-token dup of the field str:
a number (strtoul is applied to str, the whole field), else a mnemonic, else single
characters. -/
def acl_flags_token (str : Str) (dup : Str) (flags : Nat) : Option Nat :=
  if (strtoul str).2.isEmpty then some ((flags ||| (strtoul str).1) % 2 ^ 8)
  else match acl_flag_bits.find? (fun b => strcasecmp dup b.a_name) with
    | some b => some (flags ||| b.a_flag)
    | none => acl_flags_chars dup flags

/-- The function acl_flags_from_text: the new value of a_flags, none for the result -1. -/
def acl_flags_from_text (str : Str) : Option Nat :=
  run_tokens (acl_flags_token str) str 0

/-- The function identifier_from_text: the entry with its identifier set, none for -1. -/
def identifier_from_text (R : Resolver) (str : Str) (ace : richace) : Option richace :=
  match strchr_split '@' str with
  | some p =>
    if !p.2.isEmpty then none
    else richace_set_who ace (str.map toupper)
  | none =>
    if (strtoul str).2.isEmpty then some { ace with e_id := (strtoul str).1 % 2 ^ 32 }
    else if ace.e_flags &&& ACE4_IDENTIFIER_GROUP != 0 then
      match R.getgrnam str with
      | none => none
      | some gid => some { ace with e_id := gid }
    else
      match R.getpwnam str with
      | none => none
      | some uid => some { ace with e_id := uid }

/-- The function type_from_text: the entry with its type set, none for -1. -/
def type_from_text (str : Str) (ace : richace) : Option richace :=
  if (strtoul str).2.isEmpty then some { ace with e_type := (strtoul str).1 % 2 ^ 16 }
  else match type_values.find? (fun v => strcasecmp str v.e_name) with
    | some v => some { ace with e_type := v.e_type }
    | none => none

/-- The single-character loop of ace_flags_from_text. -/
def ace_flags_chars : Str → Nat → Option Nat
  | [], flags => some flags
  | c :: cs, flags =>
    match ace_flag_bits.find? (fun b => c == b.e_char) with
    | some b => ace_flags_chars cs (flags ||| b.e_flag)
    | none => none

/-- The body of the loop of ace_flags_from_text for the sub-token dup of the field str:
a number (strtoul is applied to str, the whole field), else a mnemonic, else single
characters. -/
def ace_flags_token (str : Str) (dup : Str) (flags : Nat) : Option Nat :=
  if (strtoul str).2.isEmpty then some ((flags ||| (strtoul str).1) % 2 ^ 16)
  else match ace_flag_bits.find? (fun b => strcasecmp dup b.e_name) with
    | some b => some (flags ||| b.e_flag)
    | none => ace_flags_chars dup flags

/-- The function ace_flags_from_text: the entry with its flags set, none for -1. -/
def ace_flags_from_text (str : Str) (ace : richace) : Option richace :=
  match run_tokens (ace_flags_token str) str 0 with
  | some flags => some { ace with e_flags := flags }
  | none => none

/-- The single-character loop of mask_from_text; a dash is skipped. -/
def mask_chars : Str → Nat → Option Nat
  | [], mask => some mask
  | c :: cs, mask =>
    if c == '-' then mask_chars cs mask
    else match mask_flags.find? (fun r => c == r.e_char) with
      | some r => mask_chars cs (mask ||| r.e_mask)
      | none => none

/-- The body of the loop of mask_from_text for the sub-token dup: a number, else a
mnemonic, else single characters. -/
def mask_token (dup : Str) (mask : Nat) : Option Nat :=
  if (strtoul dup).2.isEmpty then some ((mask ||| (strtoul dup).1) % 2 ^ 32)
  else match mask_flags.find? (fun r => strcasecmp dup r.e_name) with
    | some r => some (mask ||| r.e_mask)
    | none => mask_chars dup mask

/-- The function mask_from_text: the mask, none for the result -1. -/
def mask_from_text (str : Str) : Option Nat :=
  run_tokens mask_token str 0

/-- The text of a list of sub-tokens joined by slashes. -/
def join_slash : List Str → Str
  | [] => []
  | [x] => x
  | x :: y :: rest => x ++ '/' :: join_slash (y :: rest)

/-- A character that is neither white space nor one of the characters colon, comma, slash,
at, minus and plus, nor a decimal digit. -/
def plain_char (c : Char) : Bool :=
  !isspace c && c != ':' && c != ',' && c != '/' && c != '@' && c != '-' && c != '+' &&
    !(match digit_value c with
      | some d => decide (d < 10)
      | none => false)

/-- The bits of the table acl_flag_bits. -/
def acl_table_bits : Nat := acl_flag_bits.foldl (fun x b => x ||| b.a_flag) 0

/-- The bits of the table ace_flag_bits. -/
def ace_table_bits : Nat := ace_flag_bits.foldl (fun x b => x ||| b.e_flag) 0

/-- The separators between entries: white space and the comma. -/
def is_sep (c : Char) : Bool := isspace c || c == ','

/-- The second half of one round of the loop of richacl_from_text, after the four fields
of the entry have been cut out: the mask is decoded first; a type field MASK makes the
line set one of the three masks of the record; any other line adds an entry, whose flags
are decoded before its identifier and its type. -/
def from_text_fields (R : Resolver) (who_str mask_str flags_str type_str : Str)
    (acl : richacl) (flags : Nat) : Option (richacl × Nat) :=
  match mask_from_text mask_str with
  | none => none
  | some mask =>
    if strcasecmp type_str "MASK".toList then
      if strcasecmp who_str "OWNER".toList then
        some ({ acl with a_owner_mask := mask }, flags ||| RICHACL_TEXT_OWNER_MASK)
      else if strcasecmp who_str "GROUP".toList then
        some ({ acl with a_group_mask := mask }, flags ||| RICHACL_TEXT_GROUP_MASK)
      else if strcasecmp who_str "OTHER".toList then
        some ({ acl with a_other_mask := mask }, flags ||| RICHACL_TEXT_OTHER_MASK)
      else none
    else
      match ace_flags_from_text flags_str ⟨0, 0, mask, 0⟩ with
      | none => none
      | some ace =>
        match identifier_from_text R who_str ace with
        | none => none
        | some ace =>
          match type_from_text type_str ace with
          | none => none
          | some ace => some ({ acl with a_entries := acl.a_entries ++ [ace] }, flags)

/-- One round of the loop of richacl_from_text on a text that starts an entry: the record
and section bits after the entry and the text left, none when the parse fails.  The
field before the first colon is who_str; after FLAGS (in any case) the text up to the
next colon, comma or white space is the flags of the record unless a colon ends it;
otherwise the fields up to the next two colons are mask_str and flags_str, and the text
up to the next comma or white space is type_str. -/
def from_text_entry (R : Resolver) (str : Str) (acl : richacl) (flags : Nat) :
    Option (richacl × Nat × Str) :=
  match strchr_split ':' str with
  | none => none
  | some p1 =>
    if strcasecmp p1.1 "FLAGS".toList &&
        (p1.2.dropWhile (fun ch => !(ch == ':' || ch == ',' || isspace ch))).head? != some ':' then
      match acl_flags_from_text
          (p1.2.takeWhile (fun ch => !(ch == ':' || ch == ',' || isspace ch))) with
      | none => none
      | some f =>
        some ({ acl with a_flags := f }, flags ||| RICHACL_TEXT_FLAGS,
          p1.2.dropWhile (fun ch => !(ch == ':' || ch == ',' || isspace ch)))
    else
      match strchr_split ':' p1.2 with
      | none => none
      | some p2 =>
        match strchr_split ':' p2.2 with
        | none => none
        | some p3 =>
          match from_text_fields R p1.1 p2.1 p3.1
              (p3.2.takeWhile (fun ch => !(ch == ',' || isspace ch))) acl flags with
          | none => none
          | some r => some (r.1, r.2, p3.2.dropWhile (fun ch => !(ch == ',' || isspace ch)))

/-- The loop of richacl_from_text.  The fuel bounds the number of rounds; each round
shortens the text. -/
def richacl_from_text_loop (R : Resolver) : Nat → Str → richacl → Nat → Option (richacl × Nat)
  | 0, _, _, _ => none
  | fuel + 1, str, acl, flags =>
    if str.isEmpty then some (acl, flags)
    else
      if (str.dropWhile is_sep).isEmpty then some (acl, flags)
      else match from_text_entry R (str.dropWhile is_sep) acl flags with
        | none => none
        | some r => richacl_from_text_loop R fuel r.2.2 r.1 r.2.1

/-- The loop of richacl_from_text started on a text with a record and section bits, with
more fuel than the text has characters. -/
def from_text_run (R : Resolver) (str : Str) (acl : richacl) (flags : Nat) : Option (richacl × Nat) :=
  richacl_from_text_loop R (str.length + 1) str acl flags

/-- The function richacl_from_text: the record built from the empty record of
richacl_alloc(0) together with the section bits stored through pflags, none for NULL. -/
def richacl_from_text (R : Resolver) (str : Str) : Option (richacl × Nat) :=
  from_text_run R str ⟨0, 0, 0, 0, []⟩ 0

/-! ## Notions used in the statements -/

/-- Two characters that are equal or the two cases of one ASCII letter. -/
def case_variant (a b : Char) : Bool :=
  a == b || (decide (65 ≤ a.toNat ∧ a.toNat ≤ 90) && b.toNat == a.toNat + 32) ||
    (decide (65 ≤ b.toNat ∧ b.toNat ≤ 90) && a.toNat == b.toNat + 32)

/-- A re-casing: two texts of one length whose characters are case variants place by
place. -/
def recasing : Str → Str → Bool
  | [], [] => true
  | a :: s, b :: t => case_variant a b && recasing s t
  | _, _ => false

/-- The value of a string of digits read in a base, most significant digit first. -/
def digits_value (base : Nat) (ds : Str) : Nat :=
  ds.foldl (fun a c => a * base + (digit_value c).getD 0) 0

/-- A decimal digit, 0 to 9. -/
def is_dec_digit (c : Char) : Bool := decide (48 ≤ c.toNat ∧ c.toNat ≤ 57)

/-- An octal digit, 0 to 7. -/
def is_oct_digit (c : Char) : Bool := decide (48 ≤ c.toNat ∧ c.toNat ≤ 55)

/-- A hexadecimal digit, 0 to 9, a to f or A to F. -/
def is_hex_digit (c : Char) : Bool :=
  match digit_value c with
  | some d => decide (d < 16)
  | none => false

/-- The lines of a text, each without its newline; cur is the line being read. -/
def text_lines_from (cur : Str) : Str → List Str
  | [] => if cur.isEmpty then [] else [cur]
  | c :: cs => if c == '\n' then cur :: text_lines_from [] cs else text_lines_from (cur ++ [c]) cs

/-- The column of the first colon of every line of a text, counted from 0. -/
def colon_columns (text : Str) : List Nat :=
  (text_lines_from [] text).map (fun line => (line.takeWhile (fun c => c != ':')).length)

/-- The test found of one row of write_mask, on given masks nondir_mask and dir_mask. -/
def row_found (nondir_mask dir_mask : Nat) (r : MaskFlag) : Bool :=
  (nondir_mask &&& r.e_mask != 0 && r.e_context &&& RICHACL_TEXT_FILE_CONTEXT != 0) ||
  (dir_mask &&& r.e_mask != 0 && r.e_context &&& RICHACL_TEXT_DIRECTORY_CONTEXT != 0)

/-- The rows that write_mask skips in simplify mode: those of the permissions that are
always allowed. -/
def row_hidden (fmt : Nat) (r : MaskFlag) : Bool :=
  fmt &&& RICHACL_TEXT_SIMPLIFY != 0 && r.e_mask &&& ACE4_POSIX_ALWAYS_ALLOWED != 0

/-- The text of write_mask_loop when every row is tested on the same masks nondir_mask and
dir_mask and the residual resid is given: the loop without the consumption of bits. -/
def mask_rows (fmt nondir_mask dir_mask : Nat) : List MaskFlag → Bool → Nat → Str
  | [], stuff_written, resid =>
    if resid != 0 then (if stuff_written then ['/'] else []) ++ ('0' :: 'x' :: fmt_x resid)
    else []
  | r :: rs, stuff_written, resid =>
    if row_hidden fmt r then mask_rows fmt nondir_mask dir_mask rs stuff_written resid
    else if row_found nondir_mask dir_mask r then
      if fmt &&& RICHACL_TEXT_LONG != 0 then
        (if stuff_written then ['/'] else []) ++ r.e_name ++
          mask_rows fmt nondir_mask dir_mask rs true resid
      else r.e_char :: mask_rows fmt nondir_mask dir_mask rs true resid
    else if fmt &&& RICHACL_TEXT_LONG == 0 && fmt &&& RICHACL_TEXT_ALIGN != 0 &&
        r.e_context &&& RICHACL_TEXT_FILE_CONTEXT != 0 then
      '-' :: mask_rows fmt nondir_mask dir_mask rs true resid
    else mask_rows fmt nondir_mask dir_mask rs stuff_written resid

/-- A table in which no row shares a bit with a later row of the same context. -/
def distinct_bits : List MaskFlag → Bool
  | [] => true
  | r :: rs =>
    (r.e_context &&& RICHACL_TEXT_FILE_CONTEXT == 0 ||
      r.e_mask &&& ctx_bits RICHACL_TEXT_FILE_CONTEXT rs == 0) &&
    (r.e_context &&& RICHACL_TEXT_DIRECTORY_CONTEXT == 0 ||
      r.e_mask &&& ctx_bits RICHACL_TEXT_DIRECTORY_CONTEXT rs == 0) &&
    distinct_bits rs

/-- The rows of mask_flags that write_mask writes for a mask and a format: those that
simplify mode does not hide, whose bit is set in the mask and whose context is one of the
contexts of the format after the adjustment of write_mask. -/
def emitted_rows (mask fmt : Nat) : List MaskFlag :=
  mask_flags.filter (fun r => !row_hidden fmt r &&
    row_found (if write_mask_fmt fmt &&& RICHACL_TEXT_FILE_CONTEXT != 0 then mask else 0)
      (if write_mask_fmt fmt &&& RICHACL_TEXT_DIRECTORY_CONTEXT != 0 then mask else 0) r)

/-- The sub-tokens that write_mask writes for the bits outside the table: none, or 0x and
the bits in hexadecimal. -/
def residual_tokens (mask : Nat) : List Str :=
  if andNot mask mask_table_bits != 0 then ['0' :: 'x' :: fmt_x (andNot mask mask_table_bits)]
  else []

/-- The rows of mask_flags without the rows of the permissions that are always allowed. -/
def visible_rows : List MaskFlag :=
  mask_flags.filter (fun r => r.e_mask &&& ACE4_POSIX_ALWAYS_ALLOWED == 0)

/-- An entry whose flags are covered by the tables: a 16-bit type, a 32-bit mask, flags
made of bits of ace_flag_bits and of special_who, and either special_who with the
identifier of one of the fixed special identities, or no special_who with a numeric
identifier below 2^31. -/
def entry_table_covered (a : richace) : Bool :=
  decide (a.e_type < 2 ^ 16) && decide (a.e_mask < 2 ^ 32) &&
  andNot a.e_flags (ace_table_bits ||| ACE4_SPECIAL_WHO) == 0 &&
  (if a.e_flags &&& ACE4_SPECIAL_WHO != 0 then special_whos.any (fun p => p.1 == a.e_id)
    else decide (a.e_id < 2 ^ 31))

/-- A record whose flags are covered by the tables: ACL flags made of bits of
acl_flag_bits, three 32-bit masks and entries whose flags are covered. -/
def acl_table_covered (acl : richacl) : Bool :=
  andNot acl.a_flags acl_table_bits == 0 && decide (acl.a_owner_mask < 2 ^ 32) &&
  decide (acl.a_group_mask < 2 ^ 32) && decide (acl.a_other_mask < 2 ^ 32) &&
  acl.a_entries.all entry_table_covered

/-- The rows of mask_flags of the file context, the rows of the short form. -/
def file_rows : List MaskFlag :=
  mask_flags.filter (fun r => r.e_context &&& RICHACL_TEXT_FILE_CONTEXT != 0)

/-- A name that stands for an identifier when it is read back as a who field: the name
without the white space and commas it starts with has no colon and no at sign, and it is
the identifier, as a number modulo 2^32 when strtoul reads it entirely, else through the
lookup of the identity directory. -/
def who_resolved (lookup : Str → Option Nat) (name : Str) (id : Nat) : Bool :=
  (name.dropWhile is_sep).all (fun c => c != ':' && c != '@') &&
  (if (strtoul (name.dropWhile is_sep)).2.isEmpty then
    (strtoul (name.dropWhile is_sep)).1 % 2 ^ 32 == id
  else lookup (name.dropWhile is_sep) == some id)

/-- Flags that the text form carries through a table: bits of the table only, or no bit of
the table and a value below 2^width, the width of the field. -/
def flags_carried (table_bits width flags : Nat) : Bool :=
  andNot flags table_bits == 0 || (flags &&& table_bits == 0 && decide (flags < 2 ^ width))

/-- Consistent resolution for an entry: when the identity directory has a name for the
identifier of an entry that is not special (a group name with identifier_group, a user
name without), the name stands for the identifier when it is read back. -/
def entry_resolved (R : Resolver) (a : richace) : Bool :=
  a.e_flags &&& ACE4_SPECIAL_WHO != 0 ||
  (if a.e_flags &&& ACE4_IDENTIFIER_GROUP != 0 then
    match R.getgrgid a.e_id with
    | some name => who_resolved R.getgrnam name a.e_id
    | none => true
  else
    match R.getpwuid a.e_id with
    | some name => who_resolved R.getpwnam name a.e_id
    | none => true)

/-- An entry that the text form carries: a 16-bit type, a 32-bit mask, a 32-bit identifier,
flags that apart from special_who are carried through ace_flag_bits in 16 bits, and, with
special_who, the identifier of one of the fixed special identities. -/
def entry_carried (a : richace) : Bool :=
  decide (a.e_type < 2 ^ 16) && decide (a.e_mask < 2 ^ 32) && decide (a.e_id < 2 ^ 32) &&
  flags_carried ace_table_bits 16 (andNot a.e_flags ACE4_SPECIAL_WHO) &&
  (a.e_flags &&& ACE4_SPECIAL_WHO == 0 || special_whos.any (fun p => p.1 == a.e_id))

/-- A record that the text form carries: ACL flags carried through acl_flag_bits in 8 bits,
three 32-bit masks and entries that are carried. -/
def acl_carried (acl : richacl) : Bool :=
  flags_carried acl_table_bits 8 acl.a_flags && decide (acl.a_owner_mask < 2 ^ 32) &&
  decide (acl.a_group_mask < 2 ^ 32) && decide (acl.a_other_mask < 2 ^ 32) &&
  acl.a_entries.all entry_carried

/-- The permissions that the Allow entries that are not inherit only allow: the value
allowed of richacl_to_text in simplify mode. -/
def allowed_permissions : List richace → Nat
  | [] => 0
  | a :: rest =>
    if !richace_is_inherit_only a && richace_is_allow a then a.e_mask ||| allowed_permissions rest
    else allowed_permissions rest

/-- A record that the text form carries in simplify mode: no mask of an entry has a bit of
the permissions that are always allowed, and the three masks are within the permissions
that the Allow entries that are not inherit only allow. -/
def simplify_carried (acl : richacl) : Bool :=
  acl.a_entries.all (fun a => a.e_mask &&& ACE4_POSIX_ALWAYS_ALLOWED == 0) &&
  [acl.a_owner_mask, acl.a_group_mask, acl.a_other_mask].all
    (fun m => andNot m (allowed_permissions acl.a_entries) == 0)

/-- An identity directory that is consistent and whose only user, with uid 5, has the
given name. -/
def single_user (name : Str) : Resolver :=
  ⟨fun id => if id = 5 then some name else none, fun _ => none,
   fun n => if n = name then some 5 else none, fun _ => none⟩

/-- An identity directory that is consistent, with the user bob of uid 1000 and the group
staff of gid 50. -/
def bob_staff : Resolver :=
  ⟨fun id => if id = 1000 then some "bob".toList else none,
   fun id => if id = 50 then some "staff".toList else none,
   fun n => if n = "bob".toList then some 1000 else none,
   fun n => if n = "staff".toList then some 50 else none⟩

/-- The rows of mask_flags of the directory context. -/
def dir_rows : List MaskFlag :=
  mask_flags.filter (fun r => r.e_context &&& RICHACL_TEXT_DIRECTORY_CONTEXT != 0)

/-- The rows of a table that a format renders for a mask by their name or letter: the rows
whose bit is set in the mask and that simplify mode does not hide. -/
def rendered_rows (mask fmt : Nat) (rows : List MaskFlag) : List MaskFlag :=
  rows.filter (fun r => !row_hidden fmt r && mask &&& r.e_mask != 0)

/-- The characters of the short form over a table: for each row that simplify mode does not
hide, the letter of the row when its bit is set in the mask, and a dash when it is not set
and the format asks for alignment. -/
def short_letters (mask fmt : Nat) (rows : List MaskFlag) : Str :=
  (rows.filter (fun r => !row_hidden fmt r &&
      (mask &&& r.e_mask != 0 || fmt &&& RICHACL_TEXT_ALIGN != 0))).map
    (fun r => if mask &&& r.e_mask != 0 then r.e_char else '-')

/-! ## Numbers: printf against strtoul -/

theorem digit_value_digit_char : ∀ d, d < 16 → digit_value (digit_char d) = some d := by
  decide

theorem isspace_digit_char : ∀ d, d < 16 → isspace (digit_char d) = false := by
  decide

theorem digit_char_ne_zero : ∀ d, d < 16 → 0 < d → (digit_char d == '0') = false := by
  decide

theorem digit_char_not_sign : ∀ d, d < 16 →
    (digit_char d == '-') = false ∧ (digit_char d == '+') = false := by
  decide

theorem strtoul_base_dec (c : Char) (tl : Str) (h : (c == '0') = false) :
    strtoul_base (c :: tl) = (10, c :: tl) := by
  cases tl with
  | nil => simp [strtoul_base, h]
  | cons x tl =>
    cases tl with
    | nil => simp [strtoul_base, h]
    | cons y tl => simp [strtoul_base, h]

theorem strtoul_digits_fmt (b : Nat) (hb : 2 ≤ b) (hb16 : b ≤ 16) :
    ∀ fuel n acc any, n < fuel →
      strtoul_digits b (fmt_digits b fuel n acc) 0 any = strtoul_digits b acc n true := by
  intro fuel
  induction fuel with
  | zero => intro n acc any h; omega
  | succ fuel ih =>
    intro n acc any h
    unfold fmt_digits
    split
    · rename_i hn
      simp [strtoul_digits, digit_value_digit_char n (by omega), hn]
    · rename_i hn
      have hdiv : n / b < fuel := by
        have : n / b < n := Nat.div_lt_self (by omega) (by omega)
        omega
      rw [ih (n / b) _ any hdiv]
      have hmod : n % b < b := Nat.mod_lt _ (by omega)
      simp [strtoul_digits, digit_value_digit_char (n % b) (by omega), hmod]
      congr 1
      exact Nat.div_add_mod' n b

theorem fmt_digits_head (b : Nat) (hb : 2 ≤ b) (hb16 : b ≤ 16) :
    ∀ fuel n acc, n < fuel →
      ∃ d tl, fmt_digits b fuel n acc = digit_char d :: tl ∧ d < b ∧ (0 < n → 0 < d) := by
  intro fuel
  induction fuel with
  | zero => intro n acc h; omega
  | succ fuel ih =>
    intro n acc h
    unfold fmt_digits
    split
    · rename_i hn
      exact ⟨n, acc, rfl, hn, id⟩
    · rename_i hn
      have hdiv : n / b < fuel := by
        have : n / b < n := Nat.div_lt_self (by omega) (by omega)
        omega
      obtain ⟨d, tl, h1, h2, h3⟩ := ih (n / b) (digit_char (n % b) :: acc) hdiv
      refine ⟨d, tl, h1, h2, fun _ => h3 ?_⟩
      exact Nat.div_pos (by omega) (by omega)

theorem strtoul_hex (n : Nat) (hn : n ≤ ULONG_MAX) :
    strtoul ('0' :: 'x' :: fmt_x n) = (n, []) := by
  obtain ⟨d, tl, h1, h2, _⟩ := fmt_digits_head 16 (by omega) (by omega) (n + 1) n [] (by omega)
  have hd := strtoul_digits_fmt 16 (by omega) (by omega) (n + 1) n [] false (by omega)
  unfold fmt_x at *
  rw [h1] at hd ⊢
  have hdv := digit_value_digit_char d h2
  simp [strtoul, strtoul_base, List.dropWhile, isspace, hdv, h2, hd, strtoul_digits]
  omega

theorem strtoul_dec (n : Nat) (hn : n ≤ ULONG_MAX) :
    strtoul (fmt_u n) = (n, []) := by
  obtain ⟨d, tl, h1, h2, h3⟩ := fmt_digits_head 10 (by omega) (by omega) (n + 1) n [] (by omega)
  have hd := strtoul_digits_fmt 10 (by omega) (by omega) (n + 1) n [] false (by omega)
  unfold fmt_u at *
  rw [h1] at hd ⊢
  rcases Nat.eq_zero_or_pos n with h0 | h0
  · subst h0
    rw [← h1]
    decide
  · have hz := digit_char_ne_zero d (by omega) (h3 h0)
    have hsp := isspace_digit_char d (by omega)
    have hsg := digit_char_not_sign d (by omega)
    have hb := strtoul_base_dec (digit_char d) tl hz
    simp [strtoul, List.dropWhile, hsp, hsg, hb, hd, strtoul_digits]
    omega

/-! ## Entry types -/

/-- C4: for every 16-bit entry type t, type_from_text applied to the text of write_type t
succeeds and stores t; Allow and Deny are written as the words allow and deny, and every
other value is written as its decimal number (the conversion %u), which strtoul reads
back as that number. -/
theorem type_round_trip (t : Nat) (ht : t < 2 ^ 16) (ace : richace) :
    type_from_text (write_type t) ace = some { ace with e_type := t } ∧
    write_type ACE4_ACCESS_ALLOWED_ACE_TYPE = "allow".toList ∧
    write_type ACE4_ACCESS_DENIED_ACE_TYPE = "deny".toList ∧
    (t ≠ ACE4_ACCESS_ALLOWED_ACE_TYPE → t ≠ ACE4_ACCESS_DENIED_ACE_TYPE →
      write_type t = fmt_u t ∧ strtoul (write_type t) = (t, [])) := by
  have hgen : t ≠ 0 → t ≠ 1 → write_type t = fmt_u t := by
    intro h0 h1
    have e0 : (t == 0) = false := by simpa using h0
    have e1 : (t == 1) = false := by simpa using h1
    simp [write_type, type_values, List.find?, ACE4_ACCESS_ALLOWED_ACE_TYPE,
      ACE4_ACCESS_DENIED_ACE_TYPE, e0, e1]
  have hdec : strtoul (fmt_u t) = (t, []) := strtoul_dec t (by unfold ULONG_MAX; omega)
  refine ⟨?_, by decide, by decide, ?_⟩
  · by_cases h0 : t = 0
    · subst h0
      have hw : write_type 0 = "allow".toList := by decide
      have hs : strtoul "allow".toList = (0, "allow".toList) := by decide
      have hf : type_values.find? (fun v => strcasecmp "allow".toList v.e_name)
          = some ⟨0, "allow".toList⟩ := by decide
      simp only [type_from_text, hw, hs, hf]
      rfl
    · by_cases h1 : t = 1
      · subst h1
        have hw : write_type 1 = "deny".toList := by decide
        have hs : strtoul "deny".toList = (0, "deny".toList) := by decide
        have hf : type_values.find? (fun v => strcasecmp "deny".toList v.e_name)
            = some ⟨1, "deny".toList⟩ := by decide
        simp only [type_from_text, hw, hs, hf]
        rfl
      · rw [hgen h0 h1]
        simp only [type_from_text, hdec, List.isEmpty_nil, if_true]
        rw [Nat.mod_eq_of_lt ht]
  · intro h0 h1
    have h := hgen h0 h1
    exact ⟨h, by rw [h]; exact hdec⟩

/-- Witness of C4 at the entry type 7, which is neither Allow nor Deny. -/
theorem type_round_trip_witness :
    type_from_text (write_type 7) ⟨0, 0, 0, 0⟩ = some ⟨7, 0, 0, 0⟩ ∧
    write_type 7 = fmt_u 7 ∧ strtoul (write_type 7) = (7, []) :=
  ⟨(type_round_trip 7 (by decide) ⟨0, 0, 0, 0⟩).1,
   (type_round_trip 7 (by decide) ⟨0, 0, 0, 0⟩).2.2.2 (by decide) (by decide)⟩

/-! ## The tokenizing loop -/

theorem strchr_split_some (ch : Char) : ∀ (s : Str) (p : Str × Str),
    strchr_split ch s = some p → s = p.1 ++ ch :: p.2 ∧ ch ∉ p.1 := by
  intro s
  induction s with
  | nil => intro p h; simp [strchr_split] at h
  | cons c cs ih =>
    intro p h
    unfold strchr_split at h
    split at h
    · rename_i hc
      cases h
      simp [hc]
    · rename_i hc
      split at h
      · rename_i q hq
        cases h
        obtain ⟨h1, h2⟩ := ih q hq
        refine ⟨by simp; exact h1, ?_⟩
        simp only [List.mem_cons, not_or]
        exact ⟨fun e => hc e.symm, h2⟩
      · cases h

theorem strchr_split_append (ch : Char) : ∀ (a b : Str), ch ∉ a →
    strchr_split ch (a ++ ch :: b) = some (a, b) := by
  intro a
  induction a with
  | nil => intro b _; simp [strchr_split]
  | cons c cs ih =>
    intro b h
    simp only [List.mem_cons, not_or] at h
    have hc : ¬ c = ch := fun e => h.1 e.symm
    simp [strchr_split, hc, ih b h.2]

theorem strchr_split_none (ch : Char) : ∀ (a : Str), ch ∉ a → strchr_split ch a = none := by
  intro a
  induction a with
  | nil => intro _; rfl
  | cons c cs ih =>
    intro h
    simp only [List.mem_cons, not_or] at h
    have hc : ¬ c = ch := fun e => h.1 e.symm
    simp [strchr_split, hc, ih h.2]

theorem strchr_split_length (ch : Char) (s : Str) (p : Str × Str)
    (h : strchr_split ch s = some p) : p.1.length + p.2.length + 1 = s.length := by
  have := (strchr_split_some ch s p h).1
  rw [this]; simp; omega

theorem dropWhile_length_le (p : Char → Bool) (s : Str) : (s.dropWhile p).length ≤ s.length := by
  induction s with
  | nil => simp
  | cons c cs ih =>
    simp only [List.dropWhile_cons]
    split
    · simp; omega
    · simp

theorem token_loop_step {α : Type} (body : Str → α → Option α) (n : Nat) (text : Str) (acc : α) :
    token_loop body (n + 1) text acc =
      if (text.dropWhile (fun c => c == '/')).isEmpty then some acc
      else match strchr_split '/' (text.dropWhile (fun c => c == '/')) with
        | none => body (text.dropWhile (fun c => c == '/')) acc
        | some p =>
          match body p.1 acc with
          | none => none
          | some acc => token_loop body n p.2 acc := rfl

theorem token_loop_fuel {α : Type} (body : Str → α → Option α) :
    ∀ (f1 f2 : Nat) (text : Str) (acc : α), text.length < f1 → text.length < f2 →
      token_loop body f1 text acc = token_loop body f2 text acc := by
  intro f1
  induction f1 with
  | zero => intro f2 text acc h; omega
  | succ f1 ih =>
    intro f2 text acc h1 h2
    cases f2 with
    | zero => omega
    | succ f2 =>
      rw [token_loop_step, token_loop_step]
      split
      · rfl
      · split
        · rfl
        · rename_i p hp
          have hl := strchr_split_length _ _ _ hp
          have hd := dropWhile_length_le (fun c => c == '/') text
          cases hb : body p.1 acc with
          | none => rfl
          | some a =>
            simp only
            exact ih f2 p.2 a (by omega) (by omega)

theorem run_tokens_nil {α : Type} (body : Str → α → Option α) (acc : α) :
    run_tokens body [] acc = some acc := rfl

theorem run_tokens_slash {α : Type} (body : Str → α → Option α) (t : Str) (acc : α) :
    run_tokens body ('/' :: t) acc = run_tokens body t acc := by
  unfold run_tokens
  rw [token_loop_step, token_loop_step]
  have hd := dropWhile_length_le (fun c => c == '/') t
  simp only [List.dropWhile_cons, beq_self_eq_true, if_true]
  split
  · rfl
  · split
    · rfl
    · rename_i p hp
      have hl := strchr_split_length _ _ _ hp
      cases hb : body p.1 acc with
      | none => rfl
      | some a =>
        simp only
        exact token_loop_fuel body _ _ p.2 a (by simp; omega) (by omega)

theorem dropWhile_slash_tok (tok rest : Str) (h0 : tok ≠ []) (hs : '/' ∉ tok) :
    (tok ++ rest).dropWhile (fun c => c == '/') = tok ++ rest := by
  cases tok with
  | nil => exact absurd rfl h0
  | cons c cs =>
    simp only [List.mem_cons, not_or] at hs
    have : (c == '/') = false := by simpa using fun e => hs.1 e.symm
    simp [List.dropWhile_cons, this]

theorem run_tokens_tok {α : Type} (body : Str → α → Option α) (tok : Str) (acc : α)
    (h0 : tok ≠ []) (hs : '/' ∉ tok) : run_tokens body tok acc = body tok acc := by
  unfold run_tokens
  rw [token_loop_step]
  have hd := dropWhile_slash_tok tok [] h0 hs
  simp only [List.append_nil] at hd
  rw [hd, strchr_split_none _ _ hs]
  cases tok with
  | nil => exact absurd rfl h0
  | cons c cs => simp

theorem run_tokens_tok_slash {α : Type} (body : Str → α → Option α) (tok rest : Str) (acc : α)
    (h0 : tok ≠ []) (hs : '/' ∉ tok) :
    run_tokens body (tok ++ '/' :: rest) acc = (body tok acc).bind (run_tokens body rest) := by
  unfold run_tokens
  rw [token_loop_step]
  rw [dropWhile_slash_tok tok _ h0 hs, strchr_split_append _ _ _ hs]
  cases tok with
  | nil => exact absurd rfl h0
  | cons c cs =>
    simp only [List.cons_append, List.isEmpty_cons, Bool.false_eq_true, if_false]
    cases hb : body (c :: cs) acc with
    | none => rfl
    | some a =>
      simp only [Option.bind]
      exact token_loop_fuel body _ _ rest a (by simp; omega) (by omega)

/-! ## Bits -/

theorem land_two_pow_bne (x k : Nat) : (x &&& 2 ^ k != 0) = x.testBit k := by
  rw [Nat.and_two_pow]
  cases h : x.testBit k
  · simp
  · simp

theorem testBit_andNot (a b i : Nat) : (andNot a b).testBit i = (a.testBit i && !b.testBit i) := by
  simp only [andNot, Nat.testBit_xor, Nat.testBit_and]
  cases a.testBit i <;> cases b.testBit i <;> rfl

theorem andNot_lt (a b n : Nat) (h : a < 2 ^ n) : andNot a b < 2 ^ n := by
  apply Nat.lt_pow_two_of_testBit
  intro i hi
  rw [testBit_andNot]
  have : a.testBit i = false := Nat.testBit_lt_two_pow (lt_of_lt_of_le h (Nat.pow_le_pow_right (by omega) hi))
  simp [this]

theorem lor_lt (a b n : Nat) (ha : a < 2 ^ n) (hb : b < 2 ^ n) : a ||| b < 2 ^ n := by
  apply Nat.lt_pow_two_of_testBit
  intro i hi
  have h1 : a.testBit i = false := Nat.testBit_lt_two_pow (lt_of_lt_of_le ha (Nat.pow_le_pow_right (by omega) hi))
  have h2 : b.testBit i = false := Nat.testBit_lt_two_pow (lt_of_lt_of_le hb (Nat.pow_le_pow_right (by omega) hi))
  simp [Nat.testBit_or, h1, h2]

theorem consume_step (acc nondir dir k : Nat) (f1 f2 : Bool)
    (h1 : f1 = true → nondir.testBit k = true) (h2 : f2 = true → dir.testBit k = true)
    (hf : (f1 || f2) = true) :
    (acc ||| 2 ^ k) ||| ((if f1 then andNot nondir (2 ^ k) else nondir) |||
      (if f2 then andNot dir (2 ^ k) else dir)) = acc ||| (nondir ||| dir) := by
  apply Nat.eq_of_testBit_eq
  intro i
  by_cases hik : k = i
  · subst hik
    cases f1 <;> cases f2 <;>
      simp_all [Nat.testBit_or, testBit_andNot, Nat.testBit_two_pow_self]
  · have hp : (2 ^ k).testBit i = false := by simp [Nat.testBit_two_pow, hik]
    cases f1 <;> cases f2 <;>
      simp [Nat.testBit_or, testBit_andNot, hp]

theorem mask_flags_single_bit : ∀ r ∈ mask_flags, ∃ k, k < 32 ∧ r.e_mask = 2 ^ k := by
  decide

theorem mask_flags_names : ∀ r ∈ mask_flags,
    r.e_name ≠ [] ∧ '/' ∉ r.e_name ∧ (strtoul r.e_name).2.isEmpty = false ∧
    (mask_flags.find? (fun q => strcasecmp r.e_name q.e_name)).map (fun q => q.e_mask)
      = some r.e_mask := by
  decide

/-! ## Masks: the long form -/

theorem fmt_digits_mem (b : Nat) (hb : 2 ≤ b) (hb16 : b ≤ 16) :
    ∀ fuel n acc c, c ∈ fmt_digits b fuel n acc → c ∈ acc ∨ ∃ d, d < 16 ∧ c = digit_char d := by
  intro fuel
  induction fuel with
  | zero => intro n acc c h; exact Or.inl h
  | succ fuel ih =>
    intro n acc c h
    unfold fmt_digits at h
    split at h
    · rename_i hn
      rcases List.mem_cons.1 h with h | h
      · exact Or.inr ⟨n, by omega, h⟩
      · exact Or.inl h
    · rcases ih _ _ _ h with h | h
      · rcases List.mem_cons.1 h with h | h
        · exact Or.inr ⟨n % b, by have := Nat.mod_lt n (show 0 < b by omega); omega, h⟩
        · exact Or.inl h
      · exact Or.inr h

theorem digit_char_plain : ∀ d, d < 16 →
    digit_char d ≠ '/' ∧ digit_char d ≠ ':' ∧ digit_char d ≠ '@' ∧ is_sep (digit_char d) = false := by
  decide

theorem hex_no_slash (v : Nat) : '/' ∉ ('0' :: 'x' :: fmt_x v) := by
  intro h
  simp only [List.mem_cons] at h
  rcases h with h | h | h
  · exact absurd h (by decide)
  · exact absurd h (by decide)
  · rcases fmt_digits_mem 16 (by omega) (by omega) _ _ _ _ h with h | ⟨d, hd, h⟩
    · simp at h
    · exact (digit_char_plain d hd).1 h.symm

theorem mask_token_hex (v acc : Nat) (hv : v < 2 ^ 32) (ha : acc < 2 ^ 32) :
    mask_token ('0' :: 'x' :: fmt_x v) acc = some (acc ||| v) := by
  have h := strtoul_hex v (by unfold ULONG_MAX; omega)
  simp only [mask_token, h, List.isEmpty_nil, if_true]
  rw [Nat.mod_eq_of_lt (lor_lt _ _ 32 ha hv)]

theorem mask_token_name (r : MaskFlag) (hr : r ∈ mask_flags) (acc : Nat) :
    mask_token r.e_name acc = some (acc ||| r.e_mask) := by
  obtain ⟨_, _, h3, h4⟩ := mask_flags_names r hr
  simp only [mask_token, h3, Bool.false_eq_true, if_false]
  cases hf : mask_flags.find? (fun q => strcasecmp r.e_name q.e_name) with
  | none => rw [hf] at h4; simp at h4
  | some q =>
    rw [hf] at h4
    simp only [Option.map_some', Option.some.injEq] at h4
    simp [h4]

theorem run_tokens_tok_rest {α : Type} (body : Str → α → Option α) (tok rest : Str) (acc : α)
    (h0 : tok ≠ []) (hs : '/' ∉ tok) (hr : rest = [] ∨ ∃ t, rest = '/' :: t) :
    run_tokens body (tok ++ rest) acc = (body tok acc).bind (run_tokens body rest) := by
  rcases hr with hr | ⟨t, hr⟩
  · subst hr
    rw [List.append_nil, run_tokens_tok body tok acc h0 hs]
    cases body tok acc <;> rfl
  · subst hr
    rw [run_tokens_tok_slash body tok t acc h0 hs]
    cases body tok acc with
    | none => rfl
    | some a => simp only [Option.bind]; rw [run_tokens_slash]

theorem run_tokens_sep {α : Type} (body : Str → α → Option α) (sw : Bool) (t : Str) (acc : α) :
    run_tokens body ((if sw then ['/'] else []) ++ t) acc = run_tokens body t acc := by
  cases sw
  · rfl
  · exact run_tokens_slash body t acc

theorem write_mask_loop_shape (fmt : Nat) (hl : (fmt &&& RICHACL_TEXT_LONG != 0) = true) :
    ∀ rs nondir dir, write_mask_loop fmt rs nondir dir true = [] ∨
      ∃ t, write_mask_loop fmt rs nondir dir true = '/' :: t := by
  intro rs
  induction rs with
  | nil =>
    intro nondir dir
    unfold write_mask_loop
    split
    · exact Or.inr ⟨_, rfl⟩
    · exact Or.inl rfl
  | cons r rs ih =>
    intro nondir dir
    have hz : (fmt &&& RICHACL_TEXT_LONG == 0) = false := by simpa using hl
    unfold write_mask_loop
    simp only [hl, hz, Bool.false_and, Bool.false_eq_true, if_false, if_true]
    split
    · exact ih _ _
    · split
      · exact Or.inr ⟨_, rfl⟩
      · exact ih _ _

theorem write_mask_long_parse (fmt : Nat) (hl : (fmt &&& RICHACL_TEXT_LONG != 0) = true)
    (hs : (fmt &&& RICHACL_TEXT_SIMPLIFY != 0) = false) :
    ∀ rs, (∀ r ∈ rs, r ∈ mask_flags) → ∀ nondir dir sw acc,
      nondir < 2 ^ 32 → dir < 2 ^ 32 → acc < 2 ^ 32 →
      run_tokens mask_token (write_mask_loop fmt rs nondir dir sw) acc
        = some (acc ||| (nondir ||| dir)) := by
  intro rs
  induction rs with
  | nil =>
    intro _ nondir dir sw acc hn hd ha
    unfold write_mask_loop
    split
    · rw [run_tokens_sep, run_tokens_tok _ _ _ (by simp) (hex_no_slash _)]
      exact mask_token_hex _ _ (lor_lt _ _ 32 hn hd) ha
    · rename_i h
      have : nondir ||| dir = 0 := by simpa using h
      rw [this, run_tokens_nil, Nat.or_zero]
  | cons r rs ih =>
    intro hrs nondir dir sw acc hn hd ha
    have hr : r ∈ mask_flags := hrs r (List.mem_cons_self _ _)
    have hrs' : ∀ q ∈ rs, q ∈ mask_flags := fun q hq => hrs q (List.mem_cons_of_mem _ hq)
    obtain ⟨k, hk, hek⟩ := mask_flags_single_bit r hr
    obtain ⟨hn0, hns, _, _⟩ := mask_flags_names r hr
    unfold write_mask_loop
    simp only [hl, hs, Bool.false_and, Bool.false_eq_true, if_false, if_true]
    generalize hf1 : (nondir &&& r.e_mask != 0 && r.e_context &&& RICHACL_TEXT_FILE_CONTEXT != 0) = f1
    generalize hf2 : (dir &&& r.e_mask != 0 && r.e_context &&& RICHACL_TEXT_DIRECTORY_CONTEXT != 0) = f2
    have hn' : (if f1 = true then andNot nondir r.e_mask else nondir) < 2 ^ 32 := by
      split
      · exact andNot_lt _ _ _ hn
      · exact hn
    have hd' : (if f2 = true then andNot dir r.e_mask else dir) < 2 ^ 32 := by
      split
      · exact andNot_lt _ _ _ hd
      · exact hd
    have h1 : f1 = true → nondir.testBit k = true := by
      intro h; rw [h, hek, land_two_pow_bne] at hf1
      simp only [Bool.and_eq_true] at hf1; exact hf1.1
    have h2 : f2 = true → dir.testBit k = true := by
      intro h; rw [h, hek, land_two_pow_bne] at hf2
      simp only [Bool.and_eq_true] at hf2; exact hf2.1
    by_cases hf : (f1 || f2) = true
    · simp only [hf, if_true]
      rw [List.append_assoc, run_tokens_sep,
        run_tokens_tok_rest _ _ _ _ hn0 hns (write_mask_loop_shape fmt hl _ _ _),
        mask_token_name r hr]
      simp only [Option.bind]
      have hek' : r.e_mask < 2 ^ 32 := by
        rw [hek]; exact Nat.pow_lt_pow_right (by omega) hk
      rw [ih hrs' _ _ _ _ hn' hd' (lor_lt _ _ 32 ha hek')]
      rw [hek]
      exact congrArg some (consume_step acc nondir dir k f1 f2 h1 h2 hf)
    · simp only [hf, Bool.false_eq_true, if_false]
      have hff : f1 = false ∧ f2 = false := by
        cases f1 <;> cases f2 <;> simp_all
      obtain ⟨e1, e2⟩ := hff
      subst e1; subst e2
      simp only [Bool.false_eq_true, if_false]
      have hz : (fmt &&& RICHACL_TEXT_LONG == 0) = false := by
        simpa using hl
      simp only [hz, Bool.false_and, Bool.false_eq_true, if_false]
      exact ih hrs' _ _ _ _ hn hd ha

/-! ## Masks: the short form -/

theorem strtoul_digits_stop (c : Char) (t : Str) (acc : Nat) (any : Bool)
    (h : ∀ d, d < 10 → digit_value c ≠ some d) :
    strtoul_digits 10 (c :: t) acc any = (acc, any, c :: t) := by
  unfold strtoul_digits
  cases hd : digit_value c with
  | none => rfl
  | some d =>
    have : ¬ d < 10 := fun hlt => h d hlt hd
    simp [this]

theorem strtoul_nondigit (c : Char) (t : Str) (h1 : isspace c = false)
    (h2 : (c == '-') = false) (h3 : (c == '+') = false) (h5 : (c == '0') = false)
    (h4 : ∀ d, d < 10 → digit_value c ≠ some d) : strtoul (c :: t) = (0, c :: t) := by
  have hb := strtoul_base_dec c t h5
  have hd := strtoul_digits_stop c t 0 false h4
  have e2 : ¬ c = '-' := by simpa using h2
  have e3 : ¬ c = '+' := by simpa using h3
  simp [strtoul, List.dropWhile, h1, e2, e3, hb, hd]

theorem strtoul_dash (t : Str)
    (h : ∀ c ∈ t.head?, (c == '0') = false ∧ ∀ d, d < 10 → digit_value c ≠ some d) :
    strtoul ('-' :: t) = (0, '-' :: t) := by
  cases t with
  | nil => decide
  | cons c t =>
    obtain ⟨h5, h4⟩ := h c (by simp)
    have hb := strtoul_base_dec c t h5
    have hd := strtoul_digits_stop c t 0 false h4
    have hsp : isspace '-' = false := by decide
    simp [strtoul, List.dropWhile, hsp, hb, hd]

theorem mask_letters_first : ∀ r ∈ mask_flags,
    isspace r.e_char = false ∧ (r.e_char == '-') = false ∧ (r.e_char == '+') = false ∧
    (r.e_char == '0') = false ∧ (∀ d, d < 10 → digit_value r.e_char ≠ some d) ∧
    r.e_char ≠ '/' ∧ r.e_char ≠ ':' ∧ is_sep r.e_char = false := by
  decide

theorem dash_nondigit : ('-' == '0') = false ∧ ∀ d, d < 10 → digit_value '-' ≠ some d := by
  decide

theorem mask_names_marked : ∀ q ∈ mask_flags,
    ∃ b ∈ ['_', 't', 'y'], b ∈ q.e_name.map tolower := by
  decide

theorem mask_letters_unmarked : ∀ r ∈ mask_flags, tolower r.e_char ∉ ['_', 't', 'y'] := by
  decide

theorem strtoul_mask_letters (L : Str) (h0 : L ≠ [])
    (hL : ∀ ch ∈ L, ch = '-' ∨ ∃ r ∈ mask_flags, ch = r.e_char) :
    strtoul L = (0, L) := by
  cases L with
  | nil => exact absurd rfl h0
  | cons c t =>
    rcases hL c (List.mem_cons_self _ _) with hc | ⟨r, hr, hc⟩
    · subst hc
      apply strtoul_dash
      intro c hc
      cases t with
      | nil => simp at hc
      | cons c' t' =>
        simp only [List.head?_cons, Option.mem_def, Option.some.injEq] at hc
        subst hc
        rcases hL c' (by simp) with hc | ⟨r, hr, hc⟩
        · subst hc; exact dash_nondigit
        · subst hc
          obtain ⟨_, _, _, h5, h4, _⟩ := mask_letters_first r hr
          exact ⟨h5, h4⟩
    · subst hc
      obtain ⟨h1, h2, h3, h5, h4, _⟩ := mask_letters_first r hr
      exact strtoul_nondigit _ _ h1 h2 h3 h5 h4

theorem mask_letters_no_name (L : Str)
    (hL : ∀ ch ∈ L, ch = '-' ∨ ∃ r ∈ mask_flags, ch = r.e_char) :
    mask_flags.find? (fun q => strcasecmp L q.e_name) = none := by
  rw [List.find?_eq_none]
  intro q hq hcmp
  obtain ⟨b, hb, hbq⟩ := mask_names_marked q hq
  have heq : L.map tolower = q.e_name.map tolower := by
    simpa [strcasecmp] using hcmp
  rw [← heq, List.mem_map] at hbq
  obtain ⟨ch, hch, hchb⟩ := hbq
  rcases hL ch hch with hc | ⟨r, hr, hc⟩
  · subst hc; subst hchb; revert hb; decide
  · subst hc; subst hchb; exact mask_letters_unmarked r hr hb

theorem mask_token_letters (L : Str) (h0 : L ≠ [])
    (hL : ∀ ch ∈ L, ch = '-' ∨ ∃ r ∈ mask_flags, ch = r.e_char) (acc : Nat) :
    mask_token L acc = mask_chars L acc := by
  have h1 := strtoul_mask_letters L h0 hL
  have h2 := mask_letters_no_name L hL
  cases L with
  | nil => exact absurd rfl h0
  | cons c t =>
    simp only [mask_token, h1, h2, List.isEmpty_cons, Bool.false_eq_true, if_false]

theorem mask_letters_no_slash (L : Str)
    (hL : ∀ ch ∈ L, ch = '-' ∨ ∃ r ∈ mask_flags, ch = r.e_char) : '/' ∉ L := by
  intro h
  rcases hL _ h with hc | ⟨r, hr, hc⟩
  · exact absurd hc (by decide)
  · exact (mask_letters_first r hr).2.2.2.2.2.1 hc.symm

theorem mask_flags_file_char : ∀ r ∈ mask_flags,
    (r.e_context &&& RICHACL_TEXT_FILE_CONTEXT != 0) = true →
    (mask_flags.find? (fun q => r.e_char == q.e_char)).map (fun q => q.e_mask)
      = some r.e_mask := by
  decide

theorem mask_chars_cons_row (r : MaskFlag) (hr : r ∈ mask_flags)
    (hc : (r.e_context &&& RICHACL_TEXT_FILE_CONTEXT != 0) = true) (L : Str) (acc : Nat) :
    mask_chars (r.e_char :: L) acc = mask_chars L (acc ||| r.e_mask) := by
  have h := mask_flags_file_char r hr hc
  have hd := (mask_letters_first r hr).2.1
  cases hf : mask_flags.find? (fun q => r.e_char == q.e_char) with
  | none => rw [hf] at h; simp at h
  | some q =>
    rw [hf] at h
    simp only [Option.map_some', Option.some.injEq] at h
    simp only [mask_chars, hd, hf, h, Bool.false_eq_true, if_false]

theorem consume_one (n k : Nat) (h : n.testBit k = true) : 2 ^ k ||| andNot n (2 ^ k) = n := by
  apply Nat.eq_of_testBit_eq
  intro i
  by_cases hik : k = i
  · subst hik; simp [Nat.testBit_or, testBit_andNot, Nat.testBit_two_pow_self, h]
  · have hp : (2 ^ k).testBit i = false := by simp [Nat.testBit_two_pow, hik]
    simp [Nat.testBit_or, testBit_andNot, hp]

theorem write_mask_short_shape (fmt : Nat) (hl : (fmt &&& RICHACL_TEXT_LONG != 0) = false)
    (hs : (fmt &&& RICHACL_TEXT_SIMPLIFY != 0) = false) :
    ∀ rs, (∀ r ∈ rs, r ∈ mask_flags) → ∀ nondir sw, nondir < 2 ^ 32 →
      ∃ L c v, write_mask_loop fmt rs nondir 0 sw =
          L ++ (if v != 0 then (if sw || !L.isEmpty then ['/'] else []) ++ ('0' :: 'x' :: fmt_x v)
            else []) ∧
        (∀ ch ∈ L, ch = '-' ∨ ∃ r ∈ mask_flags, ch = r.e_char) ∧
        (∀ acc, mask_chars L acc = some (acc ||| c)) ∧
        c ||| v = nondir ∧ v < 2 ^ 32 ∧ c < 2 ^ 32 := by
  intro rs
  induction rs with
  | nil =>
    intro _ nondir sw hn
    refine ⟨[], 0, nondir, ?_, by simp, by intro acc; simp [mask_chars], by simp, hn, by omega⟩
    unfold write_mask_loop
    simp
  | cons r rs ih =>
    intro hrs nondir sw hn
    have hr : r ∈ mask_flags := hrs r (List.mem_cons_self _ _)
    have hrs' : ∀ q ∈ rs, q ∈ mask_flags := fun q hq => hrs q (List.mem_cons_of_mem _ hq)
    obtain ⟨k, hk, hek⟩ := mask_flags_single_bit r hr
    have hek' : r.e_mask < 2 ^ 32 := by
      rw [hek]; exact Nat.pow_lt_pow_right (by omega) hk
    have hz : (fmt &&& RICHACL_TEXT_LONG == 0) = true := by simpa using hl
    unfold write_mask_loop
    simp only [hl, hs, hz, Nat.zero_and, bne_self_eq_false, Bool.false_and, Bool.true_and,
      Bool.false_eq_true, if_false, Bool.or_false]
    by_cases hf1 : (nondir &&& r.e_mask != 0 && r.e_context &&& RICHACL_TEXT_FILE_CONTEXT != 0) = true
    · simp only [hf1, if_true]
      obtain ⟨L, c, v, h1, h2, h3, h4, h5, h6⟩ := ih hrs' (andNot nondir r.e_mask) true
        (andNot_lt _ _ _ hn)
      simp only [Bool.and_eq_true] at hf1
      refine ⟨r.e_char :: L, r.e_mask ||| c, v, ?_, ?_, ?_, ?_, h5, lor_lt _ _ 32 hek' h6⟩
      · rw [h1]; simp
      · intro ch hch
        rcases List.mem_cons.1 hch with h | h
        · exact Or.inr ⟨r, hr, h⟩
        · exact h2 ch h
      · intro acc
        rw [mask_chars_cons_row r hr hf1.2, h3, Nat.lor_assoc]
      · rw [Nat.lor_assoc, h4, hek]
        apply consume_one
        have := hf1.1
        rw [hek, land_two_pow_bne] at this
        exact this
    · simp only [hf1, Bool.false_eq_true, if_false]
      by_cases hd : (fmt &&& RICHACL_TEXT_ALIGN != 0 &&
          r.e_context &&& RICHACL_TEXT_FILE_CONTEXT != 0) = true
      · simp only [hd, if_true]
        obtain ⟨L, c, v, h1, h2, h3, h4, h5, h6⟩ := ih hrs' nondir true hn
        refine ⟨'-' :: L, c, v, ?_, ?_, ?_, h4, h5, h6⟩
        · rw [h1]; simp
        · intro ch hch
          rcases List.mem_cons.1 hch with h | h
          · exact Or.inl h
          · exact h2 ch h
        · intro acc
          simp only [mask_chars, beq_self_eq_true, if_true, h3]
      · simp only [hd, Bool.false_eq_true, if_false]
        exact ih hrs' nondir sw hn

theorem write_mask_short_parse (fmt : Nat) (hl : (fmt &&& RICHACL_TEXT_LONG != 0) = false)
    (hs : (fmt &&& RICHACL_TEXT_SIMPLIFY != 0) = false) (m : Nat) (hm : m < 2 ^ 32) :
    run_tokens mask_token (write_mask_loop fmt mask_flags m 0 false) 0 = some m := by
  obtain ⟨L, c, v, h1, h2, h3, h4, h5, h6⟩ :=
    write_mask_short_shape fmt hl hs mask_flags (fun _ h => h) m false hm
  rw [h1]
  by_cases hL : L = []
  · subst hL
    have hc : c = 0 := by
      have := h3 0
      simp [mask_chars] at this
      exact this.symm
    subst hc
    simp only [Nat.zero_or] at h4
    subst h4
    simp only [List.nil_append, List.isEmpty_nil, Bool.not_true, Bool.or_false,
      Bool.false_eq_true, if_false]
    split
    · rw [run_tokens_tok _ _ _ (by simp) (hex_no_slash _), mask_token_hex _ _ h5 (by omega)]
      simp
    · rename_i hv
      have : v = 0 := by simpa using hv
      subst this; rfl
  · have hne : L.isEmpty = false := by
      cases L with
      | nil => exact absurd rfl hL
      | cons _ _ => rfl
    simp only [hne, Bool.not_false, Bool.or_true, if_true]
    split
    · rw [List.singleton_append,
        run_tokens_tok_slash _ _ _ _ hL (mask_letters_no_slash L h2),
        mask_token_letters L hL h2, h3]
      simp only [Option.bind, Nat.zero_or]
      rw [run_tokens_tok _ _ _ (by simp) (hex_no_slash _), mask_token_hex _ _ h5 h6, h4]
    · rename_i hv
      have : v = 0 := by simpa using hv
      subst this
      rw [List.append_nil, run_tokens_tok _ _ _ hL (mask_letters_no_slash L h2),
        mask_token_letters L hL h2, h3]
      simp only [Nat.zero_or, Nat.or_zero] at h4 ⊢
      rw [h4]

/-! ## Masks: the round trip -/

theorem bit_long (x : Nat) : (x &&& RICHACL_TEXT_LONG != 0) = x.testBit 0 :=
  land_two_pow_bne x 0

theorem bit_file (x : Nat) : (x &&& RICHACL_TEXT_FILE_CONTEXT != 0) = x.testBit 1 :=
  land_two_pow_bne x 1

theorem bit_dir (x : Nat) : (x &&& RICHACL_TEXT_DIRECTORY_CONTEXT != 0) = x.testBit 2 :=
  land_two_pow_bne x 2

theorem bit_show (x : Nat) : (x &&& RICHACL_TEXT_SHOW_MASKS != 0) = x.testBit 3 :=
  land_two_pow_bne x 3

theorem bit_simplify (x : Nat) : (x &&& RICHACL_TEXT_SIMPLIFY != 0) = x.testBit 4 :=
  land_two_pow_bne x 4

theorem bit_align (x : Nat) : (x &&& RICHACL_TEXT_ALIGN != 0) = x.testBit 5 :=
  land_two_pow_bne x 5

theorem bit_numeric (x : Nat) : (x &&& RICHACL_TEXT_NUMERIC_IDS != 0) = x.testBit 6 :=
  land_two_pow_bne x 6

theorem testBit_ctx (i : Nat) :
    (RICHACL_TEXT_FILE_CONTEXT ||| RICHACL_TEXT_DIRECTORY_CONTEXT).testBit i
      = (decide (1 = i) || decide (2 = i)) := by
  have : RICHACL_TEXT_FILE_CONTEXT ||| RICHACL_TEXT_DIRECTORY_CONTEXT = 2 ^ 1 ||| 2 ^ 2 := by
    decide
  rw [this, Nat.testBit_or, Nat.testBit_two_pow, Nat.testBit_two_pow]

theorem testBit_file (i : Nat) : RICHACL_TEXT_FILE_CONTEXT.testBit i = decide (1 = i) := by
  have : RICHACL_TEXT_FILE_CONTEXT = 2 ^ 1 := by decide
  rw [this, Nat.testBit_two_pow]

theorem testBit_dir (i : Nat) : RICHACL_TEXT_DIRECTORY_CONTEXT.testBit i = decide (2 = i) := by
  have : RICHACL_TEXT_DIRECTORY_CONTEXT = 2 ^ 2 := by decide
  rw [this, Nat.testBit_two_pow]

theorem ctx_of_ne_zero (x : Nat)
    (h : (x &&& (RICHACL_TEXT_FILE_CONTEXT ||| RICHACL_TEXT_DIRECTORY_CONTEXT) == 0) = false) :
    x.testBit 1 = true ∨ x.testBit 2 = true := by
  by_contra hc
  simp only [not_or, Bool.not_eq_true] at hc
  have : x &&& (RICHACL_TEXT_FILE_CONTEXT ||| RICHACL_TEXT_DIRECTORY_CONTEXT) = 0 := by
    apply Nat.eq_of_testBit_eq
    intro i
    rw [Nat.testBit_and, testBit_ctx]
    by_cases h1 : 1 = i
    · subst h1; simp [hc.1]
    · by_cases h2 : 2 = i
      · subst h2; simp [hc.2]
      · simp [h1, h2]
  simp [this] at h

/-- The bits of the format that write_mask_loop reads, after the adjustment of write_mask. -/
theorem write_mask_fmt_bits (fmt : Nat) :
    (write_mask_fmt fmt).testBit 0 = fmt.testBit 0 ∧
    (write_mask_fmt fmt).testBit 4 = fmt.testBit 4 ∧
    (write_mask_fmt fmt).testBit 5 = fmt.testBit 5 ∧
    (fmt.testBit 0 = false →
      (write_mask_fmt fmt).testBit 1 = true ∧ (write_mask_fmt fmt).testBit 2 = false) ∧
    (fmt.testBit 0 = true →
      ((write_mask_fmt fmt).testBit 1 = true ∨ (write_mask_fmt fmt).testBit 2 = true)) := by
  unfold write_mask_fmt
  have hl : (fmt &&& RICHACL_TEXT_LONG == 0) = !fmt.testBit 0 := by
    have := bit_long fmt
    rw [← this]; cases h : (fmt &&& RICHACL_TEXT_LONG == 0) <;> simp_all [bne]
  rw [hl]
  cases h0 : fmt.testBit 0
  · simp only [Bool.not_false, if_true, Nat.testBit_or, testBit_andNot, testBit_file,
      testBit_dir, h0]
    simp
  · simp only [Bool.not_true, Bool.false_eq_true, if_false]
    split
    · simp only [Nat.testBit_or, testBit_file, testBit_dir, h0]
      simp
    · rename_i hc
      simp only [Bool.not_eq_true] at hc
      simp [h0, ctx_of_ne_zero fmt hc]

theorem mask_text_read_back (m fmt : Nat) (hm : m < 2 ^ 32)
    (hs : fmt &&& RICHACL_TEXT_SIMPLIFY = 0) :
    mask_from_text (write_mask m fmt) = some m := by
  obtain ⟨b0, b4, _, bs, bl⟩ := write_mask_fmt_bits fmt
  have hs4 : fmt.testBit 4 = false := by
    rw [← bit_simplify, hs]; rfl
  have hs' : (write_mask_fmt fmt &&& RICHACL_TEXT_SIMPLIFY != 0) = false := by
    rw [bit_simplify, b4, hs4]
  unfold mask_from_text write_mask
  simp only [bit_file, bit_dir]
  cases h0 : fmt.testBit 0
  · have hl' : (write_mask_fmt fmt &&& RICHACL_TEXT_LONG != 0) = false := by
      rw [bit_long, b0, h0]
    obtain ⟨h1, h2⟩ := bs h0
    simp only [h1, h2, if_true, Bool.false_eq_true, if_false]
    exact write_mask_short_parse _ hl' hs' m hm
  · have hl' : (write_mask_fmt fmt &&& RICHACL_TEXT_LONG != 0) = true := by
      rw [bit_long, b0, h0]
    rw [write_mask_long_parse _ hl' hs' mask_flags (fun _ h => h) _ _ _ 0
      (by split <;> omega) (by split <;> omega) (by omega)]
    rcases bl h0 with h | h
    · simp only [h, if_true]
      split
      · simp
      · simp
    · simp only [h, if_true]
      split
      · simp
      · simp

theorem land_eq_zero_bits (n e : Nat) (h : n &&& e = 0) (i : Nat) :
    (n.testBit i && e.testBit i) = false := by
  rw [← Nat.testBit_and, h]; simp

theorem resid_step (n e B : Nat) (c : Bool) :
    andNot (if (n &&& e != 0 && c) = true then andNot n e else n) B
      = andNot n (if c = true then e ||| B else B) := by
  cases c
  · simp
  · by_cases h : (n &&& e != 0) = true
    · simp only [h, Bool.and_true, if_true]
      apply Nat.eq_of_testBit_eq
      intro i
      simp only [testBit_andNot, Nat.testBit_or]
      cases n.testBit i <;> cases e.testBit i <;> cases B.testBit i <;> rfl
    · simp only [h, Bool.and_true, if_true, Bool.false_eq_true, if_false]
      have hz : n &&& e = 0 := by simpa using h
      apply Nat.eq_of_testBit_eq
      intro i
      have := land_eq_zero_bits n e hz i
      simp only [testBit_andNot, Nat.testBit_or]
      revert this
      cases n.testBit i <;> cases e.testBit i <;> cases B.testBit i <;> simp

theorem write_mask_loop_cons (fmt : Nat) (r : MaskFlag) (rs : List MaskFlag)
    (nondir dir : Nat) (sw : Bool) :
    ∃ (piece : Str) (sw' : Bool), write_mask_loop fmt (r :: rs) nondir dir sw =
      piece ++ write_mask_loop fmt rs
        (if (nondir &&& r.e_mask != 0 && r.e_context &&& RICHACL_TEXT_FILE_CONTEXT != 0) = true
          then andNot nondir r.e_mask else nondir)
        (if (dir &&& r.e_mask != 0 && r.e_context &&& RICHACL_TEXT_DIRECTORY_CONTEXT != 0) = true
          then andNot dir r.e_mask else dir) sw' := by
  rw [write_mask_loop]
  split
  · exact ⟨[], sw, rfl⟩
  · split
    · split
      · exact ⟨_, true, rfl⟩
      · exact ⟨[r.e_char], true, rfl⟩
    · split
      · exact ⟨['-'], true, rfl⟩
      · exact ⟨[], sw, rfl⟩

theorem write_mask_loop_trailing (fmt : Nat) : ∀ rs nondir dir sw,
    ∃ (pre : Str) (sw' : Bool), write_mask_loop fmt rs nondir dir sw = pre ++
      (if andNot nondir (ctx_bits RICHACL_TEXT_FILE_CONTEXT rs) |||
          andNot dir (ctx_bits RICHACL_TEXT_DIRECTORY_CONTEXT rs) != 0 then
        (if sw' then ['/'] else []) ++ ('0' :: 'x' ::
          fmt_x (andNot nondir (ctx_bits RICHACL_TEXT_FILE_CONTEXT rs) |||
            andNot dir (ctx_bits RICHACL_TEXT_DIRECTORY_CONTEXT rs)))
      else []) := by
  intro rs
  induction rs with
  | nil =>
    intro nondir dir sw
    refine ⟨[], sw, ?_⟩
    have e : ∀ n, andNot n 0 = n := by intro n; simp [andNot]
    simp only [ctx_bits, e, List.nil_append]
    rfl
  | cons r rs ih =>
    intro nondir dir sw
    obtain ⟨piece, sw1, h1⟩ := write_mask_loop_cons fmt r rs nondir dir sw
    obtain ⟨pre, sw2, h2⟩ := ih
      (if (nondir &&& r.e_mask != 0 && r.e_context &&& RICHACL_TEXT_FILE_CONTEXT != 0) = true
          then andNot nondir r.e_mask else nondir)
      (if (dir &&& r.e_mask != 0 && r.e_context &&& RICHACL_TEXT_DIRECTORY_CONTEXT != 0) = true
          then andNot dir r.e_mask else dir) sw1
    refine ⟨piece ++ pre, sw2, ?_⟩
    rw [h1, h2, resid_step, resid_step, List.append_assoc]
    rfl

theorem mask_table_bits_ctx :
    ctx_bits RICHACL_TEXT_FILE_CONTEXT mask_flags = mask_table_bits ∧
    ctx_bits RICHACL_TEXT_DIRECTORY_CONTEXT mask_flags = mask_table_bits := by
  decide

theorem write_mask_trailing (m fmt : Nat) (h : andNot m mask_table_bits ≠ 0) :
    ∃ pre, write_mask m fmt = pre ++ ('0' :: 'x' :: fmt_x (andNot m mask_table_bits)) := by
  obtain ⟨_, _, _, bs, bl⟩ := write_mask_fmt_bits fmt
  have e0 : andNot 0 mask_table_bits = 0 := by simp [andNot]
  have key : ∀ nondir dir, (nondir = m ∨ nondir = 0) → (dir = m ∨ dir = 0) →
      (nondir = m ∨ dir = m) →
      ∃ pre, write_mask_loop (write_mask_fmt fmt) mask_flags nondir dir false
        = pre ++ ('0' :: 'x' :: fmt_x (andNot m mask_table_bits)) := by
    intro nondir dir hn hd hnd
    obtain ⟨pre, sw', hp⟩ := write_mask_loop_trailing (write_mask_fmt fmt) mask_flags nondir dir false
    rw [mask_table_bits_ctx.1, mask_table_bits_ctx.2] at hp
    have hv : andNot nondir mask_table_bits ||| andNot dir mask_table_bits
        = andNot m mask_table_bits := by
      rcases hn with hn | hn <;> rcases hd with hd | hd <;> subst hn <;> try subst hd
      · simp
      · simp [e0]
      · simp [e0]
      · rcases hnd with h' | h' <;> (rw [← h']; simp [e0])
    rw [hv] at hp
    have hne : (andNot m mask_table_bits != 0) = true := by simpa using h
    rw [hne] at hp
    simp only [if_true] at hp
    refine ⟨pre ++ (if sw' then ['/'] else []), ?_⟩
    rw [hp]; simp
  unfold write_mask
  simp only [bit_file, bit_dir]
  apply key
  · split <;> simp
  · split <;> simp
  · cases h0 : fmt.testBit 0
    · left; simp [(bs h0).1]
    · rcases bl h0 with h' | h'
      · left; simp [h']
      · right; simp [h']

/-- C2: for every 32-bit mask m and every format without simplify (short or long, any
contexts, with or without align), mask_from_text applied to the text of write_mask, which
is the text of richacl_mask_to_text, succeeds and yields exactly m; when m has bits
outside the table mask_flags the text ends with 0x and those bits in hexadecimal. -/
theorem mask_round_trip (m fmt : Nat) (hm : m < 2 ^ 32)
    (hs : fmt &&& RICHACL_TEXT_SIMPLIFY = 0) :
    mask_from_text (write_mask m fmt) = some m ∧
    mask_from_text (richacl_mask_to_text m fmt) = some m ∧
    (andNot m mask_table_bits ≠ 0 →
      ∃ pre, write_mask m fmt = pre ++ ('0' :: 'x' :: fmt_x (andNot m mask_table_bits))) :=
  ⟨mask_text_read_back m fmt hm hs, mask_text_read_back m fmt hm hs,
    write_mask_trailing m fmt⟩

/-- Witness of C2 at the mask 0x800021 (read_data, execute and one bit outside the table)
in the short form. -/
theorem mask_round_trip_witness :
    mask_from_text (write_mask 0x800021 0) = some 0x800021 ∧
    ∃ pre, write_mask 0x800021 0 = pre ++ ('0' :: 'x' :: fmt_x (andNot 0x800021 mask_table_bits)) :=
  ⟨(mask_round_trip 0x800021 0 (by decide) (by decide)).1,
   (mask_round_trip 0x800021 0 (by decide) (by decide)).2.2 (by decide)⟩

/-! ## Entry flags as written and as read -/

/-- C3: the entry flags file_inherit plus the bit 0x100 outside the table are written as
f/0x100 in the short form and as FILE_INHERIT_ACE/0x100 in the long form, and
ace_flags_from_text rejects both texts: it applies strtoul to the whole field for each
sub-token, so the sub-token 0x100 is not read as a number; alone, 0x100 is read back. -/
theorem ace_flags_unknown_bits_rejected :
    write_ace_flags 0x101 0 = "f/0x100".toList ∧
    ace_flags_from_text (write_ace_flags 0x101 0) ⟨0, 0, 0, 0⟩ = none ∧
    write_ace_flags 0x101 RICHACL_TEXT_LONG = "FILE_INHERIT_ACE/0x100".toList ∧
    ace_flags_from_text (write_ace_flags 0x101 RICHACL_TEXT_LONG) ⟨0, 0, 0, 0⟩ = none ∧
    ace_flags_from_text (write_ace_flags 0x100 0) ⟨0, 0, 0, 0⟩ = some ⟨0, 0x100, 0, 0⟩ := by
  decide

/-- C7: in the long form the entry flags FILE_INHERIT|DIRECTORY_INHERIT are written as
FILE_INHERIT_ACE/DIRECTORY_INHERIT_ACE, the stringified names of the constants, and not as
file_inherit/dir_inherit. -/
theorem ace_flags_long_names :
    write_ace_flags (ACE4_FILE_INHERIT_ACE ||| ACE4_DIRECTORY_INHERIT_ACE) RICHACL_TEXT_LONG
      = "FILE_INHERIT_ACE/DIRECTORY_INHERIT_ACE".toList ∧
    write_ace_flags (ACE4_FILE_INHERIT_ACE ||| ACE4_DIRECTORY_INHERIT_ACE) RICHACL_TEXT_LONG
      ≠ "file_inherit/dir_inherit".toList := by
  decide

/-! ## The parser: one entry -/


theorem takeWhile_append_stop (p : Char → Bool) : ∀ (a : Str) (x : Char) (b : Str),
    (∀ c ∈ a, p c = true) → p x = false →
    (a ++ x :: b).takeWhile p = a ∧ (a ++ x :: b).dropWhile p = x :: b := by
  intro a
  induction a with
  | nil => intro x b _ hx; simp [List.takeWhile, List.dropWhile, hx]
  | cons c cs ih =>
    intro x b ha hx
    have hc : p c = true := ha c (List.mem_cons_self _ _)
    obtain ⟨h1, h2⟩ := ih x b (fun d hd => ha d (List.mem_cons_of_mem _ hd)) hx
    simp [List.takeWhile, List.dropWhile, hc, h1, h2]

theorem takeWhile_all (p : Char → Bool) : ∀ (a : Str), (∀ c ∈ a, p c = true) →
    a.takeWhile p = a ∧ a.dropWhile p = [] := by
  intro a
  induction a with
  | nil => intro _; simp
  | cons c cs ih =>
    intro ha
    have hc : p c = true := ha c (List.mem_cons_self _ _)
    obtain ⟨h1, h2⟩ := ih (fun d hd => ha d (List.mem_cons_of_mem _ hd))
    simp [List.takeWhile, List.dropWhile, hc, h1, h2]

theorem takeWhile_append_rest (p : Char → Bool) (a rest : Str)
    (ha : ∀ c ∈ a, p c = true) (hr : ∀ c ∈ rest.head?, p c = false) :
    (a ++ rest).takeWhile p = a ∧ (a ++ rest).dropWhile p = rest := by
  cases rest with
  | nil => simpa using takeWhile_all p a ha
  | cons x b => exact takeWhile_append_stop p a x b ha (hr x (by simp))

theorem from_text_entry_fields (R : Resolver) (who mtext ftext ttext rest : Str)
    (acl : richacl) (flags : Nat)
    (hw : ':' ∉ who) (hm : ':' ∉ mtext) (hf : ':' ∉ ftext)
    (ht : ∀ c ∈ ttext, (c == ',' || isspace c) = false)
    (hr : ∀ c ∈ rest.head?, (c == ',' || isspace c) = true)
    (hfl : strcasecmp who "FLAGS".toList = true →
      ∀ c ∈ mtext, (c == ',' || isspace c) = false) :
    from_text_entry R (who ++ ':' :: (mtext ++ ':' :: (ftext ++ ':' :: (ttext ++ rest)))) acl flags
      = (from_text_fields R who mtext ftext ttext acl flags).map (fun r => (r.1, r.2, rest)) := by
  unfold from_text_entry
  rw [strchr_split_append _ _ _ hw]
  simp only []
  have hcond : (strcasecmp who "FLAGS".toList &&
      ((mtext ++ ':' :: (ftext ++ ':' :: (ttext ++ rest))).dropWhile
        (fun ch => !(ch == ':' || ch == ',' || isspace ch))).head? != some ':') = false := by
    cases hc : strcasecmp who "FLAGS".toList
    · rfl
    · have h := takeWhile_append_stop (fun ch => !(ch == ':' || ch == ',' || isspace ch))
        mtext ':' (ftext ++ ':' :: (ttext ++ rest))
        (by
          intro c hcm
          have h1 := hfl hc c hcm
          have h2 : (c == ':') = false := by
            simp only [beq_eq_false_iff_ne, ne_eq]
            intro e; subst e; exact hm hcm
          simp only [Bool.or_eq_false_iff] at h1
          simp [h1.1, h1.2, h2])
        (by simp)
      rw [h.2]
      simp
  rw [hcond]
  simp only [Bool.false_eq_true, if_false]
  rw [strchr_split_append _ _ _ hm]
  simp only []
  rw [strchr_split_append _ _ _ hf]
  simp only []
  have h := takeWhile_append_rest (fun ch => !(ch == ',' || isspace ch)) ttext rest
    (by intro c hc; simp [ht c hc])
    (by intro c hc; simp [hr c hc])
  rw [h.1, h.2]
  cases from_text_fields R who mtext ftext ttext acl flags <;> rfl

theorem from_text_entry_flags (R : Resolver) (who body rest : Str) (acl : richacl) (flags : Nat)
    (hwho : strcasecmp who "FLAGS".toList = true) (hw : ':' ∉ who)
    (hb : ∀ c ∈ body, (c == ':' || c == ',' || isspace c) = false)
    (hr : ∀ c ∈ rest.head?, (c == ',' || isspace c) = true) :
    from_text_entry R (who ++ ':' :: (body ++ rest)) acl flags
      = (acl_flags_from_text body).map
          (fun f => ({ acl with a_flags := f }, flags ||| RICHACL_TEXT_FLAGS, rest)) := by
  unfold from_text_entry
  rw [strchr_split_append _ _ _ hw]
  simp only []
  have h := takeWhile_append_rest (fun ch => !(ch == ':' || ch == ',' || isspace ch)) body rest
    (by intro c hc; simp [hb c hc])
    (by
      intro c hc
      have := hr c hc
      simp only [Bool.or_eq_true] at this
      rcases this with h | h
      · simp [h]
      · simp [h])
  rw [h.1, h.2]
  have hh : (rest.head? != some ':') = true := by
    cases rest with
    | nil => rfl
    | cons x b =>
      have := hr x (by simp)
      simp only [List.head?_cons, bne_iff_ne, ne_eq, Option.some.injEq]
      intro e; subst e
      revert this; decide
  rw [hwho, hh]
  simp only [Bool.and_self, if_true]
  cases acl_flags_from_text body <;> rfl

/-! ## The parser: the loop -/


theorem from_text_entry_length (R : Resolver) (s : Str) (acl : richacl) (flags : Nat)
    (r : richacl × Nat × Str) (h : from_text_entry R s acl flags = some r) :
    r.2.2.length < s.length := by
  unfold from_text_entry at h
  cases h1 : strchr_split ':' s with
  | none => rw [h1] at h; cases h
  | some p1 =>
    rw [h1] at h
    simp only [] at h
    have l1 := strchr_split_length _ _ _ h1
    split at h
    · split at h
      · cases h
      · cases h
        have := dropWhile_length_le (fun ch => !(ch == ':' || ch == ',' || isspace ch)) p1.2
        simp only []
        omega
    · cases h2 : strchr_split ':' p1.2 with
      | none => rw [h2] at h; cases h
      | some p2 =>
        rw [h2] at h
        simp only [] at h
        have l2 := strchr_split_length _ _ _ h2
        cases h3 : strchr_split ':' p2.2 with
        | none => rw [h3] at h; cases h
        | some p3 =>
          rw [h3] at h
          simp only [] at h
          have l3 := strchr_split_length _ _ _ h3
          split at h
          · cases h
          · cases h
            have := dropWhile_length_le (fun ch => !(ch == ',' || isspace ch)) p3.2
            simp only []
            omega

theorem from_text_loop_step (R : Resolver) (n : Nat) (str : Str) (acl : richacl) (flags : Nat) :
    richacl_from_text_loop R (n + 1) str acl flags =
      if str.isEmpty then some (acl, flags)
      else if (str.dropWhile is_sep).isEmpty then some (acl, flags)
      else match from_text_entry R (str.dropWhile is_sep) acl flags with
        | none => none
        | some r => richacl_from_text_loop R n r.2.2 r.1 r.2.1 := rfl

theorem from_text_loop_fuel (R : Resolver) : ∀ (f1 f2 : Nat) (s : Str) (acl : richacl) (flags : Nat),
    s.length < f1 → s.length < f2 →
    richacl_from_text_loop R f1 s acl flags = richacl_from_text_loop R f2 s acl flags := by
  intro f1
  induction f1 with
  | zero => intro f2 s acl flags h; omega
  | succ f1 ih =>
    intro f2 s acl flags h1 h2
    cases f2 with
    | zero => omega
    | succ f2 =>
      rw [from_text_loop_step, from_text_loop_step]
      split
      · rfl
      · split
        · rfl
        · cases he : from_text_entry R (s.dropWhile is_sep) acl flags with
          | none => rfl
          | some r =>
            simp only []
            have l1 := from_text_entry_length R _ acl flags r he
            have l2 := dropWhile_length_le is_sep s
            exact ih f2 _ _ _ (by omega) (by omega)

theorem from_text_run_nil (R : Resolver) (acl : richacl) (flags : Nat) :
    from_text_run R [] acl flags = some (acl, flags) := rfl

theorem from_text_run_dropWhile (R : Resolver) (s : Str) (acl : richacl) (flags : Nat) :
    from_text_run R s acl flags = from_text_run R (s.dropWhile is_sep) acl flags := by
  have hdd : (s.dropWhile is_sep).dropWhile is_sep = s.dropWhile is_sep := by
    cases hd : s.dropWhile is_sep with
    | nil => rfl
    | cons c t =>
      have := List.head_dropWhile_not is_sep s (by rw [hd]; simp)
      simp only [hd, List.head_cons] at this
      simp [List.dropWhile_cons, this]
  unfold from_text_run
  rw [from_text_loop_step, from_text_loop_step, hdd]
  have l2 := dropWhile_length_le is_sep s
  by_cases hs : s.isEmpty = true
  · have : s = [] := by simpa using hs
    subst this; rfl
  · simp only [hs, Bool.false_eq_true, if_false]
    by_cases hd : (s.dropWhile is_sep).isEmpty = true
    · simp [hd]
    · simp only [hd, Bool.false_eq_true, if_false]
      cases he : from_text_entry R (s.dropWhile is_sep) acl flags with
      | none => rfl
      | some r =>
        simp only []
        have l1 := from_text_entry_length R _ acl flags r he
        exact from_text_loop_fuel R _ _ _ _ _ (by omega) (by omega)

theorem from_text_run_sep (R : Resolver) (x : Char) (s : Str) (acl : richacl) (flags : Nat)
    (hx : is_sep x = true) :
    from_text_run R (x :: s) acl flags = from_text_run R s acl flags := by
  rw [from_text_run_dropWhile R (x :: s), from_text_run_dropWhile R s]
  simp [List.dropWhile_cons, hx]

theorem from_text_run_entry (R : Resolver) (s : Str) (acl : richacl) (flags : Nat)
    (h0 : s ≠ []) (hh : ∀ c ∈ s.head?, is_sep c = false) :
    from_text_run R s acl flags =
      (from_text_entry R s acl flags).bind (fun r => from_text_run R r.2.2 r.1 r.2.1) := by
  have hd : s.dropWhile is_sep = s := by
    cases s with
    | nil => rfl
    | cons c t => simp [List.dropWhile_cons, hh c (by simp)]
  unfold from_text_run
  rw [from_text_loop_step, hd]
  cases s with
  | nil => exact absurd rfl h0
  | cons c t =>
    simp only [List.isEmpty_cons, Bool.false_eq_true, if_false]
    cases he : from_text_entry R (c :: t) acl flags with
    | none => rfl
    | some r =>
      simp only [Option.bind]
      have l1 := from_text_entry_length R _ acl flags r he
      exact from_text_loop_fuel R _ _ _ _ _ (by simp at l1 ⊢; omega) (by omega)

/-! ## The parser: texts put together -/


theorem dropWhile_append_stop (p : Char → Bool) (x : Char) (X : Str) (hx : p x = false) :
    ∀ (a : Str), (a ++ x :: X).dropWhile p = a.dropWhile p ++ x :: X ∧
      (a ++ x :: X).takeWhile p = a.takeWhile p := by
  intro a
  induction a with
  | nil => simp [List.dropWhile, List.takeWhile, hx]
  | cons c cs ih =>
    cases hc : p c
    · simp [List.dropWhile, List.takeWhile, hc]
    · simp [List.dropWhile, List.takeWhile, hc, ih.1, ih.2]

theorem strchr_split_append_right (ch : Char) (s : Str) (p : Str × Str) (Y : Str)
    (h : strchr_split ch s = some p) : strchr_split ch (s ++ Y) = some (p.1, p.2 ++ Y) := by
  obtain ⟨h1, h2⟩ := strchr_split_some ch s p h
  have : s ++ Y = p.1 ++ ch :: (p.2 ++ Y) := by rw [h1]; simp
  rw [this, strchr_split_append _ _ _ h2]

theorem from_text_entry_append (R : Resolver) (s : Str) (acl : richacl) (flags : Nat)
    (r : richacl × Nat × Str) (h : from_text_entry R s acl flags = some r)
    (x : Char) (X : Str) (hx : (x == ',' || isspace x) = true) :
    from_text_entry R (s ++ x :: X) acl flags = some (r.1, r.2.1, r.2.2 ++ x :: X) := by
  have hx3 : (fun ch => !(ch == ':' || ch == ',' || isspace ch)) x = false := by
    simp only [Bool.or_eq_true] at hx
    rcases hx with h | h
    · simp [h]
    · simp [h]
  have hx2 : (fun ch => !(ch == ',' || isspace ch)) x = false := by
    simp [hx]
  have hxc : x ≠ ':' := by
    intro e; subst e; revert hx; decide
  unfold from_text_entry at h ⊢
  cases h1 : strchr_split ':' s with
  | none => rw [h1] at h; cases h
  | some p1 =>
    rw [h1] at h
    rw [strchr_split_append_right _ _ _ _ h1]
    simp only [] at h ⊢
    have hd := dropWhile_append_stop (fun ch => !(ch == ':' || ch == ',' || isspace ch)) x X hx3 p1.2
    rw [hd.1, hd.2]
    have hhead : ((p1.2.dropWhile (fun ch => !(ch == ':' || ch == ',' || isspace ch))
          ++ x :: X).head? != some ':')
        = ((p1.2.dropWhile (fun ch => !(ch == ':' || ch == ',' || isspace ch))).head?
          != some ':') := by
      cases p1.2.dropWhile (fun ch => !(ch == ':' || ch == ',' || isspace ch)) with
      | nil =>
        have e1 : ((none : Option Char) != some ':') = true := by decide
        rw [List.nil_append, List.head?_cons, List.head?_nil, e1]
        simp [bne_iff_ne, hxc]
      | cons c t => rfl
    rw [hhead]
    split at h
    · rename_i hc
      simp only [hc, if_true]
      split at h
      · cases h
      · rename_i f hf
        cases h
        rfl
    · rename_i hc
      simp only [hc, if_false]
      cases h2 : strchr_split ':' p1.2 with
      | none => rw [h2] at h; cases h
      | some p2 =>
        rw [h2] at h
        rw [strchr_split_append_right _ _ _ _ h2]
        simp only [] at h ⊢
        cases h3 : strchr_split ':' p2.2 with
        | none => rw [h3] at h; cases h
        | some p3 =>
          rw [h3] at h
          rw [strchr_split_append_right _ _ _ _ h3]
          simp only [] at h ⊢
          have hd2 := dropWhile_append_stop (fun ch => !(ch == ',' || isspace ch)) x X hx2 p3.2
          rw [hd2.1, hd2.2]
          split at h
          · cases h
          · rename_i q hq
            cases h
            simp

theorem from_text_fields_state (R : Resolver) (w m f t : Str) (acl : richacl) (flags : Nat)
    (r : richacl × Nat) (h : from_text_fields R w m f t acl flags = some r)
    (acl2 : richacl) (flags2 : Nat) :
    ∃ r2, from_text_fields R w m f t acl2 flags2 = some r2 ∧
      ∃ E, r.1.a_entries = acl.a_entries ++ E ∧ r2.1.a_entries = acl2.a_entries ++ E := by
  unfold from_text_fields at h ⊢
  cases hm : mask_from_text m with
  | none => rw [hm] at h; cases h
  | some mask =>
    rw [hm] at h
    simp only [] at h ⊢
    split at h
    · rename_i ht
      simp only [ht, if_true]
      split at h
      · rename_i hw
        cases h
        simp only [hw, if_true]
        exact ⟨_, rfl, [], by simp, by simp⟩
      · rename_i hw
        simp only [hw, if_false]
        split at h
        · rename_i hw2
          cases h
          simp only [hw2, if_true]
          exact ⟨_, rfl, [], by simp, by simp⟩
        · rename_i hw2
          simp only [hw2, if_false]
          split at h
          · rename_i hw3
            cases h
            simp only [hw3, if_true]
            exact ⟨_, rfl, [], by simp, by simp⟩
          · cases h
    · rename_i ht
      simp only [ht, if_false]
      cases h1 : ace_flags_from_text f ⟨0, 0, mask, 0⟩ with
      | none => rw [h1] at h; cases h
      | some a1 =>
        rw [h1] at h
        simp only [] at h ⊢
        cases h2 : identifier_from_text R w a1 with
        | none => rw [h2] at h; cases h
        | some a2 =>
          rw [h2] at h
          simp only [] at h ⊢
          cases h3 : type_from_text t a2 with
          | none => rw [h3] at h; cases h
          | some a3 =>
            rw [h3] at h
            simp only [] at h ⊢
            cases h
            exact ⟨_, rfl, [a3], rfl, rfl⟩

theorem from_text_entry_state (R : Resolver) (s : Str) (acl : richacl) (flags : Nat)
    (r : richacl × Nat × Str) (h : from_text_entry R s acl flags = some r)
    (acl2 : richacl) (flags2 : Nat) :
    ∃ r2, from_text_entry R s acl2 flags2 = some r2 ∧ r2.2.2 = r.2.2 ∧
      ∃ E, r.1.a_entries = acl.a_entries ++ E ∧ r2.1.a_entries = acl2.a_entries ++ E := by
  unfold from_text_entry at h ⊢
  cases h1 : strchr_split ':' s with
  | none => rw [h1] at h; cases h
  | some p1 =>
    rw [h1] at h
    simp only [] at h ⊢
    split at h
    · rename_i hc
      simp only [hc, if_true]
      split at h
      · cases h
      · rename_i f hf
        cases h
        exact ⟨_, rfl, rfl, [], by simp, by simp⟩
    · rename_i hc
      simp only [hc, if_false]
      cases h2 : strchr_split ':' p1.2 with
      | none => rw [h2] at h; cases h
      | some p2 =>
        rw [h2] at h
        simp only [] at h ⊢
        cases h3 : strchr_split ':' p2.2 with
        | none => rw [h3] at h; cases h
        | some p3 =>
          rw [h3] at h
          simp only [] at h ⊢
          split at h
          · cases h
          · rename_i q hq
            cases h
            obtain ⟨q2, hq2, E, hE1, hE2⟩ := from_text_fields_state R _ _ _ _ acl flags q hq acl2 flags2
            rw [hq2]
            exact ⟨_, rfl, rfl, E, hE1, hE2⟩

theorem from_text_run_append (R : Resolver) : ∀ (n : Nat) (s : Str), s.length ≤ n →
    ∀ (acl : richacl) (fl : Nat) (r : richacl × Nat), from_text_run R s acl fl = some r →
    ∀ s2, from_text_run R (s ++ '\n' :: s2) acl fl = from_text_run R s2 r.1 r.2 := by
  intro n
  induction n with
  | zero =>
    intro s hs acl fl r h s2
    have : s = [] := List.length_eq_zero.1 (by omega)
    subst this
    rw [from_text_run_nil] at h
    cases h
    exact from_text_run_sep R '\n' s2 acl fl (by decide)
  | succ n ih =>
    intro s hs acl fl r h s2
    cases s with
    | nil =>
      rw [from_text_run_nil] at h
      cases h
      exact from_text_run_sep R '\n' s2 acl fl (by decide)
    | cons c t =>
      by_cases hc : is_sep c = true
      · rw [from_text_run_sep R c t acl fl hc] at h
        rw [List.cons_append, from_text_run_sep R c _ acl fl hc]
        exact ih t (by simp at hs; omega) acl fl r h s2
      · have hc' : is_sep c = false := by simpa using hc
        rw [from_text_run_entry R (c :: t) acl fl (by simp) (by simp [hc'])] at h
        cases he : from_text_entry R (c :: t) acl fl with
        | none => rw [he] at h; cases h
        | some e =>
          rw [he] at h
          simp only [Option.bind] at h
          have hl := from_text_entry_length R _ acl fl e he
          rw [from_text_run_entry R ((c :: t) ++ '\n' :: s2) acl fl (by simp) (by simp [hc']),
            from_text_entry_append R _ acl fl e he '\n' s2 (by decide)]
          simp only [Option.bind]
          exact ih e.2.2 (by simp at hs hl; omega) e.1 e.2.1 r h s2

theorem from_text_run_state (R : Resolver) : ∀ (n : Nat) (s : Str), s.length ≤ n →
    ∀ (acl : richacl) (fl : Nat) (r : richacl × Nat), from_text_run R s acl fl = some r →
    ∀ (acl2 : richacl) (fl2 : Nat), ∃ r2, from_text_run R s acl2 fl2 = some r2 ∧
      ∃ E, r.1.a_entries = acl.a_entries ++ E ∧ r2.1.a_entries = acl2.a_entries ++ E := by
  intro n
  induction n with
  | zero =>
    intro s hs acl fl r h acl2 fl2
    have : s = [] := List.length_eq_zero.1 (by omega)
    subst this
    rw [from_text_run_nil] at h
    cases h
    exact ⟨_, from_text_run_nil R acl2 fl2, [], by simp, by simp⟩
  | succ n ih =>
    intro s hs acl fl r h acl2 fl2
    cases s with
    | nil =>
      rw [from_text_run_nil] at h
      cases h
      exact ⟨_, from_text_run_nil R acl2 fl2, [], by simp, by simp⟩
    | cons c t =>
      by_cases hc : is_sep c = true
      · rw [from_text_run_sep R c t acl fl hc] at h
        rw [from_text_run_sep R c t acl2 fl2 hc]
        exact ih t (by simp at hs; omega) acl fl r h acl2 fl2
      · have hc' : is_sep c = false := by simpa using hc
        rw [from_text_run_entry R (c :: t) acl fl (by simp) (by simp [hc'])] at h
        cases he : from_text_entry R (c :: t) acl fl with
        | none => rw [he] at h; cases h
        | some e =>
          rw [he] at h
          simp only [Option.bind] at h
          have hl := from_text_entry_length R _ acl fl e he
          obtain ⟨e2, he2, hrest, E1, hE1, hE1'⟩ :=
            from_text_entry_state R _ acl fl e he acl2 fl2
          obtain ⟨r2, hr2, E2, hE2, hE2'⟩ :=
            ih e.2.2 (by simp at hs hl; omega) e.1 e.2.1 r h e2.1 e2.2.1
          rw [from_text_run_entry R (c :: t) acl2 fl2 (by simp) (by simp [hc']), he2]
          simp only [Option.bind]
          rw [hrest]
          refine ⟨r2, hr2, E1 ++ E2, ?_, ?_⟩
          · rw [hE2, hE1, List.append_assoc]
          · rw [hE2', hE1', List.append_assoc]

/-- C5: when richacl_from_text succeeds on s1 and on s2, it succeeds on s1, a newline and
s2, and the entries of the result are the entries of s1 followed by the entries of s2,
unchanged and in the same order. -/
theorem entry_order_preserved (R : Resolver) (s1 s2 : Str) (a1 a2 : richacl) (f1 f2 : Nat)
    (h1 : richacl_from_text R s1 = some (a1, f1))
    (h2 : richacl_from_text R s2 = some (a2, f2)) :
    ∃ a f, richacl_from_text R (s1 ++ '\n' :: s2) = some (a, f) ∧
      a.a_entries = a1.a_entries ++ a2.a_entries := by
  unfold richacl_from_text at *
  rw [from_text_run_append R s1.length s1 (le_refl _) _ _ _ h1 s2]
  obtain ⟨r2, hr2, E, hE, hE2⟩ :=
    from_text_run_state R s2.length s2 (le_refl _) _ _ _ h2 a1 f1
  refine ⟨r2.1, r2.2, hr2, ?_⟩
  simp only [List.nil_append] at hE
  rw [hE2, hE]

/-- C10: when richacl_from_text succeeds on s and fails on e, it fails on s, a newline and
e: no record is returned, so the entries decoded from s are not returned either. -/
theorem parse_all_or_nothing (R : Resolver) (s e : Str) (a : richacl) (f : Nat)
    (hs : richacl_from_text R s = some (a, f))
    (he : richacl_from_text R e = none) :
    richacl_from_text R (s ++ '\n' :: e) = none := by
  unfold richacl_from_text at *
  rw [from_text_run_append R s.length s (le_refl _) _ _ _ hs e]
  cases h : from_text_run R e a f with
  | none => rfl
  | some r =>
    obtain ⟨r2, hr2, _⟩ :=
      from_text_run_state R e.length e (le_refl _) _ _ _ h ⟨0, 0, 0, 0, []⟩ 0
    rw [he] at hr2
    cases hr2

/-- Witness of C5 at two one-entry texts. -/
theorem entry_order_preserved_witness :
    ∃ a f, richacl_from_text no_names ("1:r::allow".toList ++ '\n' :: "2:w::deny".toList)
        = some (a, f) ∧
      a.a_entries = [⟨0, 0, 1, 1⟩] ++ [⟨1, 0, 2, 2⟩] :=
  entry_order_preserved no_names "1:r::allow".toList "2:w::deny".toList
    ⟨0, 0, 0, 0, [⟨0, 0, 1, 1⟩]⟩ ⟨0, 0, 0, 0, [⟨1, 0, 2, 2⟩]⟩ 0 0 (by decide) (by decide)

/-- Witness of C10 at an entry followed by the malformed bob:rwx. -/
theorem parse_all_or_nothing_witness :
    richacl_from_text no_names ("1:r::allow".toList ++ '\n' :: "bob:rwx".toList) = none :=
  parse_all_or_nothing no_names "1:r::allow".toList "bob:rwx".toList
    ⟨0, 0, 0, 0, [⟨0, 0, 1, 1⟩]⟩ 0 (by decide) (by decide)

/-! ## The parser: missing fields -/

theorem strchr_split_count (ch : Char) (s : Str) (p : Str × Str)
    (h : strchr_split ch s = some p) : s.count ch = p.2.count ch + 1 := by
  obtain ⟨h1, h2⟩ := strchr_split_some ch s p h
  rw [h1, List.count_append, List.count_eq_zero_of_not_mem h2, List.count_cons_self]
  omega

theorem dropWhile_count_le (p : Char → Bool) (ch : Char) (s : Str) :
    (s.dropWhile p).count ch ≤ s.count ch :=
  (List.dropWhile_suffix p).sublist.count_le ch

theorem dropWhile_sep_ne_nil (s : Str) (h : ∃ c ∈ s, is_sep c = false) :
    s.dropWhile is_sep ≠ [] := by
  intro hd
  obtain ⟨c, hc, hs⟩ := h
  rw [List.dropWhile_eq_nil_iff] at hd
  rw [hd c hc] at hs
  cases hs

theorem dropWhile_sep_head (s : Str) : ∀ c ∈ (s.dropWhile is_sep).head?, is_sep c = false := by
  intro c hc
  cases hd : s.dropWhile is_sep with
  | nil => rw [hd] at hc; simp at hc
  | cons x t =>
    have := List.head_dropWhile_not is_sep s (by rw [hd]; simp)
    simp only [hd, List.head_cons] at this
    rw [hd] at hc
    simp only [List.head?_cons, Option.mem_def, Option.some.injEq] at hc
    subst hc
    simpa using this

/-- C9: the input bob:rwx makes richacl_from_text fail, and so does every input that has a
character other than white space and commas, has fewer than three colons, and whose first
field (the text before the first colon, after the leading separators) is not FLAGS in any
letter case: no record is returned, whatever the identity directory answers. -/
theorem missing_fields_rejected :
    (∀ R : Resolver, richacl_from_text R "bob:rwx".toList = none) ∧
    (∀ (R : Resolver) (s : Str), (∃ c ∈ s, is_sep c = false) → s.count ':' < 3 →
      (∀ p, strchr_split ':' (s.dropWhile is_sep) = some p →
        strcasecmp p.1 "FLAGS".toList = false) →
      richacl_from_text R s = none) := by
  refine ⟨fun R => by rfl, ?_⟩
  intro R s h1 h2 h3
  unfold richacl_from_text
  rw [from_text_run_dropWhile,
    from_text_run_entry R _ _ _ (dropWhile_sep_ne_nil s h1) (dropWhile_sep_head s)]
  have hc := dropWhile_count_le is_sep ':' s
  have : from_text_entry R (s.dropWhile is_sep) ⟨0, 0, 0, 0, []⟩ 0 = none := by
    unfold from_text_entry
    cases e1 : strchr_split ':' (s.dropWhile is_sep) with
    | none => rfl
    | some p1 =>
      simp only [h3 p1 e1, Bool.false_and, Bool.false_eq_true, if_false]
      have c1 := strchr_split_count _ _ _ e1
      cases e2 : strchr_split ':' p1.2 with
      | none => rfl
      | some p2 =>
        simp only []
        have c2 := strchr_split_count _ _ _ e2
        cases e3 : strchr_split ':' p2.2 with
        | none => rfl
        | some p3 =>
          have c3 := strchr_split_count _ _ _ e3
          omega
  rw [this]
  rfl

/-- Witness of C9 at the input `a:b:c` with two colons. -/
theorem missing_fields_rejected_witness :
    richacl_from_text ⟨fun _ => none, fun _ => none, fun _ => some 0, fun _ => some 0⟩
      "a:b:c".toList = none :=
  missing_fields_rejected.2 _ "a:b:c".toList ⟨'a', by decide, by decide⟩ (by decide)
    (by decide)

/-! ## The parser: an entry line -/

theorem ace_flags_from_text_frame (f : Str) (a a1 : richace)
    (h : ace_flags_from_text f a = some a1) :
    a1.e_type = a.e_type ∧ a1.e_mask = a.e_mask ∧ a1.e_id = a.e_id := by
  unfold ace_flags_from_text at h
  split at h
  · cases h; exact ⟨rfl, rfl, rfl⟩
  · cases h

theorem richace_set_who_frame (a a2 : richace) (w : Str) (h : richace_set_who a w = some a2) :
    a2.e_type = a.e_type ∧ a2.e_mask = a.e_mask ∧
      a2.e_flags = a.e_flags ||| ACE4_SPECIAL_WHO := by
  unfold richace_set_who at h
  split at h
  · cases h; exact ⟨rfl, rfl, rfl⟩
  · cases h

theorem identifier_from_text_frame (R : Resolver) (w : Str) (a a2 : richace)
    (h : identifier_from_text R w a = some a2) :
    a2.e_type = a.e_type ∧ a2.e_mask = a.e_mask ∧
      (a2.e_flags = a.e_flags ∨ a2.e_flags = a.e_flags ||| ACE4_SPECIAL_WHO) := by
  unfold identifier_from_text at h
  split at h
  · split at h
    · cases h
    · obtain ⟨h1, h2, h3⟩ := richace_set_who_frame _ _ _ h
      exact ⟨h1, h2, Or.inr h3⟩
  · split at h
    · cases h; exact ⟨rfl, rfl, Or.inl rfl⟩
    · split at h
      · split at h
        · cases h
        · cases h; exact ⟨rfl, rfl, Or.inl rfl⟩
      · split at h
        · cases h
        · cases h; exact ⟨rfl, rfl, Or.inl rfl⟩

theorem type_from_text_frame (t : Str) (a a3 : richace) (h : type_from_text t a = some a3) :
    a3.e_flags = a.e_flags ∧ a3.e_mask = a.e_mask ∧ a3.e_id = a.e_id := by
  unfold type_from_text at h
  split at h
  · cases h; exact ⟨rfl, rfl, rfl⟩
  · split at h
    · cases h; exact ⟨rfl, rfl, rfl⟩
    · cases h

/-- C6: the line everyone@:rwx:fd:allow is parsed into exactly one entry with the special
identity everyone, the mask READ_DATA|WRITE_DATA|EXECUTE (the bits of LIST_DIRECTORY and
ADD_FILE are those of READ_DATA and WRITE_DATA), the flags FILE_INHERIT|DIRECTORY_INHERIT
plus the implied special_who, and the type Allow, with the ACL flags, the three masks and
the section bits zero.  In general a line who:mask:flags:type whose fields are accepted by
mask_from_text, ace_flags_from_text, identifier_from_text (applied after the flags) and
type_from_text, and whose type is not MASK, is parsed into exactly one entry made of the
four decoded values.  The fields are fields of the line: who, mask and flags have no colon,
who does not start with a separator, type has no separator, and after who FLAGS the mask
has no separator. -/
theorem entry_line_decoded :
    (∀ R : Resolver, richacl_from_text R "everyone@:rwx:fd:allow".toList =
      some (⟨0, 0, 0, 0, [⟨ACE4_ACCESS_ALLOWED_ACE_TYPE,
        ACE4_FILE_INHERIT_ACE ||| ACE4_DIRECTORY_INHERIT_ACE ||| ACE4_SPECIAL_WHO,
        ACE4_READ_DATA ||| ACE4_WRITE_DATA ||| ACE4_EXECUTE, ACE_EVERYONE_ID⟩]⟩, 0)) ∧
    ACE4_READ_DATA ||| ACE4_WRITE_DATA ||| ACE4_EXECUTE
      = ACE4_LIST_DIRECTORY ||| ACE4_ADD_FILE ||| ACE4_EXECUTE ∧
    (∀ (R : Resolver) (who mtext ftext ttext : Str) (m : Nat) (a1 a2 a3 : richace),
      ':' ∉ who → (∀ c ∈ who.head?, is_sep c = false) → ':' ∉ mtext → ':' ∉ ftext →
      (∀ c ∈ ttext, is_sep c = false) →
      (strcasecmp who "FLAGS".toList = true → ∀ c ∈ mtext, is_sep c = false) →
      mask_from_text mtext = some m →
      strcasecmp ttext "MASK".toList = false →
      ace_flags_from_text ftext ⟨0, 0, m, 0⟩ = some a1 →
      identifier_from_text R who a1 = some a2 →
      type_from_text ttext a2 = some a3 →
      richacl_from_text R (who ++ ':' :: (mtext ++ ':' :: (ftext ++ ':' :: ttext)))
        = some (⟨0, 0, 0, 0, [a3]⟩, 0) ∧
      a3.e_mask = m ∧ a3.e_id = a2.e_id ∧ a3.e_flags = a2.e_flags ∧
      (a2.e_flags = a1.e_flags ∨ a2.e_flags = a1.e_flags ||| ACE4_SPECIAL_WHO)) := by
  refine ⟨fun R => by rfl, by decide, ?_⟩
  intro R who mtext ftext ttext m a1 a2 a3 hw hw0 hm hf ht hfl hmask htype h1 h2 h3
  have sepeq : ∀ c, (c == ',' || isspace c) = is_sep c := by
    intro c; simp [is_sep, Bool.or_comm]
  refine ⟨?_, ?_⟩
  · unfold richacl_from_text
    rw [from_text_run_entry R _ _ _ (by cases who <;> simp)
      (by
        intro c hc
        cases who with
        | nil => simp at hc; subst hc; decide
        | cons x t => exact hw0 c (by simpa using hc))]
    have := from_text_entry_fields R who mtext ftext ttext [] ⟨0, 0, 0, 0, []⟩ 0 hw hm hf
      (by intro c hc; rw [sepeq]; exact ht c hc) (by simp)
      (by intro hx c hc; rw [sepeq]; exact hfl hx c hc)
    rw [List.append_nil] at this
    rw [this]
    simp only [from_text_fields, hmask, htype, h1, h2, h3, Bool.false_eq_true, if_false,
      Option.map, Option.bind, List.nil_append]
    rfl
  · obtain ⟨_, f2, _⟩ := ace_flags_from_text_frame _ _ _ h1
    obtain ⟨_, g2, g3⟩ := identifier_from_text_frame _ _ _ _ h2
    obtain ⟨k1, k2, k3⟩ := type_from_text_frame _ _ _ h3
    exact ⟨by rw [k2, g2, f2], k3, k1, g3⟩

/-- Witness of C6 at the line 1000:rwx:fd:deny. -/
theorem entry_line_decoded_witness :
    richacl_from_text no_names "1000:rwx:fd:deny".toList
      = some (⟨0, 0, 0, 0, [⟨1, 3, 0x23, 1000⟩]⟩, 0) :=
  (entry_line_decoded.2.2 no_names "1000".toList "rwx".toList "fd".toList "deny".toList
    0x23 ⟨0, 3, 0x23, 0⟩ ⟨0, 3, 0x23, 1000⟩ ⟨1, 3, 0x23, 1000⟩
    (by decide) (by decide) (by decide) (by decide) (by decide) (by decide) (by decide)
    (by decide) (by decide) (by decide) (by decide)).1

/-! ## The parser: the flags line -/

theorem tolower_cases (c : Char) : tolower c = c ∨ (65 ≤ c.toNat ∧ c.toNat ≤ 90) := by
  unfold tolower
  split
  · rename_i h; exact Or.inr h
  · exact Or.inl rfl

theorem upper_plain : ∀ n, n < 91 → 65 ≤ n → plain_char (Char.ofNat n) = true := by
  decide

theorem plain_of_tolower (c : Char) (h : plain_char (tolower c) = true) :
    plain_char c = true := by
  rcases tolower_cases c with h1 | ⟨h1, h2⟩
  · rw [h1] at h; exact h
  · have := upper_plain c.toNat (by omega) h1
    rwa [Char.ofNat_toNat] at this

theorem plain_of_recased (tok name : Str) (h : strcasecmp tok name = true)
    (hn : ∀ y ∈ name.map tolower, plain_char y = true) : ∀ c ∈ tok, plain_char c = true := by
  intro c hc
  apply plain_of_tolower
  apply hn
  have : tok.map tolower = name.map tolower := by simpa [strcasecmp] using h
  rw [← this]
  exact List.mem_map_of_mem _ hc

theorem plain_char_facts (c : Char) (h : plain_char c = true) :
    isspace c = false ∧ c ≠ ':' ∧ c ≠ ',' ∧ c ≠ '/' ∧ c ≠ '@' ∧ (c == '-') = false ∧
    (c == '+') = false ∧ (c == '0') = false ∧ (∀ d, d < 10 → digit_value c ≠ some d) ∧
    is_sep c = false := by
  unfold plain_char at h
  simp only [Bool.and_eq_true, Bool.not_eq_true', bne_iff_ne, ne_eq] at h
  obtain ⟨⟨⟨⟨⟨⟨⟨h1, h2⟩, h3⟩, h4⟩, h5⟩, h6⟩, h7⟩, h8⟩ := h
  have hd : ∀ d, d < 10 → digit_value c ≠ some d := by
    intro d hd he
    rw [he] at h8
    simp [hd] at h8
  refine ⟨h1, h2, h3, h4, h5, by simpa using h6, by simpa using h7, ?_, hd, ?_⟩
  · simp only [beq_eq_false_iff_ne, ne_eq]
    intro e; subst e
    exact hd 0 (by omega) (by decide)
  · simp only [is_sep, h1, Bool.false_or, beq_eq_false_iff_ne, ne_eq]
    exact h3

theorem strtoul_plain (c : Char) (t : Str) (h : plain_char c = true) :
    strtoul (c :: t) = (0, c :: t) := by
  obtain ⟨h1, _, _, _, _, h2, h3, h5, h4, _⟩ := plain_char_facts c h
  exact strtoul_nondigit c t h1 h2 h3 h5 h4

theorem acl_names_plain : ∀ b ∈ acl_flag_bits,
    b.a_name ≠ [] ∧ ∀ y ∈ b.a_name.map tolower, plain_char y = true := by
  decide

theorem acl_names_found : ∀ b ∈ acl_flag_bits,
    (acl_flag_bits.find? (fun q => strcasecmp b.a_name q.a_name)).map (fun q => q.a_flag)
      = some b.a_flag := by
  decide

theorem strcasecmp_congr (tok name : Str) (h : strcasecmp tok name = true) (other : Str) :
    strcasecmp tok other = strcasecmp name other := by
  have : tok.map tolower = name.map tolower := by simpa [strcasecmp] using h
  simp only [strcasecmp, this]

theorem acl_flags_token_name (S tok : Str) (acc : Nat) (b : AclFlagBit)
    (hS : (strtoul S).2.isEmpty = false) (hb : b ∈ acl_flag_bits)
    (h : strcasecmp tok b.a_name = true) :
    acl_flags_token S tok acc = some (acc ||| b.a_flag) := by
  have hf := acl_names_found b hb
  have e : (fun q : AclFlagBit => strcasecmp tok q.a_name)
      = (fun q : AclFlagBit => strcasecmp b.a_name q.a_name) := by
    funext q; exact strcasecmp_congr tok b.a_name h q.a_name
  simp only [acl_flags_token, hS, Bool.false_eq_true, if_false, e]
  cases hq : acl_flag_bits.find? (fun q => strcasecmp b.a_name q.a_name) with
  | none => rw [hq] at hf; simp at hf
  | some q =>
    rw [hq] at hf
    simp only [Option.map_some', Option.some.injEq] at hf
    simp [hf]

theorem recased_ne_nil (tok name : Str) (h : strcasecmp tok name = true) (hn : name ≠ []) :
    tok ≠ [] := by
  intro e
  subst e
  have : ([] : Str).map tolower = name.map tolower := by simpa [strcasecmp] using h
  simp only [List.map_nil] at this
  exact hn (List.map_eq_nil_iff.1 this.symm)

theorem acl_flags_tokens_names (S : Str) (hS : (strtoul S).2.isEmpty = false) :
    ∀ (l : List (AclFlagBit × Str)), l ≠ [] →
      (∀ p ∈ l, p.1 ∈ acl_flag_bits ∧ strcasecmp p.2 p.1.a_name = true) →
      ∀ acc, run_tokens (acl_flags_token S) (join_slash (l.map Prod.snd)) acc
        = some ((l.map (fun p => p.1.a_flag)).foldl (fun x y => x ||| y) acc) := by
  intro l
  induction l with
  | nil => intro h; exact absurd rfl h
  | cons p rest ih =>
    intro _ hl acc
    obtain ⟨hp1, hp2⟩ := hl p (List.mem_cons_self _ _)
    obtain ⟨hn0, hnp⟩ := acl_names_plain p.1 hp1
    have hplain := plain_of_recased p.2 p.1.a_name hp2 hnp
    have htok0 : p.2 ≠ [] := recased_ne_nil _ _ hp2 hn0
    have hslash : '/' ∉ p.2 := fun hm => (plain_char_facts _ (hplain _ hm)).2.2.2.1 rfl
    cases rest with
    | nil =>
      simp only [List.map_cons, List.map_nil, join_slash, List.foldl_cons, List.foldl_nil]
      rw [run_tokens_tok _ _ _ htok0 hslash]
      exact acl_flags_token_name S p.2 acc p.1 hS hp1 hp2
    | cons q rest =>
      simp only [List.map_cons, join_slash, List.foldl_cons]
      rw [run_tokens_tok_slash _ _ _ _ htok0 hslash,
        acl_flags_token_name S p.2 acc p.1 hS hp1 hp2]
      simp only [Option.bind]
      have := ih (by simp) (fun r hr => hl r (List.mem_cons_of_mem _ hr)) (acc ||| p.1.a_flag)
      simpa using this

theorem join_slash_plain_or_slash : ∀ (names : List Str),
    (∀ n ∈ names, ∀ c ∈ n, plain_char c = true) →
    ∀ c ∈ join_slash names, plain_char c = true ∨ c = '/' := by
  intro names
  induction names with
  | nil => intro _ c hc; simp [join_slash] at hc
  | cons x rest ih =>
    intro h c hc
    cases rest with
    | nil =>
      simp only [join_slash] at hc
      exact Or.inl (h x (by simp) c hc)
    | cons y rest =>
      simp only [join_slash, List.mem_append, List.mem_cons] at hc
      rcases hc with hc | hc | hc
      · exact Or.inl (h x (by simp) c hc)
      · exact Or.inr hc
      · exact ih (fun n hn => h n (List.mem_cons_of_mem _ hn)) c hc

theorem join_slash_head (x : Str) (rest : List Str) (hx : x ≠ []) :
    (join_slash (x :: rest)).head? = x.head? := by
  cases x with
  | nil => exact absurd rfl hx
  | cons c t =>
    cases rest with
    | nil => rfl
    | cons y rest => rfl

/-- C8: the input FLAGS:protected/auto_inherit is parsed into the ACL flags
PROTECTED|AUTO_INHERIT with no entry, the three masks zero and exactly the flags section
reported; in general, for every non-empty list of mnemonics of acl_flag_bits, each in any
letter case, joined by slashes, FLAGS: followed by the list is parsed into the ACL flags
that are the OR of the listed bits, with no entry. -/
theorem flags_line_decoded :
    (∀ R : Resolver, richacl_from_text R "FLAGS:protected/auto_inherit".toList =
      some (⟨ACL4_PROTECTED ||| ACL4_AUTO_INHERIT, 0, 0, 0, []⟩, RICHACL_TEXT_FLAGS)) ∧
    (∀ (R : Resolver) (l : List (AclFlagBit × Str)), l ≠ [] →
      (∀ p ∈ l, p.1 ∈ acl_flag_bits ∧ strcasecmp p.2 p.1.a_name = true) →
      richacl_from_text R ("FLAGS:".toList ++ join_slash (l.map Prod.snd)) =
        some (⟨(l.map (fun p => p.1.a_flag)).foldl (fun x y => x ||| y) 0, 0, 0, 0, []⟩,
          RICHACL_TEXT_FLAGS)) := by
  refine ⟨fun R => by rfl, ?_⟩
  intro R l hl0 hl
  have hnames : ∀ n ∈ l.map Prod.snd, ∀ c ∈ n, plain_char c = true := by
    intro n hn
    obtain ⟨p, hp, hpn⟩ := List.mem_map.1 hn
    subst hpn
    obtain ⟨hp1, hp2⟩ := hl p hp
    exact plain_of_recased p.2 p.1.a_name hp2 (acl_names_plain p.1 hp1).2
  have hbody : ∀ c ∈ join_slash (l.map Prod.snd), (c == ':' || c == ',' || isspace c) = false := by
    intro c hc
    rcases join_slash_plain_or_slash _ hnames c hc with h | h
    · obtain ⟨h1, h2, h3, _⟩ := plain_char_facts c h
      simp [h1, h2, h3]
    · subst h; decide
  have hS : (strtoul (join_slash (l.map Prod.snd))).2.isEmpty = false := by
    cases l with
    | nil => exact absurd rfl hl0
    | cons p rest =>
      obtain ⟨hp1, hp2⟩ := hl p (List.mem_cons_self _ _)
      have htok0 : p.2 ≠ [] := recased_ne_nil _ _ hp2 (acl_names_plain p.1 hp1).1
      have hh := join_slash_head p.2 (rest.map Prod.snd) htok0
      simp only [List.map_cons]
      cases hj : join_slash (p.2 :: rest.map Prod.snd) with
      | nil =>
        rw [hj] at hh
        cases hp : p.2 with
        | nil => exact absurd hp htok0
        | cons c t => rw [hp] at hh; simp at hh
      | cons c t =>
        rw [hj] at hh
        have hc : c ∈ p.2 := by
          cases hp : p.2 with
          | nil => exact absurd hp htok0
          | cons c' t' =>
            rw [hp] at hh
            simp only [List.head?_cons, Option.some.injEq] at hh
            subst hh; simp
        have := hnames p.2 (by simp) c hc
        rw [strtoul_plain c t this]
        rfl
  have hparse := acl_flags_tokens_names _ hS l hl0 hl 0
  unfold richacl_from_text
  rw [from_text_run_entry R _ _ _ (by simp) (by intro c hc; simp at hc; subst hc; decide)]
  have he := from_text_entry_flags R "FLAGS".toList (join_slash (l.map Prod.snd)) []
    ⟨0, 0, 0, 0, []⟩ 0 (by decide) (by decide) hbody (by simp)
  rw [List.append_nil] at he
  have e : "FLAGS:".toList ++ join_slash (l.map Prod.snd)
      = "FLAGS".toList ++ ':' :: join_slash (l.map Prod.snd) := by
    simp
  rw [e, he]
  unfold acl_flags_from_text
  rw [hparse]
  rfl

/-- Witness of C8 at the list Masked, DEFAULTED. -/
theorem flags_line_decoded_witness :
    richacl_from_text no_names "FLAGS:Masked/DEFAULTED".toList =
      some (⟨ACL4_MASKED ||| ACL4_DEFAULTED, 0, 0, 0, []⟩, RICHACL_TEXT_FLAGS) :=
  flags_line_decoded.2 no_names
    [(⟨'m', ACL4_MASKED, "masked".toList⟩, "Masked".toList),
     (⟨'d', ACL4_DEFAULTED, "defaulted".toList⟩, "DEFAULTED".toList)]
    (by decide) (by decide)

/-! ## Identifiers as numbers -/

theorem strtoul_neg_dec (k : Nat) (h0 : 0 < k) (hk : k ≤ ULONG_MAX) :
    strtoul ('-' :: fmt_u k) = ((2 ^ 64 - k) % 2 ^ 64, []) := by
  obtain ⟨d, tl, h1, h2, h3⟩ := fmt_digits_head 10 (by omega) (by omega) (k + 1) k [] (by omega)
  have hd := strtoul_digits_fmt 10 (by omega) (by omega) (k + 1) k [] false (by omega)
  unfold fmt_u at *
  rw [h1] at hd ⊢
  have hz := digit_char_ne_zero d (by omega) (h3 h0)
  have hb := strtoul_base_dec (digit_char d) tl hz
  have hsp : isspace '-' = false := by decide
  have hk' : ¬ k > ULONG_MAX := by omega
  simp [strtoul, List.dropWhile, hsp, hb, hd, strtoul_digits, hk']

theorem fmt_digits_mem_lt (b : Nat) (hb : 2 ≤ b) :
    ∀ fuel n acc c, c ∈ fmt_digits b fuel n acc → c ∈ acc ∨ ∃ d, d < b ∧ c = digit_char d := by
  intro fuel
  induction fuel with
  | zero => intro n acc c h; exact Or.inl h
  | succ fuel ih =>
    intro n acc c h
    unfold fmt_digits at h
    split at h
    · rename_i hn
      rcases List.mem_cons.1 h with h | h
      · exact Or.inr ⟨n, hn, h⟩
      · exact Or.inl h
    · rcases ih _ _ _ h with h | h
      · rcases List.mem_cons.1 h with h | h
        · exact Or.inr ⟨n % b, Nat.mod_lt n (by omega), h⟩
        · exact Or.inl h
      · exact Or.inr h

theorem fmt_u_chars (n : Nat) : ∀ c ∈ fmt_u n, ∃ d, d < 10 ∧ c = digit_char d := by
  intro c hc
  rcases fmt_digits_mem_lt 10 (by omega) _ _ _ _ hc with h | h
  · simp at h
  · exact h

theorem fmt_u_ne_nil (n : Nat) : fmt_u n ≠ [] := by
  obtain ⟨d, tl, h1, _, _⟩ := fmt_digits_head 10 (by omega) (by omega) (n + 1) n [] (by omega)
  unfold fmt_u
  rw [h1]; simp

theorem fmt_d_round_trip (id : Nat) (h : id < 2 ^ 32) :
    (strtoul (fmt_d id)).2 = [] ∧ (strtoul (fmt_d id)).1 % 2 ^ 32 = id := by
  unfold fmt_d
  split
  · rw [strtoul_dec id (by unfold ULONG_MAX; omega)]
    exact ⟨rfl, Nat.mod_eq_of_lt h⟩
  · rw [strtoul_neg_dec (2 ^ 32 - id) (by omega) (by unfold ULONG_MAX; omega)]
    refine ⟨rfl, ?_⟩
    simp only []
    omega

theorem digit_or_dash_facts : ∀ d, d < 10 →
    (tolower (digit_char d) ≠ 'f' ∧ tolower (digit_char d) ≠ 'm') ∧ tolower '-' ≠ 'f' := by
  decide

theorem fmt_d_chars (id : Nat) : ∀ c ∈ fmt_d id, c = '-' ∨ ∃ d, d < 10 ∧ c = digit_char d := by
  intro c hc
  unfold fmt_d at hc
  split at hc
  · exact Or.inr (fmt_u_chars _ c hc)
  · rcases List.mem_cons.1 hc with h | h
    · exact Or.inl h
    · exact Or.inr (fmt_u_chars _ c h)

theorem fmt_d_ne_nil (id : Nat) : fmt_d id ≠ [] := by
  unfold fmt_d
  split
  · exact fmt_u_ne_nil _
  · simp

theorem fmt_d_field (id : Nat) :
    ':' ∉ fmt_d id ∧ '@' ∉ fmt_d id ∧ (∀ c ∈ fmt_d id, is_sep c = false) ∧
    strcasecmp (fmt_d id) "FLAGS".toList = false := by
  have hch := fmt_d_chars id
  refine ⟨?_, ?_, ?_, ?_⟩
  · intro h
    rcases hch _ h with h | ⟨d, hd, h⟩
    · exact absurd h (by decide)
    · exact (digit_char_plain d (by omega)).2.1 h.symm
  · intro h
    rcases hch _ h with h | ⟨d, hd, h⟩
    · exact absurd h (by decide)
    · exact (digit_char_plain d (by omega)).2.2.1 h.symm
  · intro c hc
    rcases hch _ hc with h | ⟨d, hd, h⟩
    · subst h; decide
    · subst h; exact (digit_char_plain d (by omega)).2.2.2
  · cases hf : fmt_d id with
    | nil => exact absurd hf (fmt_d_ne_nil id)
    | cons c t =>
      have hc := hch c (by rw [hf]; simp)
      simp only [strcasecmp, List.map_cons, beq_eq_false_iff_ne, ne_eq]
      intro e
      have e1 : tolower c = 'f' := by
        have := congrArg List.head? e
        simpa using this
      rcases hc with h | ⟨d, hd, h⟩
      · subst h; exact absurd e1 (by decide)
      · subst h; exact (digit_or_dash_facts d hd).1.1 e1

/-! ## Flags of the tables and the characters of the fields -/

theorem write_ace_flags_loop_fmt (fmt : Nat) : ∀ rs f c,
    write_ace_flags_loop fmt rs f c =
      write_ace_flags_loop (if (fmt &&& RICHACL_TEXT_LONG != 0) = true then 1 else 0) rs f c := by
  intro rs
  induction rs with
  | nil => intro f c; rfl
  | cons b bs ih =>
    intro f c
    unfold write_ace_flags_loop
    rw [ih f c, ih (andNot f b.e_flag) true]
    by_cases h : (fmt &&& RICHACL_TEXT_LONG != 0) = true
    · have e : ((1 : Nat) &&& RICHACL_TEXT_LONG != 0) = true := by decide
      simp only [h, e, if_true]
    · have e : ((0 : Nat) &&& RICHACL_TEXT_LONG != 0) = false := by decide
      simp only [h, e, Bool.false_eq_true, if_false]

theorem write_acl_flags_loop_fmt (fmt : Nat) : ∀ rs f c,
    write_acl_flags_loop fmt rs f c =
      write_acl_flags_loop (if (fmt &&& RICHACL_TEXT_LONG != 0) = true then 1 else 0) rs f c := by
  intro rs
  induction rs with
  | nil => intro f c; rfl
  | cons b bs ih =>
    intro f c
    unfold write_acl_flags_loop
    rw [ih f c, ih (andNot f b.a_flag) true]
    by_cases h : (fmt &&& RICHACL_TEXT_LONG != 0) = true
    · have e : ((1 : Nat) &&& RICHACL_TEXT_LONG != 0) = true := by decide
      simp only [h, e, if_true]
    · have e : ((0 : Nat) &&& RICHACL_TEXT_LONG != 0) = false := by decide
      simp only [h, e, Bool.false_eq_true, if_false]

set_option maxRecDepth 100000 in
theorem ace_flags_table_cases : ∀ f, f < 256 → andNot f ace_table_bits = 0 →
    ∀ b, b < 2 →
      run_tokens (ace_flags_token (write_ace_flags_loop b ace_flag_bits f false))
        (write_ace_flags_loop b ace_flag_bits f false) 0 = some f ∧
      ':' ∉ write_ace_flags_loop b ace_flag_bits f false := by
  decide

set_option maxRecDepth 100000 in
theorem acl_flags_table_cases : ∀ f, f < 256 → andNot f acl_table_bits = 0 →
    ∀ b, b < 2 →
      acl_flags_from_text (write_acl_flags_loop b acl_flag_bits f false) = some f ∧
      ∀ c ∈ write_acl_flags_loop b acl_flag_bits f false,
        (c == ':' || c == ',' || isspace c) = false := by
  decide

theorem le_of_andNot_eq_zero (f T : Nat) (h : andNot f T = 0) : f ≤ T := by
  have : f &&& T = f := by
    apply Nat.eq_of_testBit_eq
    intro i
    have hi : (andNot f T).testBit i = false := by rw [h]; simp
    rw [testBit_andNot] at hi
    rw [Nat.testBit_and]
    revert hi
    cases f.testBit i <;> cases T.testBit i <;> simp
  rw [← this]
  exact Nat.and_le_right

theorem ace_flags_table_round_trip (f fmt : Nat) (h : andNot f ace_table_bits = 0)
    (ace : richace) :
    ace_flags_from_text (write_ace_flags_loop fmt ace_flag_bits f false) ace
      = some { ace with e_flags := f } ∧
    ':' ∉ write_ace_flags_loop fmt ace_flag_bits f false := by
  have hlt : f < 256 := by
    have := le_of_andNot_eq_zero f _ h
    have e : ace_table_bits = 0xCF := by decide
    omega
  rw [write_ace_flags_loop_fmt]
  have := ace_flags_table_cases f hlt h
    (if (fmt &&& RICHACL_TEXT_LONG != 0) = true then 1 else 0) (by split <;> omega)
  refine ⟨?_, this.2⟩
  unfold ace_flags_from_text
  rw [this.1]

theorem acl_flags_table_round_trip (f fmt : Nat) (h : andNot f acl_table_bits = 0) :
    acl_flags_from_text (write_acl_flags_loop fmt acl_flag_bits f false) = some f ∧
    ∀ c ∈ write_acl_flags_loop fmt acl_flag_bits f false,
      (c == ':' || c == ',' || isspace c) = false := by
  have hlt : f < 256 := by
    have := le_of_andNot_eq_zero f _ h
    have e : acl_table_bits = 0x97 := by decide
    omega
  rw [write_acl_flags_loop_fmt]
  exact acl_flags_table_cases f hlt h
    (if (fmt &&& RICHACL_TEXT_LONG != 0) = true then 1 else 0) (by split <;> omega)

theorem mask_names_no_colon : ∀ r ∈ mask_flags, ':' ∉ r.e_name := by
  decide

theorem hex_no_colon (v : Nat) : ':' ∉ ('0' :: 'x' :: fmt_x v) := by
  intro h
  simp only [List.mem_cons] at h
  rcases h with h | h | h
  · exact absurd h (by decide)
  · exact absurd h (by decide)
  · rcases fmt_digits_mem 16 (by omega) (by omega) _ _ _ _ h with h | ⟨d, hd, h⟩
    · simp at h
    · exact (digit_char_plain d hd).2.1 h.symm

theorem write_mask_loop_no_colon (fmt : Nat) : ∀ rs, (∀ r ∈ rs, r ∈ mask_flags) →
    ∀ nondir dir sw, ':' ∉ write_mask_loop fmt rs nondir dir sw := by
  intro rs
  induction rs with
  | nil =>
    intro _ nondir dir sw
    unfold write_mask_loop
    split
    · intro h
      rcases List.mem_append.1 h with h | h
      · cases sw
        · simp at h
        · simp at h
      · exact hex_no_colon _ h
    · simp
  | cons r rs ih =>
    intro hrs nondir dir sw
    have hr : r ∈ mask_flags := hrs r (List.mem_cons_self _ _)
    have hrs' : ∀ q ∈ rs, q ∈ mask_flags := fun q hq => hrs q (List.mem_cons_of_mem _ hq)
    have hname := mask_names_no_colon r hr
    have hchar := (mask_letters_first r hr).2.2.2.2.2.2.1
    rw [write_mask_loop]
    split
    · exact ih hrs' _ _ _
    · split
      · split
        · intro h
          rcases List.mem_append.1 h with h | h
          · rcases List.mem_append.1 h with h | h
            · cases sw
              · simp at h
              · simp at h
            · exact hname h
          · exact ih hrs' _ _ _ h
        · intro h
          rcases List.mem_cons.1 h with h | h
          · exact hchar h.symm
          · exact ih hrs' _ _ _ h
      · split
        · intro h
          rcases List.mem_cons.1 h with h | h
          · exact absurd h (by decide)
          · exact ih hrs' _ _ _ h
        · exact ih hrs' _ _ _

theorem write_mask_no_colon (m fmt : Nat) : ':' ∉ write_mask m fmt := by
  unfold write_mask
  exact write_mask_loop_no_colon _ _ (fun _ h => h) _ _ _

theorem type_from_text_write_type (t : Nat) (ht : t < 2 ^ 16) (ace : richace) :
    type_from_text (write_type t) ace = some { ace with e_type := t } ∧
    (t ≠ 0 → t ≠ 1 → write_type t = fmt_u t) := by
  have hgen : t ≠ 0 → t ≠ 1 → write_type t = fmt_u t := by
    intro h0 h1
    have e0 : (t == 0) = false := by simpa using h0
    have e1 : (t == 1) = false := by simpa using h1
    simp [write_type, type_values, List.find?, ACE4_ACCESS_ALLOWED_ACE_TYPE,
      ACE4_ACCESS_DENIED_ACE_TYPE, e0, e1]
  have hdec : strtoul (fmt_u t) = (t, []) := strtoul_dec t (by unfold ULONG_MAX; omega)
  refine ⟨?_, hgen⟩
  by_cases h0 : t = 0
  · subst h0
    have hw : write_type 0 = "allow".toList := by decide
    have hs : strtoul "allow".toList = (0, "allow".toList) := by decide
    have hf : type_values.find? (fun v => strcasecmp "allow".toList v.e_name)
        = some ⟨0, "allow".toList⟩ := by decide
    simp only [type_from_text, hw, hs, hf]
    rfl
  · by_cases h1 : t = 1
    · subst h1
      have hw : write_type 1 = "deny".toList := by decide
      have hs : strtoul "deny".toList = (0, "deny".toList) := by decide
      have hf : type_values.find? (fun v => strcasecmp "deny".toList v.e_name)
          = some ⟨1, "deny".toList⟩ := by decide
      simp only [type_from_text, hw, hs, hf]
      rfl
    · rw [hgen h0 h1]
      simp only [type_from_text, hdec, List.isEmpty_nil, if_true]
      rw [Nat.mod_eq_of_lt ht]

theorem digit_not_m : ∀ d, d < 10 → tolower (digit_char d) ≠ 'm' := by
  decide

theorem write_type_field (t : Nat) (ht : t < 2 ^ 16) :
    (∀ c ∈ write_type t, (c == ',' || isspace c) = false) ∧
    strcasecmp (write_type t) "MASK".toList = false := by
  by_cases h0 : t = 0
  · subst h0; decide
  · by_cases h1 : t = 1
    · subst h1; decide
    · rw [(type_from_text_write_type t ht ⟨0, 0, 0, 0⟩).2 h0 h1]
      constructor
      · intro c hc
        obtain ⟨d, hd, e⟩ := fmt_u_chars t c hc
        subst e
        have := (digit_char_plain d (by omega)).2.2.2
        simp only [is_sep, Bool.or_eq_false_iff] at this
        simp [this.1, this.2]
      · cases hf : fmt_u t with
        | nil => exact absurd hf (fmt_u_ne_nil t)
        | cons c tl =>
          obtain ⟨d, hd, e⟩ := fmt_u_chars t c (by rw [hf]; simp)
          subst e
          simp only [strcasecmp, List.map_cons, beq_eq_false_iff_ne, ne_eq]
          intro e
          have e1 : tolower (digit_char d) = 'm' := by
            have := congrArg List.head? e
            simpa using this
          exact digit_not_m d hd e1

/-! ## Identifiers as written and as read -/

theorem special_who_facts : ∀ p ∈ special_whos,
    ':' ∉ (special_who_name p.1).map tolower ∧
    (∀ c ∈ ((special_who_name p.1).map tolower).head?, is_sep c = false) ∧
    (special_who_name p.1).map tolower ≠ [] ∧
    strcasecmp ((special_who_name p.1).map tolower) "FLAGS".toList = false ∧
    (strchr_split '@' ((special_who_name p.1).map tolower)).map (fun q => q.2) = some [] ∧
    (special_whos.find? (fun q => q.2 == ((special_who_name p.1).map tolower).map toupper)).map
      (fun q => q.1) = some p.1 := by
  decide

theorem special_bit_set (e : Nat) (h : (e &&& ACE4_SPECIAL_WHO != 0) = true) :
    andNot e ACE4_SPECIAL_WHO ||| ACE4_SPECIAL_WHO = e := by
  have hs : ACE4_SPECIAL_WHO = 2 ^ 14 := by decide
  rw [hs] at h ⊢
  rw [land_two_pow_bne] at h
  rw [Nat.lor_comm]
  exact consume_one e 14 h

theorem special_bit_clear (e : Nat) (h : (e &&& ACE4_SPECIAL_WHO != 0) = false) :
    andNot e ACE4_SPECIAL_WHO = e := by
  have hz : e &&& ACE4_SPECIAL_WHO = 0 := by simpa using h
  simp [andNot, hz]

theorem andNot_andNot_table (e T S : Nat) (h : andNot e (T ||| S) = 0) :
    andNot (andNot e S) T = 0 := by
  apply Nat.eq_of_testBit_eq
  intro i
  have hi : (andNot e (T ||| S)).testBit i = false := by rw [h]; simp
  rw [testBit_andNot, Nat.testBit_or] at hi
  rw [testBit_andNot, testBit_andNot]
  revert hi
  cases e.testBit i <;> cases T.testBit i <;> cases S.testBit i <;> simp

theorem from_text_run_pad (R : Resolver) (w : Nat) (s t : Str) (acl : richacl) (fl : Nat) :
    from_text_run R (pad w s ++ t) acl fl = from_text_run R (s ++ t) acl fl := by
  unfold pad
  generalize w - s.length = k
  induction k with
  | zero => simp
  | succ k ih =>
    rw [List.replicate_succ, List.cons_append, List.cons_append,
      from_text_run_sep R ' ' _ acl fl (by decide)]
    exact ih

/-! ## Entry lines as written and as read -/

theorem simplify_zero_of_bit (x : Nat) (h : x.testBit 4 = false) :
    x &&& RICHACL_TEXT_SIMPLIFY = 0 := by
  have := bit_simplify x
  rw [h] at this
  simpa using this

theorem entry_fmt_simplify (a : richace) (fmt : Nat) :
    (entry_fmt a fmt).testBit 4 = fmt.testBit 4 := by
  unfold entry_fmt
  simp only []
  split <;> split <;> split <;>
    simp [Nat.testBit_or, testBit_andNot, testBit_file, testBit_dir]

theorem masks_loop_simplify : ∀ (es : List richace) (allowed fmt2 : Nat),
    (masks_loop es allowed fmt2).2.testBit 4 = fmt2.testBit 4 := by
  intro es
  induction es with
  | nil => intro allowed fmt2; rfl
  | cons a es ih =>
    intro allowed fmt2
    unfold masks_loop
    split
    · exact ih _ _
    · simp only []
      rw [ih]
      split <;> split <;> simp [Nat.testBit_or, testBit_file, testBit_dir]

/-! ## The flags line and the mask lines as written and as read -/

theorem from_text_run_mask_line (R : Resolver) (align : Nat) (who M t : Str) (acl : richacl)
    (fl : Nat) (hw : ':' ∉ who) (hw0 : who ≠ []) (hwh : ∀ c ∈ who.head?, is_sep c = false)
    (hwf : strcasecmp who "FLAGS".toList = false) (hc : ':' ∉ M) :
    from_text_run R (pad align who ++ (':' :: (M ++ ':' :: ([] ++ ':' ::
        ("mask".toList ++ '\n' :: t))))) acl fl
      = (from_text_fields R who M [] "mask".toList acl fl).bind
          (fun r => from_text_run R t r.1 r.2) := by
  rw [from_text_run_pad, from_text_run_entry R _ acl fl (by cases who <;> simp)
    (by
      intro c hc
      cases who with
      | nil => exact absurd rfl hw0
      | cons x tl => exact hwh c (by simpa using hc))]
  rw [from_text_entry_fields R who M [] "mask".toList ('\n' :: t) acl fl hw hc (by simp)
    (by decide) (by intro c hc; simp at hc; subst hc; decide)
    (by intro hx; rw [hwf] at hx; cases hx)]
  cases from_text_fields R who M [] "mask".toList acl fl with
  | none => rfl
  | some r =>
    simp only [Option.map, Option.bind]
    exact from_text_run_sep R '\n' t _ _ (by decide)

theorem land_mask32 (x : Nat) (h : x < 2 ^ 32) : x &&& 0xffffffff = x := by
  have := Nat.and_pow_two_sub_one_eq_mod x 32
  rw [Nat.mod_eq_of_lt h] at this
  exact this

theorem from_text_run_write_masks (R : Resolver) (acl : richacl) (align fmt : Nat)
    (hm : (fmt &&& RICHACL_TEXT_SHOW_MASKS != 0) = true) (hs : fmt.testBit 4 = false)
    (h1 : acl.a_owner_mask < 2 ^ 32) (h2 : acl.a_group_mask < 2 ^ 32)
    (h3 : acl.a_other_mask < 2 ^ 32) (t : Str) (st : richacl) (fl : Nat) :
    from_text_run R (write_masks acl align fmt ++ t) st fl
      = from_text_run R t
          { st with a_owner_mask := acl.a_owner_mask, a_group_mask := acl.a_group_mask,
                    a_other_mask := acl.a_other_mask }
          (fl ||| RICHACL_TEXT_OWNER_MASK ||| RICHACL_TEXT_GROUP_MASK |||
            RICHACL_TEXT_OTHER_MASK) := by
  have hs0 : (fmt &&& RICHACL_TEXT_SIMPLIFY == 0) = true := by
    have := simplify_zero_of_bit fmt hs
    simp [this]
  have hs2 : (masks_loop acl.a_entries 0 fmt).2 &&& RICHACL_TEXT_SIMPLIFY = 0 :=
    simplify_zero_of_bit _ (by rw [masks_loop_simplify]; exact hs)
  have e : write_masks acl align fmt ++ t =
      pad align "owner".toList ++ (':' :: (write_mask acl.a_owner_mask
        (masks_loop acl.a_entries 0 fmt).2 ++ ':' :: ([] ++ ':' :: ("mask".toList ++ '\n' ::
      (pad align "group".toList ++ (':' :: (write_mask acl.a_group_mask
        (masks_loop acl.a_entries 0 fmt).2 ++ ':' :: ([] ++ ':' :: ("mask".toList ++ '\n' ::
      (pad align "other".toList ++ (':' :: (write_mask acl.a_other_mask
        (masks_loop acl.a_entries 0 fmt).2 ++ ':' :: ([] ++ ':' :: ("mask".toList ++ '\n' ::
          t)))))))))))))) := by
    simp [write_masks, hm, hs0, land_mask32 _ h1, land_mask32 _ h2, land_mask32 _ h3]
  rw [e]
  have m1 := mask_text_read_back acl.a_owner_mask _ h1 hs2
  have m2 := mask_text_read_back acl.a_group_mask _ h2 hs2
  have m3 := mask_text_read_back acl.a_other_mask _ h3 hs2
  have k : strcasecmp "mask".toList "MASK".toList = true := by decide
  rw [from_text_run_mask_line R align _ _ _ _ _ (by decide) (by decide) (by decide) (by decide)
    (write_mask_no_colon _ _)]
  have f1 : from_text_fields R "owner".toList (write_mask acl.a_owner_mask
      (masks_loop acl.a_entries 0 fmt).2) [] "mask".toList st fl
      = some ({ st with a_owner_mask := acl.a_owner_mask }, fl ||| RICHACL_TEXT_OWNER_MASK) := by
    have k1 : strcasecmp "owner".toList "OWNER".toList = true := by decide
    simp only [from_text_fields, m1, k, k1, if_true]
  rw [f1]
  simp only [Option.bind]
  rw [from_text_run_mask_line R align _ _ _ _ _ (by decide) (by decide) (by decide) (by decide)
    (write_mask_no_colon _ _)]
  have f2 : ∀ (st : richacl) (fl : Nat), from_text_fields R "group".toList
      (write_mask acl.a_group_mask (masks_loop acl.a_entries 0 fmt).2) [] "mask".toList st fl
      = some ({ st with a_group_mask := acl.a_group_mask }, fl ||| RICHACL_TEXT_GROUP_MASK) := by
    intro st fl
    have k1 : strcasecmp "group".toList "OWNER".toList = false := by decide
    have k2 : strcasecmp "group".toList "GROUP".toList = true := by decide
    simp only [from_text_fields, m2, k, k1, k2, if_true, Bool.false_eq_true, if_false]
  rw [f2]
  simp only [Option.bind]
  rw [from_text_run_mask_line R align _ _ _ _ _ (by decide) (by decide) (by decide) (by decide)
    (write_mask_no_colon _ _)]
  have f3 : ∀ (st : richacl) (fl : Nat), from_text_fields R "other".toList
      (write_mask acl.a_other_mask (masks_loop acl.a_entries 0 fmt).2) [] "mask".toList st fl
      = some ({ st with a_other_mask := acl.a_other_mask }, fl ||| RICHACL_TEXT_OTHER_MASK) := by
    intro st fl
    have k1 : strcasecmp "other".toList "OWNER".toList = false := by decide
    have k2 : strcasecmp "other".toList "GROUP".toList = false := by decide
    have k3 : strcasecmp "other".toList "OTHER".toList = true := by decide
    simp only [from_text_fields, m3, k, k1, k2, k3, if_true, Bool.false_eq_true, if_false]
  rw [f3]
  rfl

theorem from_text_run_write_acl_flags (R : Resolver) (F align fmt : Nat)
    (hF : andNot F acl_table_bits = 0) (t : Str) :
    from_text_run R (write_acl_flags F align fmt ++ t) ⟨0, 0, 0, 0, []⟩ 0
      = from_text_run R t ⟨F, 0, 0, 0, []⟩ (if F = 0 then 0 else RICHACL_TEXT_FLAGS) := by
  by_cases h0 : F = 0
  · subst h0
    rfl
  · have hb : (F == 0) = false := by simpa using h0
    obtain ⟨r1, r2⟩ := acl_flags_table_round_trip F fmt hF
    have e : write_acl_flags F align fmt ++ t = pad align "flags".toList ++
        (':' :: (write_acl_flags_loop fmt acl_flag_bits F false ++ '\n' :: t)) := by
      simp [write_acl_flags, hb]
    rw [e, from_text_run_pad,
      from_text_run_entry R _ _ _ (by simp) (by intro c hc; simp at hc; subst hc; decide),
      from_text_entry_flags R "flags".toList _ ('\n' :: t) _ _ (by decide) (by decide) r2
        (by intro c hc; simp at hc; subst hc; decide), r1]
    simp only [Option.map, Option.bind, h0, if_false]
    rw [from_text_run_sep R '\n' t _ _ (by decide)]
    rfl

/-! ## Domain-qualified identifiers -/

theorem upper_shift_not_at : ∀ n, n < 91 → 65 ≤ n → Char.ofNat (n + 32) ≠ '@' := by
  decide

theorem tolower_at (c : Char) (h : tolower c = '@') : c = '@' := by
  rcases tolower_cases c with h1 | h1
  · rw [h1] at h; exact h
  · exfalso
    unfold tolower at h
    rw [if_pos h1] at h
    exact upper_shift_not_at c.toNat (by omega) h1.1 h

theorem strcasecmp_at (who name : Str) (h : '@' ∈ who) (hn : '@' ∉ name.map tolower) :
    strcasecmp who name = false := by
  cases hc : strcasecmp who name with
  | false => rfl
  | true =>
    exfalso
    unfold strcasecmp at hc
    have e : who.map tolower = name.map tolower := by simpa using hc
    apply hn
    rw [← e]
    exact List.mem_map.mpr ⟨'@', h, by decide⟩

theorem strchr_split_at_domain : ∀ (a : Str) (c : Char) (b : Str),
    ∃ p, strchr_split '@' (a ++ '@' :: c :: b) = some p ∧ p.2.isEmpty = false := by
  intro a
  induction a with
  | nil => intro c b; exact ⟨([], c :: b), by simp [strchr_split], rfl⟩
  | cons x xs ih =>
    intro c b
    by_cases hx : x = '@'
    · subst hx
      cases xs with
      | nil => exact ⟨([], '@' :: c :: b), by simp [strchr_split], rfl⟩
      | cons y ys => exact ⟨([], (y :: ys) ++ '@' :: c :: b), by simp [strchr_split], rfl⟩
    · obtain ⟨p, hp, hp2⟩ := ih c b
      refine ⟨(x :: p.1, p.2), ?_, hp2⟩
      show strchr_split '@' (x :: (xs ++ '@' :: c :: b)) = _
      rw [strchr_split, if_neg hx, hp]

theorem identifier_from_text_domain (R : Resolver) (a : Str) (c : Char) (b : Str)
    (ace : richace) : identifier_from_text R (a ++ '@' :: c :: b) ace = none := by
  obtain ⟨p, hp, hp2⟩ := strchr_split_at_domain a c b
  unfold identifier_from_text
  rw [hp]
  simp [hp2]

theorem from_text_fields_domain (R : Resolver) (a : Str) (c : Char) (b : Str)
    (mtext ftext ttext : Str) (acl : richacl) (flags : Nat) :
    from_text_fields R (a ++ '@' :: c :: b) mtext ftext ttext acl flags = none := by
  have hat : '@' ∈ a ++ '@' :: c :: b := by simp
  have e1 := strcasecmp_at _ "OWNER".toList hat (by decide)
  have e2 := strcasecmp_at _ "GROUP".toList hat (by decide)
  have e3 := strcasecmp_at _ "OTHER".toList hat (by decide)
  unfold from_text_fields
  cases mask_from_text mtext with
  | none => rfl
  | some m =>
    by_cases ht : strcasecmp ttext "MASK".toList = true
    · simp only [ht, e1, e2, e3, if_true, Bool.false_eq_true, if_false]
    · simp only [ht, if_false]
      cases ace_flags_from_text ftext ⟨0, 0, m, 0⟩ with
      | none => rfl
      | some ace => simp only [identifier_from_text_domain, Bool.false_eq_true, if_false]

theorem from_text_entry_domain (R : Resolver) (s : Str) (p : Str × Str) (a : Str) (c : Char)
    (b : Str) (acl : richacl) (flags : Nat) (hp : strchr_split ':' s = some p)
    (hw : p.1 = a ++ '@' :: c :: b) : from_text_entry R s acl flags = none := by
  have hat : '@' ∈ p.1 := by rw [hw]; simp
  have e0 := strcasecmp_at _ "FLAGS".toList hat (by decide)
  unfold from_text_entry
  rw [hp]
  simp only [e0, Bool.false_and]
  simp only [Bool.false_eq_true, if_false]
  split
  · rfl
  · split
    · rfl
    · rw [hw, from_text_fields_domain]

theorem from_text_run_domain (R : Resolver) (s : Str) (p : Str × Str) (a : Str) (c : Char)
    (b : Str) (acl : richacl) (flags : Nat)
    (hp : strchr_split ':' (s.dropWhile is_sep) = some p)
    (hw : p.1 = a ++ '@' :: c :: b) : from_text_run R s acl flags = none := by
  have h0 : s.dropWhile is_sep ≠ [] := by
    intro e; rw [e] at hp; simp [strchr_split] at hp
  rw [from_text_run_dropWhile,
    from_text_run_entry R _ acl flags h0 (dropWhile_sep_head s),
    from_text_entry_domain R _ p a c b acl flags hp hw]
  rfl

/-- C12: a domain-qualified identifier is always rejected.  The text
bob@example.com:r::allow yields no record with any resolver; and in general, when the
who-field of the first entry of a text (the text before the first colon, after the leading
separators) contains an at sign followed by one more character, richacl_from_text yields
no record, for every resolver and whatever follows the who-field. -/
theorem domain_identifier_rejected :
    (∀ R : Resolver, richacl_from_text R "bob@example.com:r::allow".toList = none) ∧
    ∀ (R : Resolver) (s : Str) (p : Str × Str) (a : Str) (c : Char) (b : Str),
      strchr_split ':' (s.dropWhile is_sep) = some p → p.1 = a ++ '@' :: c :: b →
      richacl_from_text R s = none := by
  constructor
  · intro R
    exact from_text_run_domain R _ ("bob@example.com".toList, "r::allow".toList)
      "bob".toList 'e' "xample.com".toList _ _ (by decide) (by decide)
  · intro R s p a c b hp hw
    exact from_text_run_domain R s p a c b _ _ hp hw

/-- Witness of C12 at the text a@@:zzz after a space, whose who-field has a second at sign
after the first. -/
theorem domain_identifier_rejected_witness :
    richacl_from_text no_names " a@@:zzz".toList = none :=
  domain_identifier_rejected.2 no_names " a@@:zzz".toList ("a@@".toList, "zzz".toList)
    "a".toList '@' [] (by decide) (by decide)

/-! ## Re-casing -/

theorem ofNat_shift_lower : ∀ n, n < 91 → 65 ≤ n →
    tolower (Char.ofNat (n + 32)) = Char.ofNat (n + 32) := by
  decide

theorem tolower_of_shift (a b : Char) (h1 : 65 ≤ a.toNat ∧ a.toNat ≤ 90)
    (h2 : b.toNat = a.toNat + 32) : tolower a = tolower b := by
  have hb : b = Char.ofNat (a.toNat + 32) := by rw [← h2, Char.ofNat_toNat]
  have ha : tolower a = Char.ofNat (a.toNat + 32) := by unfold tolower; rw [if_pos h1]
  rw [ha, hb, ofNat_shift_lower a.toNat (by omega) h1.1]

theorem case_variant_tolower (a b : Char) (h : case_variant a b = true) :
    tolower a = tolower b := by
  unfold case_variant at h
  simp only [Bool.or_eq_true, Bool.and_eq_true, decide_eq_true_eq, beq_iff_eq] at h
  rcases h with (h | ⟨h1, h2⟩) | ⟨h1, h2⟩
  · rw [h]
  · exact tolower_of_shift a b h1 h2
  · exact (tolower_of_shift b a h1 h2).symm

theorem recasing_tolower : ∀ (s t : Str), recasing s t = true →
    s.map tolower = t.map tolower := by
  intro s
  induction s with
  | nil =>
    intro t h
    cases t with
    | nil => rfl
    | cons b t => simp [recasing] at h
  | cons a s ih =>
    intro t h
    cases t with
    | nil => simp [recasing] at h
    | cons b t =>
      simp only [recasing, Bool.and_eq_true] at h
      simp only [List.map_cons, case_variant_tolower a b h.1, ih t h.2]

theorem recasing_strcasecmp (s t : Str) (h : recasing s t = true) : strcasecmp s t = true := by
  unfold strcasecmp
  rw [recasing_tolower s t h]
  simp

/-! ## The parser: the lines of the three masks -/

theorem mask_line_fields (R : Resolver) (word mtext ttext : Str) (m : Nat)
    (hplain : ∀ c ∈ word, plain_char c = true)
    (hnf : strcasecmp word "FLAGS".toList = false) (hm : ':' ∉ mtext)
    (hmask : mask_from_text mtext = some m) (ht : strcasecmp ttext "MASK".toList = true) :
    richacl_from_text R (word ++ ':' :: (mtext ++ ':' :: ':' :: ttext))
      = if strcasecmp word "OWNER".toList then
          some (⟨0, m, 0, 0, []⟩, RICHACL_TEXT_OWNER_MASK)
        else if strcasecmp word "GROUP".toList then
          some (⟨0, 0, m, 0, []⟩, RICHACL_TEXT_GROUP_MASK)
        else if strcasecmp word "OTHER".toList then
          some (⟨0, 0, 0, m, []⟩, RICHACL_TEXT_OTHER_MASK)
        else none := by
  have htp : ∀ c ∈ ttext, plain_char c = true :=
    plain_of_recased ttext "MASK".toList ht (by decide)
  unfold richacl_from_text
  rw [from_text_run_entry R _ _ _ (by cases word <;> simp)
    (by
      intro c hc
      cases word with
      | nil => simp at hc; subst hc; decide
      | cons x t =>
        simp at hc; subst hc
        exact (plain_char_facts _ (hplain _ (by simp))).2.2.2.2.2.2.2.2.2)]
  have := from_text_entry_fields R word mtext [] ttext [] ⟨0, 0, 0, 0, []⟩ 0
    (fun h => (plain_char_facts _ (hplain _ h)).2.1 rfl) hm (by simp)
    (by
      intro c hc
      have := (plain_char_facts _ (htp c hc)).2.2.2.2.2.2.2.2.2
      simpa [is_sep, Bool.or_comm] using this)
    (by simp) (by intro hx; rw [hnf] at hx; cases hx)
  rw [List.append_nil, List.nil_append] at this
  rw [this]
  simp only [from_text_fields, hmask, ht, if_true]
  by_cases h1 : strcasecmp word "OWNER".toList = true
  · simp only [h1, if_true]; rfl
  · by_cases h2 : strcasecmp word "GROUP".toList = true
    · simp only [h1, h2, if_true, if_false]; rfl
    · by_cases h3 : strcasecmp word "OTHER".toList = true
      · simp only [h1, h2, h3, if_true, if_false]; rfl
      · simp only [h1, h2, h3, if_false]; rfl

theorem mask_line_word (word name : Str) (h : recasing word name = true)
    (hn : ∀ y ∈ name.map tolower, plain_char y = true) :
    (∀ c ∈ word, plain_char c = true) ∧
      ∀ other, strcasecmp word other = strcasecmp name other :=
  ⟨plain_of_recased word name (recasing_strcasecmp word name h) hn,
    strcasecmp_congr word name (recasing_strcasecmp word name h)⟩

/-- C13: a line of one of the three masks sets that mask and nothing else.  The empty text
is parsed into the empty record with no section bit, and owner:::mask into the empty record
with the section bit of the owner mask.  For every re-casing of the word owner (group,
other), every mask field (a text without colon) that mask_from_text decodes to m, and every
re-casing of the word mask, the line word:mask::mask is parsed into a record without
entries whose owner mask (group mask, other mask) is m and whose other two masks and ACL
flags are zero, with exactly the section bit of that mask.  The three section bits are
nonzero, so each result differs in its section bits from that of the empty text. -/
theorem mask_line_sets_one_mask :
    (∀ R : Resolver, richacl_from_text R [] = some (⟨0, 0, 0, 0, []⟩, 0)) ∧
    (∀ R : Resolver, richacl_from_text R "owner:::mask".toList
      = some (⟨0, 0, 0, 0, []⟩, RICHACL_TEXT_OWNER_MASK)) ∧
    (RICHACL_TEXT_OWNER_MASK ≠ 0 ∧ RICHACL_TEXT_GROUP_MASK ≠ 0 ∧ RICHACL_TEXT_OTHER_MASK ≠ 0 ∧
      RICHACL_TEXT_OWNER_MASK &&& RICHACL_TEXT_GROUP_MASK = 0 ∧
      RICHACL_TEXT_OWNER_MASK &&& RICHACL_TEXT_OTHER_MASK = 0 ∧
      RICHACL_TEXT_GROUP_MASK &&& RICHACL_TEXT_OTHER_MASK = 0 ∧
      (RICHACL_TEXT_OWNER_MASK ||| RICHACL_TEXT_GROUP_MASK ||| RICHACL_TEXT_OTHER_MASK)
        &&& RICHACL_TEXT_FLAGS = 0) ∧
    (∀ (R : Resolver) (word mtext ttext : Str) (m : Nat),
      ':' ∉ mtext → mask_from_text mtext = some m → recasing ttext "mask".toList = true →
      (recasing word "owner".toList = true →
        richacl_from_text R (word ++ ':' :: (mtext ++ ':' :: ':' :: ttext))
          = some (⟨0, m, 0, 0, []⟩, RICHACL_TEXT_OWNER_MASK)) ∧
      (recasing word "group".toList = true →
        richacl_from_text R (word ++ ':' :: (mtext ++ ':' :: ':' :: ttext))
          = some (⟨0, 0, m, 0, []⟩, RICHACL_TEXT_GROUP_MASK)) ∧
      (recasing word "other".toList = true →
        richacl_from_text R (word ++ ':' :: (mtext ++ ':' :: ':' :: ttext))
          = some (⟨0, 0, 0, m, []⟩, RICHACL_TEXT_OTHER_MASK))) := by
  refine ⟨fun R => rfl, fun R => by rfl, by decide, ?_⟩
  intro R word mtext ttext m hm hmask ht
  have ht2 : strcasecmp ttext "MASK".toList = true := by
    rw [strcasecmp_congr ttext "mask".toList (recasing_strcasecmp _ _ ht)]
    decide
  refine ⟨?_, ?_, ?_⟩
  · intro hw
    obtain ⟨hp, hc⟩ := mask_line_word word _ hw (by decide)
    rw [mask_line_fields R word mtext ttext m hp (by rw [hc]; decide) hm hmask ht2, hc]
    rfl
  · intro hw
    obtain ⟨hp, hc⟩ := mask_line_word word _ hw (by decide)
    rw [mask_line_fields R word mtext ttext m hp (by rw [hc]; decide) hm hmask ht2, hc, hc]
    rfl
  · intro hw
    obtain ⟨hp, hc⟩ := mask_line_word word _ hw (by decide)
    rw [mask_line_fields R word mtext ttext m hp (by rw [hc]; decide) hm hmask ht2,
      hc, hc, hc]
    rfl

/-- Witness of C13 at the line Group:rw::MASK. -/
theorem mask_line_sets_one_mask_witness :
    richacl_from_text no_names "Group:rw::MASK".toList
      = some (⟨0, 0, 3, 0, []⟩, RICHACL_TEXT_GROUP_MASK) :=
  (mask_line_sets_one_mask.2.2.2 no_names "Group".toList "rw".toList "MASK".toList 3
    (by decide) (by decide) (by decide)).2.1 (by decide)

/-! ## The parser: the lookup of a name -/

theorem type_from_text_id (t : Str) (a a3 : richace) (i : Nat)
    (h : type_from_text t a = some a3) :
    type_from_text t { a with e_id := i } = some { a3 with e_id := i } := by
  unfold type_from_text at h ⊢
  split at h
  · rename_i h0
    rw [if_pos h0]
    cases h; rfl
  · rename_i h0
    rw [if_neg h0]
    split at h
    · cases h; rfl
    · cases h

theorem identifier_from_text_name (R : Resolver) (name : Str) (a : richace)
    (hat : '@' ∉ name) (hnum : (strtoul name).2.isEmpty = false) :
    identifier_from_text R name a
      = (if a.e_flags &&& ACE4_IDENTIFIER_GROUP != 0 then R.getgrnam name
          else R.getpwnam name).map (fun i => { a with e_id := i }) := by
  unfold identifier_from_text
  rw [strchr_split_none '@' name hat]
  simp only [hnum, Bool.false_eq_true, if_false]
  split
  · cases R.getgrnam name <;> rfl
  · cases R.getpwnam name <;> rfl

theorem name_line_fields (R : Resolver) (name mtext ftext ttext : Str) (m : Nat)
    (a1 a3 : richace)
    (hat : '@' ∉ name) (hw : ':' ∉ name) (hw0 : ∀ c ∈ name.head?, is_sep c = false)
    (hnum : (strtoul name).2.isEmpty = false) (hm : ':' ∉ mtext) (hf : ':' ∉ ftext)
    (ht : ∀ c ∈ ttext, is_sep c = false)
    (hfl : strcasecmp name "FLAGS".toList = true → ∀ c ∈ mtext, is_sep c = false)
    (hmask : mask_from_text mtext = some m)
    (htype : strcasecmp ttext "MASK".toList = false)
    (h1 : ace_flags_from_text ftext ⟨0, 0, m, 0⟩ = some a1)
    (h3 : type_from_text ttext a1 = some a3) :
    richacl_from_text R (name ++ ':' :: (mtext ++ ':' :: (ftext ++ ':' :: ttext)))
      = (if a1.e_flags &&& ACE4_IDENTIFIER_GROUP != 0 then R.getgrnam name
          else R.getpwnam name).map
          (fun i => (⟨0, 0, 0, 0, [⟨a3.e_type, a1.e_flags, m, i⟩]⟩, 0)) := by
  have sepeq : ∀ c, (c == ',' || isspace c) = is_sep c := by
    intro c; simp [is_sep, Bool.or_comm]
  obtain ⟨_, f2, _⟩ := ace_flags_from_text_frame _ _ _ h1
  obtain ⟨k1, k2, _⟩ := type_from_text_frame _ _ _ h3
  unfold richacl_from_text
  rw [from_text_run_entry R _ _ _ (by cases name <;> simp)
    (by
      intro c hc
      cases name with
      | nil => simp at hc; subst hc; decide
      | cons x t => exact hw0 c (by simpa using hc))]
  have := from_text_entry_fields R name mtext ftext ttext [] ⟨0, 0, 0, 0, []⟩ 0 hw hm hf
    (by intro c hc; rw [sepeq]; exact ht c hc) (by simp)
    (by intro hx c hc; rw [sepeq]; exact hfl hx c hc)
  rw [List.append_nil] at this
  rw [this]
  simp only [from_text_fields, hmask, htype, h1, Bool.false_eq_true, if_false,
    identifier_from_text_name R name a1 hat hnum]
  cases hl : (if a1.e_flags &&& ACE4_IDENTIFIER_GROUP != 0 then R.getgrnam name
      else R.getpwnam name) with
  | none => rfl
  | some i =>
    simp only [Option.map, type_from_text_id ttext a1 a3 i h3, Option.bind, List.nil_append]
    have f3 : a1.e_mask = m := f2
    have e : ({ a3 with e_id := i } : richace) = ⟨a3.e_type, a1.e_flags, m, i⟩ := by
      rw [← k1, ← f3, ← k2]
    rw [e]
    rfl

/-- C17: the flags are decoded before the name is looked up.  Take an entry
name:mask:flags:type whose name has no at sign and is not read as a number by strtoul, whose
mask field decodes to m, whose flags field decodes to the entry a1 and whose type field is
accepted (and is not MASK); the fields are fields of the line as in C6.  Then the one lookup
made is getgrnam of the name when the decoded flags contain identifier_group and getpwnam
of the name otherwise; the parse yields no record exactly when that lookup finds nothing,
and when it finds the identifier i the parse yields the one entry with the identifier i,
the decoded flags, the mask m and the decoded type. -/
theorem name_lookup_after_flags (R : Resolver) (name mtext ftext ttext : Str) (m : Nat)
    (a1 a3 : richace)
    (hat : '@' ∉ name) (hw : ':' ∉ name) (hw0 : ∀ c ∈ name.head?, is_sep c = false)
    (hnum : (strtoul name).2.isEmpty = false) (hm : ':' ∉ mtext) (hf : ':' ∉ ftext)
    (ht : ∀ c ∈ ttext, is_sep c = false)
    (hfl : strcasecmp name "FLAGS".toList = true → ∀ c ∈ mtext, is_sep c = false)
    (hmask : mask_from_text mtext = some m)
    (htype : strcasecmp ttext "MASK".toList = false)
    (h1 : ace_flags_from_text ftext ⟨0, 0, m, 0⟩ = some a1)
    (h3 : type_from_text ttext a1 = some a3) :
    (richacl_from_text R (name ++ ':' :: (mtext ++ ':' :: (ftext ++ ':' :: ttext))) = none ↔
      (if a1.e_flags &&& ACE4_IDENTIFIER_GROUP != 0 then R.getgrnam name
        else R.getpwnam name) = none) ∧
    (∀ i, (if a1.e_flags &&& ACE4_IDENTIFIER_GROUP != 0 then R.getgrnam name
        else R.getpwnam name) = some i →
      richacl_from_text R (name ++ ':' :: (mtext ++ ':' :: (ftext ++ ':' :: ttext)))
        = some (⟨0, 0, 0, 0, [⟨a3.e_type, a1.e_flags, m, i⟩]⟩, 0)) := by
  rw [name_line_fields R name mtext ftext ttext m a1 a3 hat hw hw0 hnum hm hf ht hfl hmask
    htype h1 h3]
  constructor
  · simp
  · intro i hi
    rw [hi]
    rfl

/-- Witness of C17 at the line staff:r:g:allow with a resolver that knows the user staff as
7 and the group staff as 50: the flag g makes the lookup that of the group. -/
theorem name_lookup_after_flags_witness :
    richacl_from_text ⟨fun _ => none, fun _ => none, fun _ => some 7, fun _ => some 50⟩
      "staff:r:g:allow".toList
      = some (⟨0, 0, 0, 0, [⟨0, ACE4_IDENTIFIER_GROUP, 1, 50⟩]⟩, 0) :=
  (name_lookup_after_flags ⟨fun _ => none, fun _ => none, fun _ => some 7, fun _ => some 50⟩
    "staff".toList "r".toList "g".toList "allow".toList 1 ⟨0, ACE4_IDENTIFIER_GROUP, 1, 0⟩
    ⟨0, ACE4_IDENTIFIER_GROUP, 1, 0⟩ (by decide) (by decide) (by decide) (by decide)
    (by decide) (by decide) (by decide) (by decide) (by decide) (by decide) (by decide)
    (by decide)).2 50 (by decide)

/-! ## Case insensitivity -/

theorem recased_token (tok name : Str) (h : strcasecmp tok name = true) (hn : name ≠ [])
    (hp : ∀ y ∈ name.map tolower, plain_char y = true) :
    tok ≠ [] ∧ '/' ∉ tok ∧ (strtoul tok).2.isEmpty = false := by
  have h0 := recased_ne_nil tok name h hn
  have hpl := plain_of_recased tok name h hp
  refine ⟨h0, fun hs => (plain_char_facts _ (hpl _ hs)).2.2.2.1 rfl, ?_⟩
  cases tok with
  | nil => exact absurd rfl h0
  | cons c t => rw [strtoul_plain c t (hpl c (by simp))]; rfl

theorem type_names_facts : ∀ v ∈ type_values,
    v.e_name ≠ [] ∧ (∀ y ∈ v.e_name.map tolower, plain_char y = true) ∧
    (type_values.find? (fun q => strcasecmp v.e_name q.e_name)).map (fun q => q.e_type)
      = some v.e_type := by
  decide

theorem mask_names_plain : ∀ r ∈ mask_flags, ∀ y ∈ r.e_name.map tolower, plain_char y = true := by
  decide

theorem ace_names_facts : ∀ b ∈ ace_flag_bits,
    b.e_name ≠ [] ∧ (∀ y ∈ b.e_name.map tolower, plain_char y = true) ∧
    (ace_flag_bits.find? (fun q => strcasecmp b.e_name q.e_name)).map (fun q => q.e_flag)
      = some b.e_flag := by
  decide

theorem type_from_text_recased (tok : Str) (v : TypeValue) (hv : v ∈ type_values)
    (h : strcasecmp tok v.e_name = true) (ace : richace) :
    type_from_text tok ace = some { ace with e_type := v.e_type } := by
  obtain ⟨hn, hp, hf⟩ := type_names_facts v hv
  obtain ⟨_, _, hS⟩ := recased_token tok v.e_name h hn hp
  have e : (fun q : TypeValue => strcasecmp tok q.e_name)
      = (fun q : TypeValue => strcasecmp v.e_name q.e_name) := by
    funext q; exact strcasecmp_congr tok v.e_name h q.e_name
  simp only [type_from_text, hS, Bool.false_eq_true, if_false, e]
  cases hq : type_values.find? (fun q => strcasecmp v.e_name q.e_name) with
  | none => rw [hq] at hf; simp at hf
  | some q =>
    rw [hq] at hf
    simp only [Option.map_some', Option.some.injEq] at hf
    simp [hf]

theorem mask_from_text_recased (tok : Str) (r : MaskFlag) (hr : r ∈ mask_flags)
    (h : strcasecmp tok r.e_name = true) : mask_from_text tok = some r.e_mask := by
  obtain ⟨hn, _, _, hf⟩ := mask_flags_names r hr
  obtain ⟨h0, hs, hS⟩ := recased_token tok r.e_name h hn (mask_names_plain r hr)
  have e : (fun q : MaskFlag => strcasecmp tok q.e_name)
      = (fun q : MaskFlag => strcasecmp r.e_name q.e_name) := by
    funext q; exact strcasecmp_congr tok r.e_name h q.e_name
  unfold mask_from_text
  rw [run_tokens_tok _ tok 0 h0 hs]
  simp only [mask_token, hS, Bool.false_eq_true, if_false, e]
  cases hq : mask_flags.find? (fun q => strcasecmp r.e_name q.e_name) with
  | none => rw [hq] at hf; simp at hf
  | some q =>
    rw [hq] at hf
    simp only [Option.map_some', Option.some.injEq] at hf
    simp [hf]

theorem acl_flags_from_text_recased (tok : Str) (b : AclFlagBit) (hb : b ∈ acl_flag_bits)
    (h : strcasecmp tok b.a_name = true) : acl_flags_from_text tok = some b.a_flag := by
  obtain ⟨hn, hp⟩ := acl_names_plain b hb
  obtain ⟨h0, hs, hS⟩ := recased_token tok b.a_name h hn hp
  unfold acl_flags_from_text
  rw [run_tokens_tok _ tok 0 h0 hs, acl_flags_token_name tok tok 0 b hS hb h]
  simp

theorem ace_flags_from_text_recased (tok : Str) (b : AceFlagBit) (hb : b ∈ ace_flag_bits)
    (h : strcasecmp tok b.e_name = true) (ace : richace) :
    ace_flags_from_text tok ace = some { ace with e_flags := b.e_flag } := by
  obtain ⟨hn, hp, hf⟩ := ace_names_facts b hb
  obtain ⟨h0, hs, hS⟩ := recased_token tok b.e_name h hn hp
  have e : (fun q : AceFlagBit => strcasecmp tok q.e_name)
      = (fun q : AceFlagBit => strcasecmp b.e_name q.e_name) := by
    funext q; exact strcasecmp_congr tok b.e_name h q.e_name
  unfold ace_flags_from_text
  rw [run_tokens_tok _ tok 0 h0 hs]
  simp only [ace_flags_token, hS, Bool.false_eq_true, if_false, e]
  cases hq : ace_flag_bits.find? (fun q => strcasecmp b.e_name q.e_name) with
  | none => rw [hq] at hf; simp at hf
  | some q =>
    rw [hq] at hf
    simp only [Option.map_some', Option.some.injEq] at hf
    simp [hf]

theorem toupper_of_upper : ∀ n, n < 91 → 65 ≤ n →
    toupper (Char.ofNat n) = Char.ofNat n ∧ toupper (Char.ofNat (n + 32)) = Char.ofNat n := by
  decide

theorem toupper_of_shift (a b : Char) (h1 : 65 ≤ a.toNat ∧ a.toNat ≤ 90)
    (h2 : b.toNat = a.toNat + 32) : toupper a = toupper b := by
  have hb : b = Char.ofNat (a.toNat + 32) := by rw [← h2, Char.ofNat_toNat]
  obtain ⟨e1, e2⟩ := toupper_of_upper a.toNat (by omega) h1.1
  rw [Char.ofNat_toNat] at e1 e2
  rw [hb, e1, e2]

theorem case_variant_toupper (a b : Char) (h : case_variant a b = true) :
    toupper a = toupper b := by
  unfold case_variant at h
  simp only [Bool.or_eq_true, Bool.and_eq_true, decide_eq_true_eq, beq_iff_eq] at h
  rcases h with (h | ⟨h1, h2⟩) | ⟨h1, h2⟩
  · rw [h]
  · exact toupper_of_shift a b h1 h2
  · exact (toupper_of_shift b a h1 h2).symm

theorem recasing_toupper : ∀ (s t : Str), recasing s t = true →
    s.map toupper = t.map toupper := by
  intro s
  induction s with
  | nil =>
    intro t h
    cases t with
    | nil => rfl
    | cons b t => simp [recasing] at h
  | cons a s ih =>
    intro t h
    cases t with
    | nil => simp [recasing] at h
    | cons b t =>
      simp only [recasing, Bool.and_eq_true] at h
      simp only [List.map_cons, case_variant_toupper a b h.1, ih t h.2]

theorem case_variant_at (a b : Char) (h : case_variant a b = true) : a = '@' ↔ b = '@' := by
  have e := case_variant_tolower a b h
  constructor
  · intro ha
    subst ha
    exact tolower_at b e.symm
  · intro hb
    subst hb
    exact tolower_at a e

theorem recasing_nil_iff : ∀ (s t : Str), recasing s t = true → s.isEmpty = t.isEmpty := by
  intro s t h
  cases s <;> cases t <;> simp [recasing] at h ⊢

theorem recasing_at_split : ∀ (s t : Str), recasing s t = true →
    (strchr_split '@' s).map (fun p => p.2.isEmpty)
      = (strchr_split '@' t).map (fun p => p.2.isEmpty) := by
  intro s
  induction s with
  | nil =>
    intro t h
    cases t with
    | nil => rfl
    | cons b t => simp [recasing] at h
  | cons a s ih =>
    intro t h
    cases t with
    | nil => simp [recasing] at h
    | cons b t =>
      simp only [recasing, Bool.and_eq_true] at h
      have hat := case_variant_at a b h.1
      by_cases ha : a = '@'
      · have hb := hat.1 ha
        simp only [strchr_split, if_pos ha, if_pos hb, Option.map_some',
          recasing_nil_iff s t h.2]
      · have hb : ¬ b = '@' := fun e => ha (hat.2 e)
        have := ih t h.2
        simp only [strchr_split, if_neg ha, if_neg hb]
        cases hs : strchr_split '@' s <;> cases ht : strchr_split '@' t <;>
          simp only [hs, ht, Option.map_some', Option.map_none'] at this ⊢
        · cases this
        · cases this
        · exact this

theorem strchr_split_mem (ch : Char) : ∀ (s : Str), ch ∈ s → strchr_split ch s ≠ none := by
  intro s
  induction s with
  | nil => intro h; simp at h
  | cons c cs ih =>
    intro h
    by_cases hc : c = ch
    · simp [strchr_split, hc]
    · have h2 : ch ∈ cs := by
        rcases List.mem_cons.1 h with e | e
        · exact absurd e.symm hc
        · exact e
      have := ih h2
      simp only [strchr_split, if_neg hc]
      cases hs : strchr_split ch cs with
      | none => exact absurd hs this
      | some p => simp

theorem identifier_from_text_recased (R : Resolver) (who who2 : Str) (ace : richace)
    (hat : '@' ∈ who) (h : recasing who2 who = true) :
    identifier_from_text R who2 ace = identifier_from_text R who ace := by
  have hs := recasing_at_split who2 who h
  have hu := recasing_toupper who2 who h
  unfold identifier_from_text
  rw [hu]
  cases h1 : strchr_split '@' who with
  | none =>
    exact absurd h1 (strchr_split_mem '@' who hat)
  | some p =>
    cases h2 : strchr_split '@' who2 with
    | none => rw [h1, h2] at hs; cases hs
    | some q =>
      rw [h1, h2] at hs
      simp only [Option.map_some', Option.some.injEq] at hs
      simp only [hs]


/-- C11: the decoders ignore the case of letters.  For every row of the tables of types,
of mask bits, of ACL flags and of entry flags and every re-casing of the name of the row,
the decoder of that table accepts the re-cased token and yields the value of the row, as it
does for the name itself: type_from_text sets the type of the row, mask_from_text yields
the mask of the row, acl_flags_from_text the flag of the row, and ace_flags_from_text sets
the flag of the row (the names of the entry flags are those of the table of the source,
file_inherit_ace and so on).  And for every who-field containing an at sign, so for every
one ending in it, identifier_from_text yields the same result for every re-casing of the
field; owner@ and OWNER@ both yield the special identity owner. -/
theorem decoders_ignore_case :
    (∀ v ∈ type_values, ∀ (tok : Str) (ace : richace), recasing tok v.e_name = true →
      type_from_text tok ace = some { ace with e_type := v.e_type } ∧
      type_from_text v.e_name ace = some { ace with e_type := v.e_type }) ∧
    (∀ r ∈ mask_flags, ∀ tok : Str, recasing tok r.e_name = true →
      mask_from_text tok = some r.e_mask ∧ mask_from_text r.e_name = some r.e_mask) ∧
    (∀ b ∈ acl_flag_bits, ∀ tok : Str, recasing tok b.a_name = true →
      acl_flags_from_text tok = some b.a_flag ∧ acl_flags_from_text b.a_name = some b.a_flag) ∧
    (∀ b ∈ ace_flag_bits, ∀ (tok : Str) (ace : richace), recasing tok b.e_name = true →
      ace_flags_from_text tok ace = some { ace with e_flags := b.e_flag } ∧
      ace_flags_from_text b.e_name ace = some { ace with e_flags := b.e_flag }) ∧
    (∀ (R : Resolver) (who who2 : Str) (ace : richace), '@' ∈ who →
      recasing who2 who = true →
      identifier_from_text R who2 ace = identifier_from_text R who ace) ∧
    (∀ (R : Resolver) (ace : richace),
      identifier_from_text R "owner@".toList ace
        = some { ace with e_flags := ace.e_flags ||| ACE4_SPECIAL_WHO, e_id := ACE_OWNER_ID } ∧
      identifier_from_text R "OWNER@".toList ace
        = some { ace with e_flags := ace.e_flags ||| ACE4_SPECIAL_WHO, e_id := ACE_OWNER_ID }) := by
  have self : ∀ name : Str, strcasecmp name name = true := by
    intro name; simp [strcasecmp]
  refine ⟨?_, ?_, ?_, ?_, ?_, ?_⟩
  · intro v hv tok ace h
    exact ⟨type_from_text_recased tok v hv (recasing_strcasecmp _ _ h) ace,
      type_from_text_recased v.e_name v hv (self _) ace⟩
  · intro r hr tok h
    exact ⟨mask_from_text_recased tok r hr (recasing_strcasecmp _ _ h),
      mask_from_text_recased r.e_name r hr (self _)⟩
  · intro b hb tok h
    exact ⟨acl_flags_from_text_recased tok b hb (recasing_strcasecmp _ _ h),
      acl_flags_from_text_recased b.a_name b hb (self _)⟩
  · intro b hb tok ace h
    exact ⟨ace_flags_from_text_recased tok b hb (recasing_strcasecmp _ _ h) ace,
      ace_flags_from_text_recased b.e_name b hb (self _) ace⟩
  · intro R who who2 ace hat h
    exact identifier_from_text_recased R who who2 ace hat h
  · intro R ace
    exact ⟨rfl, rfl⟩

/-- Witness of C11 at the token AlLoW of the type table and at the who-field EveryOne@. -/
theorem decoders_ignore_case_witness :
    type_from_text "AlLoW".toList ⟨7, 0, 0, 0⟩ = some ⟨ACE4_ACCESS_ALLOWED_ACE_TYPE, 0, 0, 0⟩ ∧
    identifier_from_text no_names "EveryOne@".toList ⟨0, 0, 0, 0⟩
      = identifier_from_text no_names "everyone@".toList ⟨0, 0, 0, 0⟩ :=
  ⟨(decoders_ignore_case.1 ⟨ACE4_ACCESS_ALLOWED_ACE_TYPE, "allow".toList⟩ (by decide)
      "AlLoW".toList ⟨7, 0, 0, 0⟩ (by decide)).1,
    decoders_ignore_case.2.2.2.2.1 no_names "everyone@".toList "EveryOne@".toList ⟨0, 0, 0, 0⟩
      (by decide) (by decide)⟩

/-! ## Numbers in a mask field -/

theorem strtoul_digits_all (base : Nat) : ∀ (ds : Str) (acc : Nat) (any : Bool),
    (∀ c ∈ ds, ∃ d, digit_value c = some d ∧ d < base) →
    strtoul_digits base ds acc any
      = (ds.foldl (fun a c => a * base + (digit_value c).getD 0) acc, any || !ds.isEmpty, []) := by
  intro ds
  induction ds with
  | nil => intro acc any _; simp [strtoul_digits]
  | cons c cs ih =>
    intro acc any h
    obtain ⟨d, hd, hlt⟩ := h c (by simp)
    simp only [strtoul_digits, hd, if_pos hlt]
    rw [ih _ _ (fun x hx => h x (by simp [hx]))]
    simp [hd]

theorem dec_digit_table : ∀ n, n < 58 → 48 ≤ n →
    isspace (Char.ofNat n) = false ∧ (Char.ofNat n == '-') = false ∧
    (Char.ofNat n == '+') = false ∧ (Char.ofNat n == 'x') = false ∧
    (Char.ofNat n == 'X') = false ∧ digit_value (Char.ofNat n) = some (n - 48) := by
  decide

theorem dec_digit_facts (c : Char) (h : is_dec_digit c = true) :
    isspace c = false ∧ (c == '-') = false ∧ (c == '+') = false ∧ (c == 'x') = false ∧
    (c == 'X') = false ∧ ∃ d, digit_value c = some d ∧ d < 10 := by
  unfold is_dec_digit at h
  simp only [decide_eq_true_eq] at h
  have := dec_digit_table c.toNat (by omega) h.1
  rw [Char.ofNat_toNat] at this
  obtain ⟨a1, a2, a3, a4, a5, a6⟩ := this
  exact ⟨a1, a2, a3, a4, a5, _, a6, by omega⟩

theorem oct_digit_facts (c : Char) (h : is_oct_digit c = true) :
    is_dec_digit c = true ∧ ∃ d, digit_value c = some d ∧ d < 8 := by
  unfold is_oct_digit at h
  simp only [decide_eq_true_eq] at h
  have hd : is_dec_digit c = true := by
    unfold is_dec_digit; simp only [decide_eq_true_eq]; omega
  have := dec_digit_table c.toNat (by omega) h.1
  rw [Char.ofNat_toNat] at this
  exact ⟨hd, _, this.2.2.2.2.2, by omega⟩

theorem hex_digit_facts (c : Char) (h : is_hex_digit c = true) :
    ∃ d, digit_value c = some d ∧ d < 16 := by
  unfold is_hex_digit at h
  cases hd : digit_value c with
  | none => rw [hd] at h; cases h
  | some d =>
    rw [hd] at h
    exact ⟨d, rfl, by simpa using h⟩

theorem strtoul_unsigned (c : Char) (cs : Str) (hsp : isspace c = false)
    (h2 : (c == '-') = false) (h3 : (c == '+') = false) :
    strtoul (c :: cs) =
      if (strtoul_digits (strtoul_base (c :: cs)).1 (strtoul_base (c :: cs)).2 0 false).2.1 then
        (min (strtoul_digits (strtoul_base (c :: cs)).1 (strtoul_base (c :: cs)).2 0 false).1
          ULONG_MAX,
          (strtoul_digits (strtoul_base (c :: cs)).1 (strtoul_base (c :: cs)).2 0 false).2.2)
      else (0, c :: cs) := by
  have e2 : ((some c : Option Char) == some '-') = false := by simpa using h2
  have e3 : ((some c : Option Char) == some '+') = false := by simpa using h3
  simp only [strtoul, List.dropWhile, hsp, List.head?_cons, e2, e3, Bool.or_self,
    Bool.false_eq_true, if_false]
  split
  · split
    · rename_i h; rw [Nat.min_eq_right (Nat.le_of_lt h)]
    · rename_i h; rw [Nat.min_eq_left (Nat.le_of_not_lt h)]
  · rfl

theorem strtoul_decimal (c : Char) (cs : Str) (hc : (c == '0') = false)
    (hd : ∀ x ∈ c :: cs, is_dec_digit x = true) :
    strtoul (c :: cs) = (min (digits_value 10 (c :: cs)) ULONG_MAX, []) := by
  obtain ⟨a1, a2, a3, _, _, _⟩ := dec_digit_facts c (hd c (by simp))
  have hb := strtoul_base_dec c cs hc
  have hall := strtoul_digits_all 10 (c :: cs) 0 false
    (fun x hx => (dec_digit_facts x (hd x hx)).2.2.2.2.2)
  rw [strtoul_unsigned c cs a1 a2 a3, hb, hall]
  rfl

theorem strtoul_octal (cs : Str) (hd : ∀ x ∈ cs, is_oct_digit x = true) :
    strtoul ('0' :: cs) = (min (digits_value 8 cs) ULONG_MAX, []) := by
  have hb : strtoul_base ('0' :: cs) = (8, '0' :: cs) := by
    cases cs with
    | nil => rfl
    | cons x tl =>
      cases tl with
      | nil => rfl
      | cons y tl =>
        obtain ⟨_, _, _, a4, a5, _⟩ := dec_digit_facts x (oct_digit_facts x (hd x (by simp))).1
        simp [strtoul_base, a4, a5]
  have hall := strtoul_digits_all 8 ('0' :: cs) 0 false
    (by
      intro x hx
      rcases List.mem_cons.1 hx with e | e
      · subst e; exact ⟨0, by decide, by omega⟩
      · exact (oct_digit_facts x (hd x e)).2)
  rw [strtoul_unsigned '0' cs (by decide) (by decide) (by decide), hb, hall]
  rfl

theorem strtoul_hexadecimal (x h : Char) (hs : Str) (hx : x = 'x' ∨ x = 'X')
    (hd : ∀ y ∈ h :: hs, is_hex_digit y = true) :
    strtoul ('0' :: x :: h :: hs) = (min (digits_value 16 (h :: hs)) ULONG_MAX, []) := by
  obtain ⟨d, hdv, hlt⟩ := hex_digit_facts h (hd h (by simp))
  have hb : strtoul_base ('0' :: x :: h :: hs) = (16, h :: hs) := by
    rcases hx with e | e <;> subst e <;> simp [strtoul_base, hdv, hlt]
  have hall := strtoul_digits_all 16 (h :: hs) 0 false (fun y hy => hex_digit_facts y (hd y hy))
  rw [strtoul_unsigned '0' _ (by decide) (by decide) (by decide), hb, hall]
  rfl

theorem strtoul_digits_rest (base : Nat) : ∀ (s : Str) (acc : Nat) (any : Bool),
    (∃ c ∈ s, ∀ d, digit_value c = some d → ¬ d < base) →
    (strtoul_digits base s acc any).2.2 ≠ [] := by
  intro s
  induction s with
  | nil => intro acc any h; obtain ⟨c, hc, _⟩ := h; simp at hc
  | cons c cs ih =>
    intro acc any h
    rw [strtoul_digits]
    cases hd : digit_value c with
    | none => simp
    | some d =>
      by_cases hlt : d < base
      · simp only [hlt, if_true]
        apply ih
        obtain ⟨x, hx, hxd⟩ := h
        rcases List.mem_cons.1 hx with e | e
        · subst e; exact absurd hlt (hxd d hd)
        · exact ⟨x, e, hxd⟩
      · simp [hlt]

theorem strtoul_leading_zero_rest (cs : Str) (hd : ∀ x ∈ cs, is_dec_digit x = true)
    (h8 : ∃ x ∈ cs, is_oct_digit x = false) : (strtoul ('0' :: cs)).2.isEmpty = false := by
  have hb : strtoul_base ('0' :: cs) = (8, '0' :: cs) := by
    cases cs with
    | nil => rfl
    | cons x tl =>
      cases tl with
      | nil => rfl
      | cons y tl =>
        obtain ⟨_, _, _, a4, a5, _⟩ := dec_digit_facts x (hd x (by simp))
        simp [strtoul_base, a4, a5]
  have hrest : (strtoul_digits 8 ('0' :: cs) 0 false).2.2 ≠ [] := by
    apply strtoul_digits_rest
    obtain ⟨x, hx, hxo⟩ := h8
    refine ⟨x, List.mem_cons_of_mem _ hx, ?_⟩
    intro d hdv hlt
    have hdec := hd x hx
    unfold is_dec_digit at hdec
    unfold is_oct_digit at hxo
    simp only [decide_eq_true_eq] at hdec
    simp only [decide_eq_false_iff_not] at hxo
    have := dec_digit_table x.toNat (by omega) hdec.1
    rw [Char.ofNat_toNat] at this
    rw [this.2.2.2.2.2] at hdv
    simp only [Option.some.injEq] at hdv
    omega
  rw [strtoul_unsigned '0' cs (by decide) (by decide) (by decide), hb]
  split
  · cases hr : (strtoul_digits 8 ('0' :: cs) 0 false).2.2 with
    | nil => exact absurd hr hrest
    | cons y ys => rfl
  · rfl

theorem mask_names_head : ∀ r ∈ mask_flags, (r.e_name.map tolower).head? ≠ some '0' := by
  decide

theorem mask_token_leading_zero (cs : Str) (acc : Nat)
    (h : (strtoul ('0' :: cs)).2.isEmpty = false) : mask_token ('0' :: cs) acc = none := by
  have hfind : mask_flags.find? (fun r => strcasecmp ('0' :: cs) r.e_name) = none := by
    rw [List.find?_eq_none]
    intro r hr hcmp
    have hh := mask_names_head r hr
    have e : ('0' :: cs).map tolower = r.e_name.map tolower := by simpa [strcasecmp] using hcmp
    rw [← e] at hh
    exact hh rfl
  have hchar : mask_flags.find? (fun r => '0' == r.e_char) = none := by decide
  simp only [mask_token, h, Bool.false_eq_true, if_false, hfind, mask_chars, hchar,
    show ('0' == '-') = false by decide]

theorem mask_token_number (tok : Str) (v acc : Nat) (h : strtoul tok = (min v ULONG_MAX, []))
    (hv : v < 2 ^ 32) (ha : acc < 2 ^ 32) (h0 : tok ≠ []) (hs : '/' ∉ tok) :
    mask_token tok acc = some (acc ||| v) ∧ mask_from_text tok = some v := by
  have hmin : min v ULONG_MAX = v := Nat.min_eq_left (by unfold ULONG_MAX; omega)
  rw [hmin] at h
  have key : ∀ a, a < 2 ^ 32 → mask_token tok a = some (a ||| v) := by
    intro a ha2
    simp only [mask_token, h, List.isEmpty_nil, if_true]
    rw [Nat.mod_eq_of_lt (lor_lt _ _ 32 ha2 hv)]
  refine ⟨key acc ha, ?_⟩
  unfold mask_from_text
  rw [run_tokens_tok _ tok 0 h0 hs, key 0 (by omega)]
  simp

/-- C20 (as amended): the numbers of a mask field are read by strtoul with base 0.  A
sub-token of decimal digits that does not start with 0 and whose value is below 2^32 makes
mask_from_text OR its decimal value into the mask; so does a sub-token 0x or 0X followed by
at least one hexadecimal digit, with its hexadecimal value; a sub-token that starts with 0
and goes on with octal digits is read in base 8; and a sub-token of decimal digits that
starts with 0 and has a digit 8 or 9 after it is rejected.  Each part is stated for the
body of the loop with any 32-bit mask accumulated so far (any mask at all for the
rejection), and for the field made of the sub-token. -/
theorem mask_numbers_base :
    (∀ (c : Char) (cs : Str) (acc : Nat), (c == '0') = false →
      (∀ x ∈ c :: cs, is_dec_digit x = true) → digits_value 10 (c :: cs) < 2 ^ 32 →
      acc < 2 ^ 32 →
      mask_token (c :: cs) acc = some (acc ||| digits_value 10 (c :: cs)) ∧
      mask_from_text (c :: cs) = some (digits_value 10 (c :: cs))) ∧
    (∀ (x h : Char) (hs : Str) (acc : Nat), (x = 'x' ∨ x = 'X') →
      (∀ y ∈ h :: hs, is_hex_digit y = true) → digits_value 16 (h :: hs) < 2 ^ 32 →
      acc < 2 ^ 32 →
      mask_token ('0' :: x :: h :: hs) acc = some (acc ||| digits_value 16 (h :: hs)) ∧
      mask_from_text ('0' :: x :: h :: hs) = some (digits_value 16 (h :: hs))) ∧
    (∀ (cs : Str) (acc : Nat), (∀ x ∈ cs, is_oct_digit x = true) →
      digits_value 8 cs < 2 ^ 32 → acc < 2 ^ 32 →
      mask_token ('0' :: cs) acc = some (acc ||| digits_value 8 cs) ∧
      mask_from_text ('0' :: cs) = some (digits_value 8 cs)) ∧
    (∀ (cs : Str) (acc : Nat), (∀ x ∈ cs, is_dec_digit x = true) →
      (∃ x ∈ cs, is_oct_digit x = false) →
      mask_token ('0' :: cs) acc = none ∧ mask_from_text ('0' :: cs) = none) := by
  refine ⟨?_, ?_, ?_, ?_⟩
  · intro c cs acc hc hd hv ha
    refine mask_token_number _ _ acc (strtoul_decimal c cs hc hd) hv ha (by simp) ?_
    intro hs
    have := hd _ hs
    revert this
    decide
  · intro x h hs acc hx hd hv ha
    refine mask_token_number _ _ acc (strtoul_hexadecimal x h hs hx hd) hv ha (by simp) ?_
    intro hm
    rcases List.mem_cons.1 hm with e | hm
    · revert e; decide
    · rcases List.mem_cons.1 hm with e | hm
      · rcases hx with hx | hx <;> subst hx <;> revert e <;> decide
      · have := hd _ hm
        revert this
        decide
  · intro cs acc hd hv ha
    refine mask_token_number _ _ acc (strtoul_octal cs hd) hv ha (by simp) ?_
    intro hm
    rcases List.mem_cons.1 hm with e | hm
    · revert e; decide
    · have := hd _ hm
      revert this
      decide
  · intro cs acc hd h8
    have hrest := strtoul_leading_zero_rest cs hd h8
    refine ⟨mask_token_leading_zero cs acc hrest, ?_⟩
    unfold mask_from_text
    rw [run_tokens_tok _ _ 0 (by simp) ?_, mask_token_leading_zero cs 0 hrest]
    intro hm
    rcases List.mem_cons.1 hm with e | hm
    · revert e; decide
    · have := hd _ hm
      revert this
      decide

/-- Witness of C20 at the sub-tokens 12 and 0x1F, and at the sub-token 0190, which is
rejected. -/
theorem mask_numbers_base_witness :
    mask_from_text "12".toList = some 12 ∧ mask_token "0x1F".toList 0x100 = some 0x11f ∧
    mask_from_text "0190".toList = none :=
  ⟨(mask_numbers_base.1 '1' "2".toList 0 (by decide) (by decide) (by decide) (by decide)).2,
    (mask_numbers_base.2.1 'x' '1' "F".toList 0x100 (Or.inl rfl) (by decide) (by decide)
      (by decide)).1,
    (mask_numbers_base.2.2.2 "190".toList 0 (by decide) ⟨'9', by decide, by decide⟩).2⟩

/-- Counterexample of C20: the sub-token 010, whose decimal value is 10, makes
mask_from_text yield 8; the sub-token 08 is rejected; and the decimal sub-token
4294967297, which is 2^32 + 1, yields 1. -/
theorem mask_leading_zero_octal :
    mask_from_text "010".toList = some 8 ∧ digits_value 10 "010".toList = 10 ∧
    mask_from_text "08".toList = none ∧ mask_from_text "4294967297".toList = some 1 := by
  decide

/-! ## Alignment -/


/-- C14: the lines of an aligned text need not be aligned.  For the record with the two
entries everyone@ and authenticated@ and the format align alone, the first colon of the
first line of richacl_to_text is at column 10 and that of the second line at column 14:
the pass that computes the width gives the width of an identifier to the special identities
owner, group and everyone only.  With the entries everyone@ and owner@ both colons are at
column 10. -/
theorem align_special_identity :
    colon_columns (richacl_to_text no_names ⟨0, 0, 0, 0,
      [⟨0, ACE4_SPECIAL_WHO, 1, ACE_EVERYONE_ID⟩, ⟨0, ACE4_SPECIAL_WHO, 1, ACE_AUTHENTICATED_ID⟩]⟩
      RICHACL_TEXT_ALIGN) = [10, 14] ∧
    richacl_to_text no_names ⟨0, 0, 0, 0,
      [⟨0, ACE4_SPECIAL_WHO, 1, ACE_EVERYONE_ID⟩, ⟨0, ACE4_SPECIAL_WHO, 1, ACE_AUTHENTICATED_ID⟩]⟩
      RICHACL_TEXT_ALIGN
      = " everyone@:r---------------::allow\nauthenticated@:r---------------::allow\n".toList ∧
    colon_columns (richacl_to_text no_names ⟨0, 0, 0, 0,
      [⟨0, ACE4_SPECIAL_WHO, 1, ACE_EVERYONE_ID⟩, ⟨0, ACE4_SPECIAL_WHO, 1, ACE_OWNER_ID⟩]⟩
      RICHACL_TEXT_ALIGN) = [10, 10] := by
  decide

/-! ## The contexts of write_mask -/

theorem beq_zero_of_bne (x : Nat) : (x == 0) = !(x != 0) := by
  cases h : x == 0 <;> simp [bne, h]

theorem write_mask_of_fmt (m fmt fmt2 : Nat) (h : write_mask_fmt fmt = write_mask_fmt fmt2) :
    write_mask m fmt = write_mask m fmt2 := by
  simp only [write_mask, h]

theorem write_mask_fmt_short (fmt : Nat) (h : fmt &&& RICHACL_TEXT_LONG = 0) :
    write_mask_fmt fmt
      = write_mask_fmt (andNot fmt RICHACL_TEXT_DIRECTORY_CONTEXT ||| RICHACL_TEXT_FILE_CONTEXT) := by
  have h0 : fmt.testBit 0 = false := by
    rw [← bit_long, h]; rfl
  have h1 : (andNot fmt RICHACL_TEXT_DIRECTORY_CONTEXT ||| RICHACL_TEXT_FILE_CONTEXT).testBit 0
      = false := by
    simp only [Nat.testBit_or, testBit_andNot, testBit_file, testBit_dir, h0]
    decide
  have c1 : (fmt &&& RICHACL_TEXT_LONG == 0) = true := by
    rw [beq_zero_of_bne, bit_long, h0]; rfl
  have c2 : ((andNot fmt RICHACL_TEXT_DIRECTORY_CONTEXT ||| RICHACL_TEXT_FILE_CONTEXT)
      &&& RICHACL_TEXT_LONG == 0) = true := by
    rw [beq_zero_of_bne, bit_long, h1]; rfl
  simp only [write_mask_fmt, c1, c2, if_true]
  apply Nat.eq_of_testBit_eq
  intro i
  simp only [Nat.testBit_or, testBit_andNot, testBit_file, testBit_dir]
  by_cases e1 : 1 = i <;> by_cases e2 : 2 = i <;> simp [e1, e2]

theorem write_mask_fmt_long (fmt : Nat) (h : fmt &&& RICHACL_TEXT_LONG ≠ 0)
    (hc : fmt &&& (RICHACL_TEXT_FILE_CONTEXT ||| RICHACL_TEXT_DIRECTORY_CONTEXT) = 0) :
    write_mask_fmt fmt
      = write_mask_fmt (fmt ||| (RICHACL_TEXT_FILE_CONTEXT ||| RICHACL_TEXT_DIRECTORY_CONTEXT)) := by
  have h0 : fmt.testBit 0 = true := by
    rw [← bit_long]; simpa using h
  have h1 : (fmt ||| (RICHACL_TEXT_FILE_CONTEXT ||| RICHACL_TEXT_DIRECTORY_CONTEXT)).testBit 0
      = true := by
    simp only [Nat.testBit_or, h0, Bool.true_or]
  have h2 : (fmt ||| (RICHACL_TEXT_FILE_CONTEXT ||| RICHACL_TEXT_DIRECTORY_CONTEXT)).testBit 1
      = true := by
    simp only [Nat.testBit_or, testBit_file, testBit_dir]
    simp
  have c1 : (fmt &&& RICHACL_TEXT_LONG == 0) = false := by
    rw [beq_zero_of_bne, bit_long, h0]; rfl
  have c2 : ((fmt ||| (RICHACL_TEXT_FILE_CONTEXT ||| RICHACL_TEXT_DIRECTORY_CONTEXT))
      &&& RICHACL_TEXT_LONG == 0) = false := by
    rw [beq_zero_of_bne, bit_long, h1]; rfl
  have c3 : (fmt &&& (RICHACL_TEXT_FILE_CONTEXT ||| RICHACL_TEXT_DIRECTORY_CONTEXT) == 0)
      = true := by rw [hc]; rfl
  have c4 : ((fmt ||| (RICHACL_TEXT_FILE_CONTEXT ||| RICHACL_TEXT_DIRECTORY_CONTEXT))
      &&& (RICHACL_TEXT_FILE_CONTEXT ||| RICHACL_TEXT_DIRECTORY_CONTEXT) == 0) = false := by
    cases hx : ((fmt ||| (RICHACL_TEXT_FILE_CONTEXT ||| RICHACL_TEXT_DIRECTORY_CONTEXT))
      &&& (RICHACL_TEXT_FILE_CONTEXT ||| RICHACL_TEXT_DIRECTORY_CONTEXT) == 0) with
    | false => rfl
    | true =>
      exfalso
      have e : (fmt ||| (RICHACL_TEXT_FILE_CONTEXT ||| RICHACL_TEXT_DIRECTORY_CONTEXT))
          &&& (RICHACL_TEXT_FILE_CONTEXT ||| RICHACL_TEXT_DIRECTORY_CONTEXT) = 0 := by
        simpa using hx
      have := congrArg (fun x => Nat.testBit x 1) e
      simp only [Nat.testBit_and, h2, Bool.true_and, Nat.zero_testBit, testBit_ctx] at this
      simp at this
  simp only [write_mask_fmt, c1, c2, c3, c4, if_true, if_false, Bool.false_eq_true]

/-- Counterexample of C18: in the long form with no context requested the mask READ_DATA
is rendered with the rows of both contexts, read_data/list_directory, which is not the
output read_data for the file context alone; and with the directory context alone the
output is list_directory. -/
theorem write_mask_long_both_contexts :
    write_mask ACE4_READ_DATA RICHACL_TEXT_LONG = "read_data/list_directory".toList ∧
    write_mask ACE4_READ_DATA (RICHACL_TEXT_LONG ||| RICHACL_TEXT_FILE_CONTEXT)
      = "read_data".toList ∧
    write_mask ACE4_READ_DATA (RICHACL_TEXT_LONG ||| RICHACL_TEXT_DIRECTORY_CONTEXT)
      = "list_directory".toList ∧
    RICHACL_TEXT_LONG &&& RICHACL_TEXT_FILE_CONTEXT = 0 ∧
    RICHACL_TEXT_LONG &&& RICHACL_TEXT_DIRECTORY_CONTEXT = 0 := by
  decide

/-! ## The loop of write_mask without the consumption of bits -/

theorem land_lor_split (n n0 e B : Nat) (h : n &&& (e ||| B) = n0 &&& (e ||| B)) :
    n &&& e = n0 &&& e ∧ n &&& B = n0 &&& B := by
  constructor <;>
  · apply Nat.eq_of_testBit_eq
    intro i
    have := congrArg (fun x => Nat.testBit x i) h
    simp only [Nat.testBit_and, Nat.testBit_or] at this ⊢
    revert this
    cases n.testBit i <;> cases n0.testBit i <;> cases e.testBit i <;> cases B.testBit i <;> simp

theorem andNot_land_disjoint (n e B : Nat) (h : e &&& B = 0) :
    andNot n e &&& B = n &&& B := by
  apply Nat.eq_of_testBit_eq
  intro i
  have := land_eq_zero_bits e B h i
  simp only [Nat.testBit_and, testBit_andNot]
  revert this
  cases n.testBit i <;> cases e.testBit i <;> cases B.testBit i <;> simp

theorem consume_row (ctx n n0 : Nat) (r : MaskFlag) (rs : List MaskFlag)
    (hd : (r.e_context &&& ctx == 0 || r.e_mask &&& ctx_bits ctx rs == 0) = true)
    (h : n &&& ctx_bits ctx (r :: rs) = n0 &&& ctx_bits ctx (r :: rs)) :
    (n &&& r.e_mask != 0 && r.e_context &&& ctx != 0)
      = (n0 &&& r.e_mask != 0 && r.e_context &&& ctx != 0) ∧
    (if (n &&& r.e_mask != 0 && r.e_context &&& ctx != 0) = true then andNot n r.e_mask else n)
      &&& ctx_bits ctx rs = n0 &&& ctx_bits ctx rs ∧
    andNot (if (n &&& r.e_mask != 0 && r.e_context &&& ctx != 0) = true
        then andNot n r.e_mask else n) (ctx_bits ctx rs)
      = andNot n (ctx_bits ctx (r :: rs)) := by
  have hres := resid_step n r.e_mask (ctx_bits ctx rs) (r.e_context &&& ctx != 0)
  cases hc : r.e_context &&& ctx != 0 with
  | false =>
    simp only [hc, Bool.and_false, Bool.false_eq_true, if_false] at hres ⊢
    simp only [ctx_bits, hc, Bool.false_eq_true, if_false] at h ⊢
    exact ⟨trivial, h, trivial⟩
  | true =>
    have hz : r.e_mask &&& ctx_bits ctx rs = 0 := by
      have : (r.e_context &&& ctx == 0) = false := by
        rw [beq_zero_of_bne, hc]; rfl
      simpa [this] using hd
    simp only [hc, Bool.and_true, if_true] at hres ⊢
    simp only [ctx_bits, hc, if_true] at h ⊢
    obtain ⟨h1, h2⟩ := land_lor_split n n0 _ _ h
    refine ⟨by rw [h1], ?_, hres⟩
    split
    · rw [andNot_land_disjoint n _ _ hz, h2]
    · exact h2

theorem write_mask_loop_rows (fmt n0 d0 : Nat) : ∀ (rs : List MaskFlag) (n d : Nat) (sw : Bool),
    distinct_bits rs = true →
    n &&& ctx_bits RICHACL_TEXT_FILE_CONTEXT rs = n0 &&& ctx_bits RICHACL_TEXT_FILE_CONTEXT rs →
    d &&& ctx_bits RICHACL_TEXT_DIRECTORY_CONTEXT rs
      = d0 &&& ctx_bits RICHACL_TEXT_DIRECTORY_CONTEXT rs →
    write_mask_loop fmt rs n d sw = mask_rows fmt n0 d0 rs sw
      (andNot n (ctx_bits RICHACL_TEXT_FILE_CONTEXT rs) |||
        andNot d (ctx_bits RICHACL_TEXT_DIRECTORY_CONTEXT rs)) := by
  intro rs
  induction rs with
  | nil =>
    intro n d sw _ _ _
    have e : ∀ x, andNot x 0 = x := by intro x; simp [andNot]
    simp only [ctx_bits, e, write_mask_loop, mask_rows]
  | cons r rs ih =>
    intro n d sw hdist hn hd
    simp only [distinct_bits, Bool.and_eq_true] at hdist
    obtain ⟨⟨hdF, hdD⟩, hdr⟩ := hdist
    obtain ⟨f1, f2, f3⟩ := consume_row RICHACL_TEXT_FILE_CONTEXT n n0 r rs hdF hn
    obtain ⟨g1, g2, g3⟩ := consume_row RICHACL_TEXT_DIRECTORY_CONTEXT d d0 r rs hdD hd
    have key := fun sw2 => ih _ _ sw2 hdr f2 g2
    rw [f3, g3] at key
    rw [write_mask_loop, mask_rows]
    simp only [key]
    simp only [row_hidden, row_found, f1, g1]

theorem mask_flags_distinct : distinct_bits mask_flags = true := by decide

theorem andNot_zero_left (B : Nat) : andNot 0 B = 0 := by simp [andNot]

theorem write_mask_rows (m fmt : Nat) :
    write_mask m fmt = mask_rows (write_mask_fmt fmt)
      (if write_mask_fmt fmt &&& RICHACL_TEXT_FILE_CONTEXT != 0 then m else 0)
      (if write_mask_fmt fmt &&& RICHACL_TEXT_DIRECTORY_CONTEXT != 0 then m else 0)
      mask_flags false (andNot m mask_table_bits) := by
  obtain ⟨_, _, _, bs, bl⟩ := write_mask_fmt_bits fmt
  have h := write_mask_loop_rows (write_mask_fmt fmt)
    (if write_mask_fmt fmt &&& RICHACL_TEXT_FILE_CONTEXT != 0 then m else 0)
    (if write_mask_fmt fmt &&& RICHACL_TEXT_DIRECTORY_CONTEXT != 0 then m else 0)
    mask_flags _ _ false mask_flags_distinct rfl rfl
  rw [mask_table_bits_ctx.1, mask_table_bits_ctx.2] at h
  have hv : andNot (if write_mask_fmt fmt &&& RICHACL_TEXT_FILE_CONTEXT != 0 then m else 0)
        mask_table_bits |||
      andNot (if write_mask_fmt fmt &&& RICHACL_TEXT_DIRECTORY_CONTEXT != 0 then m else 0)
        mask_table_bits = andNot m mask_table_bits := by
    simp only [bit_file, bit_dir]
    cases h1 : (write_mask_fmt fmt).testBit 1 <;> cases h2 : (write_mask_fmt fmt).testBit 2 <;>
      simp only [if_true, if_false, Bool.false_eq_true, andNot_zero_left, Nat.or_zero,
        Nat.zero_or, Nat.or_self]
    exfalso
    cases h0 : fmt.testBit 0
    · rw [(bs h0).1] at h1; cases h1
    · rcases bl h0 with e | e
      · rw [e] at h1; cases h1
      · rw [e] at h2; cases h2
  rw [hv] at h
  unfold write_mask
  exact h

theorem mask_rows_congr (fmt n d n2 d2 : Nat) : ∀ (rs : List MaskFlag) (sw : Bool) (res : Nat),
    (∀ r ∈ rs, row_hidden fmt r = false → row_found n d r = row_found n2 d2 r) →
    mask_rows fmt n d rs sw res = mask_rows fmt n2 d2 rs sw res := by
  intro rs
  induction rs with
  | nil => intro sw res _; rfl
  | cons r rs ih =>
    intro sw res h
    have ih2 := fun sw2 => ih sw2 res (fun q hq => h q (List.mem_cons_of_mem _ hq))
    rw [mask_rows, mask_rows]
    cases hh : row_hidden fmt r with
    | true => simp only [if_true, ih2]
    | false => simp only [Bool.false_eq_true, if_false, ih2, h r (List.mem_cons_self _ _) hh]

/-! ## The short form of fixed width -/

theorem mask_rows_short (F m res : Nat) (h0 : F.testBit 0 = false) (h4 : F.testBit 4 = false)
    (h5 : F.testBit 5 = true) : ∀ (rs : List MaskFlag) (sw : Bool),
    mask_rows F m 0 rs sw res
      = (rs.filter (fun r => r.e_context &&& RICHACL_TEXT_FILE_CONTEXT != 0)).map
          (fun r => if m &&& r.e_mask != 0 then r.e_char else '-') ++
        (if res != 0 then
          (if sw || !(rs.filter (fun r => r.e_context &&& RICHACL_TEXT_FILE_CONTEXT != 0)).isEmpty
            then ['/'] else []) ++ ('0' :: 'x' :: fmt_x res)
        else []) := by
  have c0 : (F &&& RICHACL_TEXT_LONG != 0) = false := by rw [bit_long, h0]
  have c0b : (F &&& RICHACL_TEXT_LONG == 0) = true := by rw [beq_zero_of_bne, c0]; rfl
  have c4 : (F &&& RICHACL_TEXT_SIMPLIFY != 0) = false := by rw [bit_simplify, h4]
  have c5 : (F &&& RICHACL_TEXT_ALIGN != 0) = true := by rw [bit_align, h5]
  have z : ∀ e : Nat, (0 &&& e != 0) = false := by intro e; simp
  intro rs
  induction rs with
  | nil => intro sw; simp [mask_rows]
  | cons r rs ih =>
    intro sw
    rw [mask_rows]
    simp only [row_hidden, row_found, c0, c0b, c4, c5, z, Bool.false_and, Bool.false_eq_true,
      if_false, Bool.or_false, Bool.true_and, ih]
    cases hc : r.e_context &&& RICHACL_TEXT_FILE_CONTEXT != 0 with
    | false => simp [List.filter, hc]
    | true =>
      cases hm : m &&& r.e_mask != 0
      · have hz : m &&& r.e_mask = 0 := by simpa using hm
        simp [List.filter, hc, hz]
      · have hz : ¬ m &&& r.e_mask = 0 := by simpa using hm
        simp [List.filter, hc, hz]

theorem write_mask_short_align (m fmt : Nat) (h0 : fmt &&& RICHACL_TEXT_LONG = 0)
    (h5 : fmt &&& RICHACL_TEXT_ALIGN ≠ 0) (h4 : fmt &&& RICHACL_TEXT_SIMPLIFY = 0) :
    write_mask m fmt
      = file_rows.map (fun r => if m &&& r.e_mask != 0 then r.e_char else '-') ++
        (if andNot m mask_table_bits != 0 then
          '/' :: '0' :: 'x' :: fmt_x (andNot m mask_table_bits) else []) := by
  obtain ⟨b0, b4, b5, bs, _⟩ := write_mask_fmt_bits fmt
  have t0 : fmt.testBit 0 = false := by rw [← bit_long, h0]; rfl
  have t4 : fmt.testBit 4 = false := by rw [← bit_simplify, h4]; rfl
  have t5 : fmt.testBit 5 = true := by rw [← bit_align]; simpa using h5
  rw [write_mask_rows]
  simp only [bit_file, bit_dir, (bs t0).1, (bs t0).2, if_true, Bool.false_eq_true, if_false]
  rw [mask_rows_short _ m _ (by rw [b0, t0]) (by rw [b4, t4]) (by rw [b5, t5])]
  have hne : (mask_flags.filter
      (fun r => r.e_context &&& RICHACL_TEXT_FILE_CONTEXT != 0)).isEmpty = false := by decide
  simp only [hne, file_rows, Bool.false_or, Bool.not_false, if_true, List.singleton_append]

/-- C19: the short form of fixed width.  For every mask m and every format of the short
form with align set and simplify unset, whatever contexts are requested, the text of
write_mask is made of one character for each of the 16 rows of the file context of
mask_flags, in the order of the table, the letter of the row when its bit is set in m and
a dash otherwise, followed, when m has bits outside the table, by a slash and 0x with
those bits in hexadecimal.  So every mask without bits outside the table is rendered in 16
characters; the letters of the 16 rows are distinct, so no letter is written twice. -/
theorem short_form_fixed_width :
    (∀ m fmt : Nat, fmt &&& RICHACL_TEXT_LONG = 0 → fmt &&& RICHACL_TEXT_ALIGN ≠ 0 →
      fmt &&& RICHACL_TEXT_SIMPLIFY = 0 →
      write_mask m fmt
        = file_rows.map (fun r => if m &&& r.e_mask != 0 then r.e_char else '-') ++
          (if andNot m mask_table_bits != 0 then
            '/' :: '0' :: 'x' :: fmt_x (andNot m mask_table_bits) else []) ∧
      (andNot m mask_table_bits = 0 → (write_mask m fmt).length = 16)) ∧
    file_rows.length = 16 ∧ (file_rows.map (fun r => r.e_char)).Nodup ∧
    '-' ∉ file_rows.map (fun r => r.e_char) := by
  refine ⟨?_, by decide, by decide, by decide⟩
  intro m fmt h0 h5 h4
  have h := write_mask_short_align m fmt h0 h5 h4
  refine ⟨h, ?_⟩
  intro hz
  rw [h, hz]
  simp only [bne_self_eq_false, Bool.false_eq_true, if_false, List.append_nil, List.length_map]
  decide

/-- Witness of C19 at the mask READ_DATA|EXECUTE|0x800 and the format align with the
directory context requested. -/
theorem short_form_fixed_width_witness :
    write_mask 0x821 (RICHACL_TEXT_ALIGN ||| RICHACL_TEXT_DIRECTORY_CONTEXT)
      = "r--x------------/0x800".toList :=
  (short_form_fixed_width.1 0x821 (RICHACL_TEXT_ALIGN ||| RICHACL_TEXT_DIRECTORY_CONTEXT)
    (by decide) (by decide) (by decide)).1

/-! ## Simplify mode -/

theorem mask_rows_filter (fmt n d : Nat) : ∀ (rs : List MaskFlag) (sw : Bool) (res : Nat),
    mask_rows fmt n d (rs.filter (fun r => !row_hidden fmt r)) sw res
      = mask_rows fmt n d rs sw res := by
  intro rs
  induction rs with
  | nil => intro sw res; rfl
  | cons r rs ih =>
    intro sw res
    cases hh : row_hidden fmt r with
    | true =>
      rw [List.filter_cons_of_neg (by simp [hh]), ih]
      conv => rhs; rw [mask_rows]
      simp only [hh, if_true]
    | false =>
      rw [List.filter_cons_of_pos (by simp [hh])]
      rw [mask_rows, mask_rows]
      simp only [ih]

theorem row_hidden_simplify (F : Nat) (h4 : F.testBit 4 = true) (r : MaskFlag) :
    row_hidden F r = (r.e_mask &&& ACE4_POSIX_ALWAYS_ALLOWED != 0) := by
  simp only [row_hidden, bit_simplify, h4, Bool.true_and]

theorem andNot_andNot (m A V : Nat) : andNot (andNot m A) V = andNot m (V ||| A) := by
  apply Nat.eq_of_testBit_eq
  intro i
  simp only [testBit_andNot, Nat.testBit_or]
  cases m.testBit i <;> cases A.testBit i <;> cases V.testBit i <;> rfl

theorem visible_rows_bits :
    ctx_bits RICHACL_TEXT_FILE_CONTEXT visible_rows ||| ACE4_POSIX_ALWAYS_ALLOWED
      = mask_table_bits ∧
    ctx_bits RICHACL_TEXT_DIRECTORY_CONTEXT visible_rows ||| ACE4_POSIX_ALWAYS_ALLOWED
      = mask_table_bits ∧
    mask_table_bits ||| ACE4_POSIX_ALWAYS_ALLOWED = mask_table_bits ∧
    distinct_bits visible_rows = true := by
  decide

theorem row_found_cleared (c1 c2 : Bool) (m : Nat) (r : MaskFlag)
    (h : (r.e_mask &&& ACE4_POSIX_ALWAYS_ALLOWED != 0) = false) :
    row_found (if c1 then m else 0) (if c2 then m else 0) r
      = row_found (if c1 then andNot m ACE4_POSIX_ALWAYS_ALLOWED else 0)
          (if c2 then andNot m ACE4_POSIX_ALWAYS_ALLOWED else 0) r := by
  have hz : ACE4_POSIX_ALWAYS_ALLOWED &&& r.e_mask = 0 := by
    rw [Nat.land_comm]; simpa using h
  have e := andNot_land_disjoint m ACE4_POSIX_ALWAYS_ALLOWED r.e_mask hz
  cases c1 <;> cases c2 <;> simp only [row_found, if_true, if_false, Bool.false_eq_true, e]

theorem simplify_rows (m fmt : Nat) (h : fmt &&& RICHACL_TEXT_SIMPLIFY ≠ 0) :
    write_mask m fmt = mask_rows (write_mask_fmt fmt)
      (if write_mask_fmt fmt &&& RICHACL_TEXT_FILE_CONTEXT != 0
        then andNot m ACE4_POSIX_ALWAYS_ALLOWED else 0)
      (if write_mask_fmt fmt &&& RICHACL_TEXT_DIRECTORY_CONTEXT != 0
        then andNot m ACE4_POSIX_ALWAYS_ALLOWED else 0)
      mask_flags false (andNot m mask_table_bits) := by
  obtain ⟨_, b4, _, _, _⟩ := write_mask_fmt_bits fmt
  have t4 : (write_mask_fmt fmt).testBit 4 = true := by
    rw [b4, ← bit_simplify]; simpa using h
  rw [write_mask_rows]
  apply mask_rows_congr
  intro r _ hh
  rw [row_hidden_simplify _ t4] at hh
  exact row_found_cleared _ _ m r hh

theorem simplify_cleared (m fmt : Nat) (h : fmt &&& RICHACL_TEXT_SIMPLIFY ≠ 0) :
    write_mask m fmt = write_mask (andNot m ACE4_POSIX_ALWAYS_ALLOWED) fmt := by
  rw [simplify_rows m fmt h, write_mask_rows (andNot m ACE4_POSIX_ALWAYS_ALLOWED) fmt,
    andNot_andNot, visible_rows_bits.2.2.1]

theorem simplify_visible (m fmt : Nat) (h : fmt &&& RICHACL_TEXT_SIMPLIFY ≠ 0) :
    write_mask m fmt = write_mask_loop (write_mask_fmt fmt) visible_rows
      (if write_mask_fmt fmt &&& RICHACL_TEXT_FILE_CONTEXT != 0
        then andNot m ACE4_POSIX_ALWAYS_ALLOWED else 0)
      (if write_mask_fmt fmt &&& RICHACL_TEXT_DIRECTORY_CONTEXT != 0
        then andNot m ACE4_POSIX_ALWAYS_ALLOWED else 0) false := by
  obtain ⟨_, b4, _, bs, bl⟩ := write_mask_fmt_bits fmt
  have t4 : (write_mask_fmt fmt).testBit 4 = true := by
    rw [b4, ← bit_simplify]; simpa using h
  have hv : visible_rows = mask_flags.filter (fun r => !row_hidden (write_mask_fmt fmt) r) := by
    unfold visible_rows
    congr 1
    funext r
    rw [row_hidden_simplify _ t4, beq_zero_of_bne]
  rw [write_mask_loop_rows (write_mask_fmt fmt) _ _ visible_rows _ _ false
    visible_rows_bits.2.2.2 rfl rfl]
  have hres : andNot (if write_mask_fmt fmt &&& RICHACL_TEXT_FILE_CONTEXT != 0
        then andNot m ACE4_POSIX_ALWAYS_ALLOWED else 0)
        (ctx_bits RICHACL_TEXT_FILE_CONTEXT visible_rows) |||
      andNot (if write_mask_fmt fmt &&& RICHACL_TEXT_DIRECTORY_CONTEXT != 0
        then andNot m ACE4_POSIX_ALWAYS_ALLOWED else 0)
        (ctx_bits RICHACL_TEXT_DIRECTORY_CONTEXT visible_rows) = andNot m mask_table_bits := by
    simp only [bit_file, bit_dir]
    cases h1 : (write_mask_fmt fmt).testBit 1 <;> cases h2 : (write_mask_fmt fmt).testBit 2 <;>
      simp only [if_true, if_false, Bool.false_eq_true, andNot_zero_left, Nat.or_zero,
        Nat.zero_or, andNot_andNot, visible_rows_bits.1, visible_rows_bits.2.1, Nat.or_self]
    exfalso
    cases h0 : fmt.testBit 0
    · rw [(bs h0).1] at h1; cases h1
    · rcases bl h0 with e | e
      · rw [e] at h1; cases h1
      · rw [e] at h2; cases h2
  rw [hres, hv, mask_rows_filter, simplify_rows m fmt h]

/-- C16: simplify mode hides the permissions that are always allowed, whatever their bits.
For every mask m and every format with simplify set, the text of write_mask for m is the
text of write_mask for m with the bits of ACE4_POSIX_ALWAYS_ALLOWED cleared; and it is the
text that the loop of write_mask writes for the cleared mask over the table without the
rows of those bits, so that these rows give no letter, no name, no dash and nothing in the
trailing residual.  The bits are those of read_attributes, read_acl and synchronize; the
table without their rows has 16 rows. -/
theorem simplify_hides_always_allowed :
    (∀ m fmt : Nat, fmt &&& RICHACL_TEXT_SIMPLIFY ≠ 0 →
      write_mask m fmt = write_mask (andNot m ACE4_POSIX_ALWAYS_ALLOWED) fmt ∧
      write_mask m fmt = write_mask_loop (write_mask_fmt fmt) visible_rows
        (if write_mask_fmt fmt &&& RICHACL_TEXT_FILE_CONTEXT != 0
          then andNot m ACE4_POSIX_ALWAYS_ALLOWED else 0)
        (if write_mask_fmt fmt &&& RICHACL_TEXT_DIRECTORY_CONTEXT != 0
          then andNot m ACE4_POSIX_ALWAYS_ALLOWED else 0) false) ∧
    ACE4_POSIX_ALWAYS_ALLOWED = ACE4_READ_ATTRIBUTES ||| ACE4_READ_ACL ||| ACE4_SYNCHRONIZE ∧
    (mask_flags.filter (fun r => r.e_mask &&& ACE4_POSIX_ALWAYS_ALLOWED != 0)).map
        (fun r => r.e_name)
      = ["read_attributes".toList, "read_acl".toList, "synchronize".toList] ∧
    visible_rows.length = 16 := by
  refine ⟨fun m fmt h => ⟨simplify_cleared m fmt h, simplify_visible m fmt h⟩,
    by decide, by decide, by decide⟩

/-- Witness of C16 at the mask READ_DATA|EXECUTE|READ_ATTRIBUTES and the short form with
simplify and align. -/
theorem simplify_hides_always_allowed_witness :
    write_mask 0xa1 (RICHACL_TEXT_SIMPLIFY ||| RICHACL_TEXT_ALIGN)
      = write_mask 0x21 (RICHACL_TEXT_SIMPLIFY ||| RICHACL_TEXT_ALIGN) :=
  (simplify_hides_always_allowed.1 0xa1 (RICHACL_TEXT_SIMPLIFY ||| RICHACL_TEXT_ALIGN)
    (by decide)).1

/-! ## The long form and the contexts -/

theorem join_slash_cons (x : Str) (ts : List Str) :
    join_slash (x :: ts) = x ++ ((if !ts.isEmpty then ['/'] else []) ++ join_slash ts) := by
  cases ts with
  | nil => simp [join_slash]
  | cons y ys => simp [join_slash]

theorem mask_rows_long (F n d res : Nat) (h0 : F.testBit 0 = true) :
    ∀ (rs : List MaskFlag) (sw : Bool),
    mask_rows F n d rs sw res
      = (if sw && !((rs.filter (fun r => !row_hidden F r && row_found n d r)).map
              (fun r => r.e_name) ++
            (if res != 0 then ['0' :: 'x' :: fmt_x res] else [])).isEmpty then ['/'] else []) ++
        join_slash ((rs.filter (fun r => !row_hidden F r && row_found n d r)).map
            (fun r => r.e_name) ++
          (if res != 0 then ['0' :: 'x' :: fmt_x res] else [])) := by
  have c0 : (F &&& RICHACL_TEXT_LONG != 0) = true := by rw [bit_long, h0]
  have c0b : (F &&& RICHACL_TEXT_LONG == 0) = false := by rw [beq_zero_of_bne, c0]; rfl
  intro rs
  induction rs with
  | nil =>
    intro sw
    cases hr : res != 0 <;> cases sw <;> simp [mask_rows, hr, join_slash]
  | cons r rs ih =>
    intro sw
    rw [mask_rows]
    cases hh : row_hidden F r with
    | true =>
      rw [List.filter_cons_of_neg (by simp [hh])]
      simp only [if_true, ih]
    | false =>
      cases hf : row_found n d r with
      | true =>
        rw [List.filter_cons_of_pos (by simp [hh, hf])]
        simp only [Bool.false_eq_true, if_false, if_true, c0, ih, List.map_cons,
          List.cons_append, join_slash_cons, List.isEmpty_cons, Bool.not_false, Bool.and_true,
          Bool.true_and, List.append_assoc]
      | false =>
        rw [List.filter_cons_of_neg (by simp [hh, hf])]
        simp only [Bool.false_eq_true, if_false, c0b, Bool.false_and, ih]

theorem row_hidden_fmt (fmt : Nat) (r : MaskFlag) :
    row_hidden (write_mask_fmt fmt) r = row_hidden fmt r := by
  simp only [row_hidden, bit_simplify, (write_mask_fmt_bits fmt).2.1]

theorem write_mask_long_rows (m fmt : Nat) (hl : fmt &&& RICHACL_TEXT_LONG ≠ 0) :
    write_mask m fmt
      = join_slash ((emitted_rows m fmt).map (fun r => r.e_name) ++ residual_tokens m) := by
  obtain ⟨b0, _, _, _, _⟩ := write_mask_fmt_bits fmt
  have t0 : (write_mask_fmt fmt).testBit 0 = true := by
    rw [b0, ← bit_long]; simpa using hl
  rw [write_mask_rows, mask_rows_long _ _ _ _ t0]
  simp only [Bool.false_and, Bool.false_eq_true, if_false, List.nil_append, row_hidden_fmt]
  rfl

theorem long_fmt_ctx (fmt : Nat) (hl : fmt &&& RICHACL_TEXT_LONG ≠ 0) :
    (write_mask_fmt fmt).testBit 1 = (fmt.testBit 1 || !fmt.testBit 2) ∧
    (write_mask_fmt fmt).testBit 2 = (fmt.testBit 2 || !fmt.testBit 1) := by
  have t0 : fmt.testBit 0 = true := by rw [← bit_long]; simpa using hl
  have c1 : (fmt &&& RICHACL_TEXT_LONG == 0) = false := by
    rw [beq_zero_of_bne, bit_long, t0]; rfl
  cases hc : fmt &&& (RICHACL_TEXT_FILE_CONTEXT ||| RICHACL_TEXT_DIRECTORY_CONTEXT) == 0 with
  | true =>
    have e : fmt &&& (RICHACL_TEXT_FILE_CONTEXT ||| RICHACL_TEXT_DIRECTORY_CONTEXT) = 0 := by
      simpa using hc
    have e1 := congrArg (fun x => Nat.testBit x 1) e
    have e2 := congrArg (fun x => Nat.testBit x 2) e
    simp only [Nat.testBit_and, testBit_ctx, Nat.zero_testBit] at e1 e2
    have f1 : fmt.testBit 1 = false := by simpa using e1
    have f2 : fmt.testBit 2 = false := by simpa using e2
    simp only [write_mask_fmt, c1, hc, if_true, if_false, Bool.false_eq_true, Nat.testBit_or,
      testBit_file, testBit_dir, f1, f2]
    decide
  | false =>
    simp only [write_mask_fmt, c1, hc, if_false, Bool.false_eq_true]
    rcases ctx_of_ne_zero fmt hc with e | e <;> simp [e]

theorem mem_emitted_rows (m fmt : Nat) (r : MaskFlag) :
    r ∈ emitted_rows m fmt ↔ r ∈ mask_flags ∧ row_hidden fmt r = false ∧
      ((m &&& r.e_mask != 0 && (write_mask_fmt fmt).testBit 1 &&
          r.e_context &&& RICHACL_TEXT_FILE_CONTEXT != 0) ||
        (m &&& r.e_mask != 0 && (write_mask_fmt fmt).testBit 2 &&
          r.e_context &&& RICHACL_TEXT_DIRECTORY_CONTEXT != 0)) = true := by
  have z : ∀ e : Nat, (0 &&& e != 0) = false := by intro e; simp
  unfold emitted_rows
  rw [List.mem_filter]
  simp only [row_found, bit_file, bit_dir]
  cases (write_mask_fmt fmt).testBit 1 <;> cases (write_mask_fmt fmt).testBit 2 <;>
    simp only [if_true, if_false, Bool.false_eq_true, z, Bool.false_and, Bool.and_false,
      Bool.and_true, Bool.or_false, Bool.false_or, Bool.and_eq_true, Bool.not_eq_true',
      Bool.or_eq_true, false_and, and_false, or_false, false_or]

theorem mask_names_table :
    (mask_flags.map (fun r => r.e_name)).Nodup ∧
    (∀ q ∈ mask_flags, ∀ r ∈ mask_flags, q.e_name = r.e_name → q = r) ∧
    (∀ r ∈ mask_flags, (r.e_context &&& RICHACL_TEXT_FILE_CONTEXT != 0 ||
      r.e_context &&& RICHACL_TEXT_DIRECTORY_CONTEXT != 0) = true) := by
  decide

theorem emitted_name_mem (m fmt : Nat) (r : MaskFlag) (hr : r ∈ mask_flags)
    (h : r.e_name ∈ (emitted_rows m fmt).map (fun r => r.e_name)) : r ∈ emitted_rows m fmt := by
  obtain ⟨q, hq, e⟩ := List.mem_map.1 h
  have hq2 : q ∈ mask_flags := ((mem_emitted_rows m fmt q).1 hq).1
  rw [← mask_names_table.2.1 q hq2 r hr e]
  exact hq

theorem count_one_of_nodup (a : Str) : ∀ (l : List Str), l.Nodup → a ∈ l → l.count a = 1 := by
  intro l
  induction l with
  | nil => intro _ h; simp at h
  | cons b l ih =>
    intro nd h
    rw [List.nodup_cons] at nd
    rw [List.count_cons]
    by_cases e : b = a
    · subst e
      have : (b == b) = true := by simp
      rw [this, List.count_eq_zero_of_not_mem nd.1]
      rfl
    · have hb : (b == a) = false := by simpa using e
      have hm : a ∈ l := by
        rcases List.mem_cons.1 h with h1 | h1
        · exact absurd h1.symm e
        · exact h1
      rw [hb, ih nd.2 hm]
      rfl

theorem emitted_names_nodup (m fmt : Nat) :
    ((emitted_rows m fmt).map (fun r => r.e_name)).Nodup :=
  List.Nodup.sublist (List.Sublist.map _ (List.filter_sublist _)) mask_names_table.1

theorem fmt_bit_of_land (x : Nat) :
    (x &&& RICHACL_TEXT_FILE_CONTEXT = 0 → x.testBit 1 = false) ∧
    (x &&& RICHACL_TEXT_FILE_CONTEXT ≠ 0 → x.testBit 1 = true) ∧
    (x &&& RICHACL_TEXT_DIRECTORY_CONTEXT = 0 → x.testBit 2 = false) ∧
    (x &&& RICHACL_TEXT_DIRECTORY_CONTEXT ≠ 0 → x.testBit 2 = true) := by
  refine ⟨?_, ?_, ?_, ?_⟩
  · intro h; rw [← bit_file, h]; rfl
  · intro h; rw [← bit_file]; simpa using h
  · intro h; rw [← bit_dir, h]; rfl
  · intro h; rw [← bit_dir]; simpa using h

theorem emitted_rows_one_context (m fmt : Nat) (hl : fmt &&& RICHACL_TEXT_LONG ≠ 0)
    (r : MaskFlag) (hr : r ∈ emitted_rows m fmt) :
    (fmt.testBit 1 = false → fmt.testBit 2 = true →
      (r.e_context &&& RICHACL_TEXT_DIRECTORY_CONTEXT != 0) = true) ∧
    (fmt.testBit 2 = false → fmt.testBit 1 = true →
      (r.e_context &&& RICHACL_TEXT_FILE_CONTEXT != 0) = true) ∧
    (m &&& r.e_mask != 0) = true ∧ row_hidden fmt r = false := by
  obtain ⟨c1, c2⟩ := long_fmt_ctx fmt hl
  obtain ⟨_, hh, hf⟩ := (mem_emitted_rows m fmt r).1 hr
  refine ⟨?_, ?_, ?_, hh⟩
  · intro f1 f2
    rw [c1, c2, f1, f2] at hf
    simp only [Bool.false_or, Bool.not_true, Bool.and_false, Bool.false_and, Bool.or_false,
      Bool.true_or, Bool.and_true, Bool.and_eq_true] at hf
    exact hf.2
  · intro f2 f1
    rw [c1, c2, f1, f2] at hf
    simp only [Bool.false_or, Bool.not_true, Bool.and_false, Bool.false_and, Bool.or_false,
      Bool.true_or, Bool.and_true, Bool.and_eq_true] at hf
    exact hf.2
  · revert hf
    cases m &&& r.e_mask != 0 <;> simp

theorem emitted_rows_both_contexts (m fmt : Nat) (hl : fmt &&& RICHACL_TEXT_LONG ≠ 0)
    (f1 : fmt.testBit 1 = true) (f2 : fmt.testBit 2 = true) (r : MaskFlag)
    (hr : r ∈ mask_flags) (hm : m &&& r.e_mask ≠ 0) (hh : row_hidden fmt r = false) :
    r ∈ emitted_rows m fmt := by
  obtain ⟨c1, c2⟩ := long_fmt_ctx fmt hl
  have hc := mask_names_table.2.2 r hr
  have hm2 : (m &&& r.e_mask != 0) = true := by simpa using hm
  rw [mem_emitted_rows]
  refine ⟨hr, hh, ?_⟩
  rw [c1, c2, f1, f2, hm2]
  simpa using hc

/-- C15 (as amended): the contexts of the long form.  For every mask m and every format of
the long form, the text of write_mask is the slash-separated list of the names of the rows
emitted, in the order of the table, followed by the token of the bits outside the table if
there are any.  When only the directory context is requested no name of a row that does not
apply to directories (read_data, write_data, append_data) is emitted; when only the file
context is requested no name of a row that does not apply to files (list_directory,
add_file, add_subdirectory) is emitted; when both contexts are requested the name of every
row whose bit is set in m is emitted exactly once, so a bit shared by a row of the file
context and a row of the directory context is emitted under both names, except that in
simplify mode the rows of the permissions that are always allowed are not emitted at all.
No name of a row whose bit is not set in m is ever emitted. -/
theorem long_form_contexts (m fmt : Nat) (hl : fmt &&& RICHACL_TEXT_LONG ≠ 0) :
    write_mask m fmt
      = join_slash ((emitted_rows m fmt).map (fun r => r.e_name) ++ residual_tokens m) ∧
    (fmt &&& RICHACL_TEXT_FILE_CONTEXT = 0 → fmt &&& RICHACL_TEXT_DIRECTORY_CONTEXT ≠ 0 →
      ∀ r ∈ mask_flags, r.e_context &&& RICHACL_TEXT_DIRECTORY_CONTEXT = 0 →
        r.e_name ∉ (emitted_rows m fmt).map (fun r => r.e_name)) ∧
    (fmt &&& RICHACL_TEXT_DIRECTORY_CONTEXT = 0 → fmt &&& RICHACL_TEXT_FILE_CONTEXT ≠ 0 →
      ∀ r ∈ mask_flags, r.e_context &&& RICHACL_TEXT_FILE_CONTEXT = 0 →
        r.e_name ∉ (emitted_rows m fmt).map (fun r => r.e_name)) ∧
    (fmt &&& RICHACL_TEXT_FILE_CONTEXT ≠ 0 → fmt &&& RICHACL_TEXT_DIRECTORY_CONTEXT ≠ 0 →
      ∀ r ∈ mask_flags, m &&& r.e_mask ≠ 0 → row_hidden fmt r = false →
        ((emitted_rows m fmt).map (fun r => r.e_name)).count r.e_name = 1) ∧
    (∀ r ∈ mask_flags, m &&& r.e_mask = 0 ∨ row_hidden fmt r = true →
      r.e_name ∉ (emitted_rows m fmt).map (fun r => r.e_name)) ∧
    (mask_flags.filter (fun r => r.e_context &&& RICHACL_TEXT_DIRECTORY_CONTEXT == 0)).map
        (fun r => r.e_name)
      = ["read_data".toList, "write_data".toList, "append_data".toList] ∧
    (mask_flags.filter (fun r => r.e_context &&& RICHACL_TEXT_FILE_CONTEXT == 0)).map
        (fun r => r.e_name)
      = ["list_directory".toList, "add_file".toList, "add_subdirectory".toList] := by
  refine ⟨write_mask_long_rows m fmt hl, ?_, ?_, ?_, ?_, by decide, by decide⟩
  · intro hF hD r hr hc hn
    have hmem := emitted_name_mem m fmt r hr hn
    have := (emitted_rows_one_context m fmt hl r hmem).1 ((fmt_bit_of_land fmt).1 hF)
      ((fmt_bit_of_land fmt).2.2.2 hD)
    rw [hc] at this
    cases this
  · intro hD hF r hr hc hn
    have hmem := emitted_name_mem m fmt r hr hn
    have := (emitted_rows_one_context m fmt hl r hmem).2.1 ((fmt_bit_of_land fmt).2.2.1 hD)
      ((fmt_bit_of_land fmt).2.1 hF)
    rw [hc] at this
    cases this
  · intro hF hD r hr hm hh
    have hmem := emitted_rows_both_contexts m fmt hl ((fmt_bit_of_land fmt).2.1 hF)
      ((fmt_bit_of_land fmt).2.2.2 hD) r hr hm hh
    exact count_one_of_nodup _ _ (emitted_names_nodup m fmt)
      (List.mem_map.2 ⟨r, hmem, rfl⟩)
  · intro r hr h hn
    have hmem := emitted_name_mem m fmt r hr hn
    obtain ⟨_, _, h1, h2⟩ := emitted_rows_one_context m fmt hl r hmem
    rcases h with h | h
    · rw [h] at h1; cases h1
    · rw [h] at h2; cases h2

/-- Witness of C15 at the mask READ_DATA|EXECUTE in the long form with both contexts
requested. -/
theorem long_form_contexts_witness :
    write_mask 0x21 (RICHACL_TEXT_LONG ||| RICHACL_TEXT_FILE_CONTEXT |||
        RICHACL_TEXT_DIRECTORY_CONTEXT) = "read_data/list_directory/execute".toList :=
  (long_form_contexts 0x21 (RICHACL_TEXT_LONG ||| RICHACL_TEXT_FILE_CONTEXT |||
    RICHACL_TEXT_DIRECTORY_CONTEXT) (by decide)).1

/-- Counterexample of C15: in the long form with both contexts requested and simplify set,
the set bit of the row read_attributes, a row of both contexts, is not emitted at all: the
text of write_mask is empty. -/
theorem long_form_simplify_hidden :
    write_mask ACE4_READ_ATTRIBUTES (RICHACL_TEXT_LONG ||| RICHACL_TEXT_FILE_CONTEXT |||
        RICHACL_TEXT_DIRECTORY_CONTEXT ||| RICHACL_TEXT_SIMPLIFY) = [] ∧
    (⟨ACE4_READ_ATTRIBUTES, 'a', "read_attributes".toList, BOTH_CONTEXTS⟩ : MaskFlag)
      ∈ mask_flags ∧
    BOTH_CONTEXTS = RICHACL_TEXT_FILE_CONTEXT ||| RICHACL_TEXT_DIRECTORY_CONTEXT := by
  decide

/-! ## The round trip of a record whose flags are covered by the tables -/

theorem entry_table_covered_facts (a : richace) (h : entry_table_covered a = true) :
    a.e_type < 2 ^ 16 ∧ a.e_mask < 2 ^ 32 ∧ a.e_id < 2 ^ 32 ∧
    andNot a.e_flags (ace_table_bits ||| ACE4_SPECIAL_WHO) = 0 ∧
    ((a.e_flags &&& ACE4_SPECIAL_WHO != 0) = true → ∃ p ∈ special_whos, p.1 = a.e_id) := by
  unfold entry_table_covered at h
  simp only [Bool.and_eq_true, decide_eq_true_eq, beq_iff_eq] at h
  obtain ⟨⟨⟨h1, h2⟩, h3⟩, h4⟩ := h
  have special_ids : ∀ p ∈ special_whos, p.1 < 2 ^ 32 := by decide
  by_cases hs : (a.e_flags &&& ACE4_SPECIAL_WHO != 0) = true
  · rw [if_pos hs] at h4
    obtain ⟨p, hp, hpe⟩ := List.any_eq_true.1 h4
    have hpe2 : p.1 = a.e_id := by simpa using hpe
    exact ⟨h1, h2, by rw [← hpe2]; exact special_ids p hp, h3, fun _ => ⟨p, hp, hpe2⟩⟩
  · rw [if_neg hs] at h4
    have h5 : a.e_id < 2 ^ 31 := by simpa using h4
    exact ⟨h1, h2, by omega, h3, fun hx => absurd hx hs⟩

theorem identifier_read_back (R : Resolver) (a : richace) (align fmt m : Nat)
    (hid : a.e_id < 2 ^ 32)
    (hsp : (a.e_flags &&& ACE4_SPECIAL_WHO != 0) = true → ∃ p ∈ special_whos, p.1 = a.e_id)
    (hn : (fmt &&& RICHACL_TEXT_NUMERIC_IDS != 0) = true) :
    ∃ txt, write_identifier R a align fmt = pad align txt ∧
      ':' ∉ txt ∧ (∀ c ∈ txt.head?, is_sep c = false) ∧ txt ≠ [] ∧
      strcasecmp txt "FLAGS".toList = false ∧
      identifier_from_text R txt ⟨0, andNot a.e_flags ACE4_SPECIAL_WHO, m, 0⟩
        = some ⟨0, a.e_flags, m, a.e_id⟩ := by
  have hn0 : (fmt &&& RICHACL_TEXT_NUMERIC_IDS == 0) = false := by
    simpa [bne] using hn
  by_cases hs : (a.e_flags &&& ACE4_SPECIAL_WHO != 0) = true
  · obtain ⟨p, hp, hpe⟩ := hsp hs
    obtain ⟨f1, f2, f3, f4, f5, f6⟩ := special_who_facts p hp
    rw [hpe] at f1 f2 f3 f4 f5 f6
    refine ⟨(special_who_name a.e_id).map tolower, ?_, f1, f2, f3, f4, ?_⟩
    · simp only [write_identifier, hs, if_true]
    · unfold identifier_from_text
      cases hsplit : strchr_split '@' ((special_who_name a.e_id).map tolower) with
      | none => rw [hsplit] at f5; simp at f5
      | some q =>
        rw [hsplit] at f5
        simp only [Option.map_some', Option.some.injEq] at f5
        simp only [f5, List.isEmpty_nil, Bool.not_true, Bool.false_eq_true, if_false]
        unfold richace_set_who
        cases hfind : special_whos.find?
            (fun q => q.2 == ((special_who_name a.e_id).map tolower).map toupper) with
        | none => rw [hfind] at f6; simp at f6
        | some q2 =>
          rw [hfind] at f6
          simp only [Option.map_some', Option.some.injEq] at f6
          simp only [f6, hpe, special_bit_set _ hs]
  · have hs2 : (a.e_flags &&& ACE4_SPECIAL_WHO != 0) = false := by simpa using hs
    obtain ⟨g1, g2, g3, g4⟩ := fmt_d_field a.e_id
    obtain ⟨r1, r2⟩ := fmt_d_round_trip a.e_id hid
    refine ⟨fmt_d a.e_id, ?_, g1, ?_, fmt_d_ne_nil _, g4, ?_⟩
    · simp only [write_identifier, hs2, hn0, Bool.false_eq_true, if_false]
      split <;> rfl
    · intro c hc
      cases hf : fmt_d a.e_id with
      | nil => rw [hf] at hc; simp at hc
      | cons x t =>
        rw [hf] at hc
        simp only [List.head?_cons, Option.mem_def, Option.some.injEq] at hc
        subst hc
        exact g3 _ (by rw [hf]; simp)
    · unfold identifier_from_text
      rw [strchr_split_none _ _ g2]
      simp only [r1, r2, List.isEmpty_nil, if_true, special_bit_clear _ hs2]

theorem entry_line_read_back (R : Resolver) (a : richace) (align fmt : Nat)
    (hc : entry_table_covered a = true) (hn : (fmt &&& RICHACL_TEXT_NUMERIC_IDS != 0) = true)
    (hs : fmt.testBit 4 = false) (t : Str) (acl : richacl) (fl : Nat) :
    from_text_run R (write_entry R a align fmt ++ t) acl fl
      = from_text_run R t { acl with a_entries := acl.a_entries ++ [a] } fl := by
  obtain ⟨ht, hm, hid, hfl, hsp⟩ := entry_table_covered_facts a hc
  obtain ⟨txt, hw, w1, w2, w3, w4, w5⟩ :=
    identifier_read_back R a align fmt a.e_mask hid hsp hn
  have hmask := mask_text_read_back a.e_mask (entry_fmt a fmt) hm
    (simplify_zero_of_bit _ (by rw [entry_fmt_simplify]; exact hs))
  have hflags := ace_flags_table_round_trip (andNot a.e_flags ACE4_SPECIAL_WHO)
    (entry_fmt a fmt) (andNot_andNot_table _ _ _ hfl) ⟨0, 0, a.e_mask, 0⟩
  have htype := type_from_text_write_type a.e_type ht ⟨0, a.e_flags, a.e_mask, a.e_id⟩
  have htf := write_type_field a.e_type ht
  have e : write_entry R a align fmt ++ t = pad align txt ++
      (':' :: (write_mask a.e_mask (entry_fmt a fmt) ++ ':' ::
        (write_ace_flags a.e_flags (entry_fmt a fmt) ++ ':' ::
          (write_type a.e_type ++ '\n' :: t)))) := by
    simp [write_entry, hw]
  rw [e, from_text_run_pad]
  rw [from_text_run_entry R _ acl fl (by cases txt <;> simp)
    (by
      intro c hc
      cases txt with
      | nil => exact absurd rfl w3
      | cons x tl => exact w2 c (by simpa using hc))]
  rw [from_text_entry_fields R txt (write_mask a.e_mask (entry_fmt a fmt))
    (write_ace_flags a.e_flags (entry_fmt a fmt)) (write_type a.e_type) ('\n' :: t) acl fl w1
    (write_mask_no_colon _ _) hflags.2 htf.1 (by intro c hc; simp at hc; subst hc; decide)
    (by intro hx; rw [w4] at hx; cases hx)]
  have hff : from_text_fields R txt (write_mask a.e_mask (entry_fmt a fmt))
      (write_ace_flags a.e_flags (entry_fmt a fmt)) (write_type a.e_type) acl fl
      = some ({ acl with a_entries := acl.a_entries ++ [a] }, fl) := by
    unfold from_text_fields
    unfold write_ace_flags
    simp only [hmask, htf.2, hflags.1, w5, htype.1, Bool.false_eq_true, if_false]
  rw [hff]
  simp only [Option.map, Option.bind]
  exact from_text_run_sep R '\n' t _ _ (by decide)

theorem entry_lines_read_back (R : Resolver) (align fmt : Nat)
    (hn : (fmt &&& RICHACL_TEXT_NUMERIC_IDS != 0) = true) (hs : fmt.testBit 4 = false) :
    ∀ (es : List richace), (∀ a ∈ es, entry_table_covered a = true) →
    ∀ (t : Str) (acl : richacl) (fl : Nat),
    from_text_run R (write_entries R align fmt es ++ t) acl fl
      = from_text_run R t { acl with a_entries := acl.a_entries ++ es } fl := by
  intro es
  induction es with
  | nil => intro _ t acl fl; simp [write_entries]
  | cons a es ih =>
    intro hes t acl fl
    simp only [write_entries, List.append_assoc]
    rw [entry_line_read_back R a align fmt (hes a (List.mem_cons_self _ _)) hn hs,
      ih (fun b hb => hes b (List.mem_cons_of_mem _ hb))]
    simp

theorem record_read_back (R : Resolver) (acl : richacl) (fmt : Nat)
    (hn : (fmt &&& RICHACL_TEXT_NUMERIC_IDS != 0) = true)
    (hm : (fmt &&& RICHACL_TEXT_SHOW_MASKS != 0) = true)
    (hs : fmt &&& RICHACL_TEXT_SIMPLIFY = 0) (hc : acl_table_covered acl = true) :
    richacl_from_text R (richacl_to_text R acl fmt) =
      some (acl, (if acl.a_flags = 0 then 0 else RICHACL_TEXT_FLAGS) |||
        RICHACL_TEXT_OWNER_MASK ||| RICHACL_TEXT_GROUP_MASK ||| RICHACL_TEXT_OTHER_MASK) := by
  unfold acl_table_covered at hc
  simp only [Bool.and_eq_true, decide_eq_true_eq, beq_iff_eq, List.all_eq_true] at hc
  obtain ⟨⟨⟨⟨w1, w2⟩, w3⟩, w4⟩, w5⟩ := hc
  have hs4 : fmt.testBit 4 = false := by
    rw [← bit_simplify, hs]; rfl
  unfold richacl_from_text richacl_to_text
  simp only []
  have e : ∀ (A B C : Str), A ++ B ++ C = A ++ (B ++ (C ++ [])) := by
    intro A B C; simp
  rw [e, from_text_run_write_acl_flags R _ _ _ w1,
    from_text_run_write_masks R acl _ fmt hm hs4 w2 w3 w4,
    entry_lines_read_back R _ fmt hn hs4 acl.a_entries w5,
    from_text_run_nil]
  cases acl
  simp

/-- C21: the round trip of a record whose flags are covered by the tables.  Take a record
whose ACL flags are bits of acl_flag_bits, whose three masks are 32-bit values and whose
entries have a 16-bit type, a 32-bit mask, flags that are bits of ace_flag_bits or
special_who, and either special_who with the identifier of a fixed special identity or no
special_who with a numeric identifier below 2^31; and take a format, short or long, with or
without align, with any contexts, that has numeric ids and show masks set and simplify
clear.  Then richacl_from_text applied to the text of richacl_to_text succeeds and returns
the record itself, the same ACL flags, the same three masks and the same entries in the
same order, whatever the identity directory, together with the section bits of the three
masks and, exactly when the ACL flags are not zero, the section bit of the flags. -/
theorem round_trip_table_covered (R : Resolver) (acl : richacl) (fmt : Nat)
    (hn : fmt &&& RICHACL_TEXT_NUMERIC_IDS ≠ 0)
    (hm : fmt &&& RICHACL_TEXT_SHOW_MASKS ≠ 0)
    (hs : fmt &&& RICHACL_TEXT_SIMPLIFY = 0) (hc : acl_table_covered acl = true) :
    richacl_from_text R (richacl_to_text R acl fmt) =
      some (acl, (if acl.a_flags = 0 then 0 else RICHACL_TEXT_FLAGS) |||
        RICHACL_TEXT_OWNER_MASK ||| RICHACL_TEXT_GROUP_MASK ||| RICHACL_TEXT_OTHER_MASK) ∧
    (RICHACL_TEXT_OWNER_MASK ||| RICHACL_TEXT_GROUP_MASK ||| RICHACL_TEXT_OTHER_MASK)
      &&& RICHACL_TEXT_FLAGS = 0 ∧
    RICHACL_TEXT_FLAGS ≠ 0 ∧ RICHACL_TEXT_OWNER_MASK ≠ 0 ∧ RICHACL_TEXT_GROUP_MASK ≠ 0 ∧
    RICHACL_TEXT_OTHER_MASK ≠ 0 :=
  ⟨record_read_back R acl fmt (by simpa using hn) (by simpa using hm) hs hc,
    by decide, by decide, by decide, by decide, by decide⟩

/-- Witness of C21 at a record with two ACL flags, three masks, an entry for the special
identity group, an inherit-only entry of a numeric group with a mask bit outside the table,
and an entry of type 7 for the identifier 2^31 - 1, in the long form with align. -/
theorem round_trip_table_covered_witness :
    richacl_from_text no_names (richacl_to_text no_names
      ⟨0x3, 0x1f01bf, 0x21, 0x100000,
        [⟨0, 0x4003, 0x1601ff, 1⟩, ⟨1, 0x48, 0x800021, 1000⟩, ⟨7, 0, 0, 2147483647⟩]⟩
      (RICHACL_TEXT_SHOW_MASKS ||| RICHACL_TEXT_NUMERIC_IDS ||| RICHACL_TEXT_LONG |||
        RICHACL_TEXT_ALIGN)) =
    some (⟨0x3, 0x1f01bf, 0x21, 0x100000,
        [⟨0, 0x4003, 0x1601ff, 1⟩, ⟨1, 0x48, 0x800021, 1000⟩, ⟨7, 0, 0, 2147483647⟩]⟩,
      RICHACL_TEXT_FLAGS ||| RICHACL_TEXT_OWNER_MASK ||| RICHACL_TEXT_GROUP_MASK |||
        RICHACL_TEXT_OTHER_MASK) :=
  (round_trip_table_covered no_names _ _ (by decide) (by decide) (by decide) (by decide)).1

/-! ## Empty fields -/

/-- C22: empty fields are read as the number zero.  The text of three colons, with empty
who, mask, flags and type fields, is parsed by richacl_from_text, with every identity
directory and so without a lookup deciding anything, into the record with exactly one
entry, of type 0 (Allow), flags 0, mask 0 and identifier 0, a numeric user identifier as
the entry has neither special_who nor identifier_group; the ACL flags, the three masks and
the section bits are 0.  On the empty text identifier_from_text stores the identifier 0
and type_from_text the type Allow, mask_from_text yields 0 and ace_flags_from_text stores
the flags 0: strtoul reads the empty text as 0 and leaves nothing unread. -/
theorem empty_fields_are_zero :
    (∀ R : Resolver, richacl_from_text R ":::".toList
      = some (⟨0, 0, 0, 0, [⟨ACE4_ACCESS_ALLOWED_ACE_TYPE, 0, 0, 0⟩]⟩, 0)) ∧
    (∀ (R : Resolver) (ace : richace),
      identifier_from_text R [] ace = some { ace with e_id := 0 }) ∧
    (∀ ace : richace,
      type_from_text [] ace = some { ace with e_type := ACE4_ACCESS_ALLOWED_ACE_TYPE }) ∧
    mask_from_text [] = some 0 ∧
    (∀ ace : richace, ace_flags_from_text [] ace = some { ace with e_flags := 0 }) ∧
    strtoul [] = (0, []) ∧ ACE4_ACCESS_ALLOWED_ACE_TYPE = 0 :=
  ⟨fun _ => rfl, fun _ _ => rfl, fun _ => rfl, rfl, fun _ => rfl, rfl, rfl⟩

/-! ## The rows that write_mask renders -/

theorem short_letters_cons (m F : Nat) (r : MaskFlag) (rs : List MaskFlag) :
    short_letters m F (r :: rs)
      = if !row_hidden F r && (m &&& r.e_mask != 0 || F &&& RICHACL_TEXT_ALIGN != 0) then
          (if m &&& r.e_mask != 0 then r.e_char else '-') :: short_letters m F rs
        else short_letters m F rs := by
  unfold short_letters
  rw [List.filter_cons]
  split <;> rfl

theorem mask_rows_short_letters (F m res : Nat) (h0 : F.testBit 0 = false) :
    ∀ (rs : List MaskFlag) (sw : Bool),
    mask_rows F m 0 rs sw res
      = short_letters m F (rs.filter (fun r => r.e_context &&& RICHACL_TEXT_FILE_CONTEXT != 0)) ++
        (if res != 0 then
          (if sw || !(short_letters m F
              (rs.filter (fun r => r.e_context &&& RICHACL_TEXT_FILE_CONTEXT != 0))).isEmpty
            then ['/'] else []) ++ ('0' :: 'x' :: fmt_x res)
        else []) := by
  have c0 : (F &&& RICHACL_TEXT_LONG != 0) = false := by rw [bit_long, h0]
  have c0b : (F &&& RICHACL_TEXT_LONG == 0) = true := by rw [beq_zero_of_bne, c0]; rfl
  have z : ∀ e : Nat, (0 &&& e != 0) = false := by intro e; simp
  intro rs
  induction rs with
  | nil => intro sw; simp [mask_rows, short_letters]
  | cons r rs ih =>
    intro sw
    rw [mask_rows, List.filter_cons]
    simp only [row_found, c0, c0b, z, Bool.false_and, Bool.false_eq_true, if_false,
      Bool.or_false, Bool.true_and, ih]
    cases hc : r.e_context &&& RICHACL_TEXT_FILE_CONTEXT != 0 with
    | false =>
      simp only [Bool.and_false, Bool.false_eq_true, if_false, ite_self]
    | true =>
      rw [if_pos rfl, short_letters_cons]
      cases hh : row_hidden F r with
      | true => simp
      | false =>
        cases hm : m &&& r.e_mask != 0 with
        | true => simp
        | false =>
          cases ha : F &&& RICHACL_TEXT_ALIGN != 0 with
          | true => simp
          | false => simp

theorem short_letters_fmt (m fmt : Nat) (rows : List MaskFlag) :
    short_letters m (write_mask_fmt fmt) rows = short_letters m fmt rows := by
  obtain ⟨_, _, b5, _, _⟩ := write_mask_fmt_bits fmt
  have e : (write_mask_fmt fmt &&& RICHACL_TEXT_ALIGN != 0) = (fmt &&& RICHACL_TEXT_ALIGN != 0) := by
    rw [bit_align, bit_align, b5]
  simp only [short_letters, row_hidden_fmt, e]

theorem write_mask_short_rows (m fmt : Nat) (h0 : fmt &&& RICHACL_TEXT_LONG = 0) :
    write_mask m fmt
      = short_letters m fmt file_rows ++
        (if andNot m mask_table_bits != 0 then
          (if !(short_letters m fmt file_rows).isEmpty then ['/'] else []) ++
            ('0' :: 'x' :: fmt_x (andNot m mask_table_bits))
        else []) := by
  obtain ⟨b0, _, _, bs, _⟩ := write_mask_fmt_bits fmt
  have t0 : fmt.testBit 0 = false := by rw [← bit_long, h0]; rfl
  rw [write_mask_rows]
  simp only [bit_file, bit_dir, (bs t0).1, (bs t0).2, if_true, Bool.false_eq_true, if_false]
  rw [mask_rows_short_letters _ m _ (by rw [b0, t0])]
  simp only [short_letters_fmt, Bool.false_or]
  rfl

theorem rendered_filter (m fmt : Nat) (C : MaskFlag → Bool) :
    rendered_rows m fmt (mask_flags.filter C)
      = mask_flags.filter (fun r => (!row_hidden fmt r && m &&& r.e_mask != 0) && C r) := by
  unfold rendered_rows
  rw [List.filter_filter]

theorem emitted_rows_bits (m fmt : Nat) (b1 b2 : Bool)
    (h1 : (write_mask_fmt fmt).testBit 1 = b1) (h2 : (write_mask_fmt fmt).testBit 2 = b2) :
    emitted_rows m fmt = mask_flags.filter (fun r => !row_hidden fmt r &&
      ((b1 && m &&& r.e_mask != 0 && r.e_context &&& RICHACL_TEXT_FILE_CONTEXT != 0) ||
       (b2 && m &&& r.e_mask != 0 && r.e_context &&& RICHACL_TEXT_DIRECTORY_CONTEXT != 0))) := by
  have z : ∀ e : Nat, (0 &&& e != 0) = false := by intro e; simp
  unfold emitted_rows
  simp only [row_found, bit_file, bit_dir, h1, h2]
  cases b1 <;> cases b2 <;>
    simp only [if_true, if_false, Bool.false_eq_true, z, Bool.false_and, Bool.true_and]

theorem emitted_rows_file (m fmt : Nat) (hl : fmt &&& RICHACL_TEXT_LONG ≠ 0)
    (hF : fmt &&& RICHACL_TEXT_FILE_CONTEXT ≠ 0) (hD : fmt &&& RICHACL_TEXT_DIRECTORY_CONTEXT = 0) :
    emitted_rows m fmt = rendered_rows m fmt file_rows := by
  obtain ⟨c1, c2⟩ := long_fmt_ctx fmt hl
  rw [(fmt_bit_of_land fmt).2.1 hF, (fmt_bit_of_land fmt).2.2.1 hD] at c1 c2
  rw [emitted_rows_bits m fmt _ _ c1 c2]
  unfold file_rows
  rw [rendered_filter]
  apply List.filter_congr
  intro r _
  simp only [Bool.true_or, Bool.true_and, Bool.not_true, Bool.or_false, Bool.false_and,
    Bool.and_assoc]

theorem emitted_rows_dir (m fmt : Nat) (hl : fmt &&& RICHACL_TEXT_LONG ≠ 0)
    (hF : fmt &&& RICHACL_TEXT_FILE_CONTEXT = 0) (hD : fmt &&& RICHACL_TEXT_DIRECTORY_CONTEXT ≠ 0) :
    emitted_rows m fmt = rendered_rows m fmt dir_rows := by
  obtain ⟨c1, c2⟩ := long_fmt_ctx fmt hl
  rw [(fmt_bit_of_land fmt).1 hF, (fmt_bit_of_land fmt).2.2.2 hD] at c1 c2
  rw [emitted_rows_bits m fmt _ _ c1 c2]
  unfold dir_rows
  rw [rendered_filter]
  apply List.filter_congr
  intro r _
  simp only [Bool.true_or, Bool.true_and, Bool.not_true, Bool.or_false, Bool.false_and,
    Bool.false_or, Bool.and_assoc]

theorem emitted_rows_all (m fmt : Nat)
    (c1 : (write_mask_fmt fmt).testBit 1 = true) (c2 : (write_mask_fmt fmt).testBit 2 = true) :
    emitted_rows m fmt = rendered_rows m fmt mask_flags := by
  rw [emitted_rows_bits m fmt _ _ c1 c2]
  unfold rendered_rows
  apply List.filter_congr
  intro r hr
  have hc := mask_names_table.2.2 r hr
  revert hc
  simp only [Bool.true_and]
  cases m &&& r.e_mask != 0 <;> cases r.e_context &&& RICHACL_TEXT_FILE_CONTEXT != 0 <;>
    cases r.e_context &&& RICHACL_TEXT_DIRECTORY_CONTEXT != 0 <;> simp

theorem emitted_rows_both (m fmt : Nat) (hl : fmt &&& RICHACL_TEXT_LONG ≠ 0)
    (hF : fmt &&& RICHACL_TEXT_FILE_CONTEXT ≠ 0) (hD : fmt &&& RICHACL_TEXT_DIRECTORY_CONTEXT ≠ 0) :
    emitted_rows m fmt = rendered_rows m fmt mask_flags := by
  obtain ⟨c1, c2⟩ := long_fmt_ctx fmt hl
  rw [(fmt_bit_of_land fmt).2.1 hF, (fmt_bit_of_land fmt).2.2.2 hD] at c1 c2
  exact emitted_rows_all m fmt c1 c2

theorem emitted_rows_none (m fmt : Nat) (hl : fmt &&& RICHACL_TEXT_LONG ≠ 0)
    (hF : fmt &&& RICHACL_TEXT_FILE_CONTEXT = 0) (hD : fmt &&& RICHACL_TEXT_DIRECTORY_CONTEXT = 0) :
    emitted_rows m fmt = rendered_rows m fmt mask_flags := by
  obtain ⟨c1, c2⟩ := long_fmt_ctx fmt hl
  rw [(fmt_bit_of_land fmt).1 hF, (fmt_bit_of_land fmt).2.2.1 hD] at c1 c2
  exact emitted_rows_all m fmt c1 c2

theorem land_ctx_zero (fmt : Nat) (hF : fmt &&& RICHACL_TEXT_FILE_CONTEXT = 0)
    (hD : fmt &&& RICHACL_TEXT_DIRECTORY_CONTEXT = 0) :
    fmt &&& (RICHACL_TEXT_FILE_CONTEXT ||| RICHACL_TEXT_DIRECTORY_CONTEXT) = 0 := by
  have f1 := (fmt_bit_of_land fmt).1 hF
  have f2 := (fmt_bit_of_land fmt).2.2.1 hD
  apply Nat.eq_of_testBit_eq
  intro i
  simp only [Nat.testBit_and, testBit_ctx, Nat.zero_testBit]
  by_cases e1 : 1 = i
  · subst e1; simp [f1]
  · by_cases e2 : 2 = i
    · subst e2; simp [f2]
    · simp [e1, e2]

/-- C18 (as amended): the rows that write_mask renders.  In the short form, whatever
contexts are requested, write_mask renders rows of the file context only: its text is made
of the letters (and, with align, the dashes) of the rows of the file context that simplify
mode does not hide, in the order of the table, followed by the residual, and it is the text
for the format with exactly the file context requested.  In the long form the text is the
slash-separated list of the names of the rendered rows followed by the residual token,
where the rendered rows are the rows whose bit is set in the mask and that simplify mode
does not hide, taken among the rows of the file context when only the file context is
requested, among the rows of the directory context when only the directory context is
requested, and among all the rows of the table when both contexts or no context are
requested; with no context requested the text is the text for both contexts requested.
Each of the two contexts has 16 rows; the rows outside the file context are
list_directory, add_file and add_subdirectory, those outside the directory context are
read_data, write_data and append_data. -/
theorem write_mask_default_context (m fmt : Nat) :
    (fmt &&& RICHACL_TEXT_LONG = 0 →
      write_mask m fmt
        = short_letters m fmt file_rows ++
          (if andNot m mask_table_bits != 0 then
            (if !(short_letters m fmt file_rows).isEmpty then ['/'] else []) ++
              ('0' :: 'x' :: fmt_x (andNot m mask_table_bits))
          else []) ∧
      write_mask m fmt
        = write_mask m (andNot fmt RICHACL_TEXT_DIRECTORY_CONTEXT ||| RICHACL_TEXT_FILE_CONTEXT)) ∧
    (fmt &&& RICHACL_TEXT_LONG ≠ 0 → fmt &&& RICHACL_TEXT_FILE_CONTEXT ≠ 0 →
      fmt &&& RICHACL_TEXT_DIRECTORY_CONTEXT = 0 →
      write_mask m fmt = join_slash
        ((rendered_rows m fmt file_rows).map (fun r => r.e_name) ++ residual_tokens m)) ∧
    (fmt &&& RICHACL_TEXT_LONG ≠ 0 → fmt &&& RICHACL_TEXT_FILE_CONTEXT = 0 →
      fmt &&& RICHACL_TEXT_DIRECTORY_CONTEXT ≠ 0 →
      write_mask m fmt = join_slash
        ((rendered_rows m fmt dir_rows).map (fun r => r.e_name) ++ residual_tokens m)) ∧
    (fmt &&& RICHACL_TEXT_LONG ≠ 0 → fmt &&& RICHACL_TEXT_FILE_CONTEXT ≠ 0 →
      fmt &&& RICHACL_TEXT_DIRECTORY_CONTEXT ≠ 0 →
      write_mask m fmt = join_slash
        ((rendered_rows m fmt mask_flags).map (fun r => r.e_name) ++ residual_tokens m)) ∧
    (fmt &&& RICHACL_TEXT_LONG ≠ 0 → fmt &&& RICHACL_TEXT_FILE_CONTEXT = 0 →
      fmt &&& RICHACL_TEXT_DIRECTORY_CONTEXT = 0 →
      write_mask m fmt = join_slash
        ((rendered_rows m fmt mask_flags).map (fun r => r.e_name) ++ residual_tokens m) ∧
      write_mask m fmt
        = write_mask m (fmt ||| (RICHACL_TEXT_FILE_CONTEXT ||| RICHACL_TEXT_DIRECTORY_CONTEXT))) ∧
    file_rows.length = 16 ∧ dir_rows.length = 16 ∧
    (mask_flags.filter (fun r => r.e_context &&& RICHACL_TEXT_FILE_CONTEXT == 0)).map
        (fun r => r.e_name)
      = ["list_directory".toList, "add_file".toList, "add_subdirectory".toList] ∧
    (mask_flags.filter (fun r => r.e_context &&& RICHACL_TEXT_DIRECTORY_CONTEXT == 0)).map
        (fun r => r.e_name)
      = ["read_data".toList, "write_data".toList, "append_data".toList] := by
  refine ⟨?_, ?_, ?_, ?_, ?_, by decide, by decide, by decide, by decide⟩
  · intro h
    exact ⟨write_mask_short_rows m fmt h, write_mask_of_fmt m _ _ (write_mask_fmt_short fmt h)⟩
  · intro hl hF hD
    rw [write_mask_long_rows m fmt hl, emitted_rows_file m fmt hl hF hD]
  · intro hl hF hD
    rw [write_mask_long_rows m fmt hl, emitted_rows_dir m fmt hl hF hD]
  · intro hl hF hD
    rw [write_mask_long_rows m fmt hl, emitted_rows_both m fmt hl hF hD]
  · intro hl hF hD
    refine ⟨?_, write_mask_of_fmt m _ _ (write_mask_fmt_long fmt hl (land_ctx_zero fmt hF hD))⟩
    rw [write_mask_long_rows m fmt hl, emitted_rows_none m fmt hl hF hD]

/-- Witness of C18 at the mask READ_DATA|WRITE_DATA: the short form with the directory
context requested, the long form with the directory context alone and the long form with
no context requested. -/
theorem write_mask_default_context_witness :
    write_mask 3 RICHACL_TEXT_DIRECTORY_CONTEXT = write_mask 3 RICHACL_TEXT_FILE_CONTEXT ∧
    write_mask 3 (RICHACL_TEXT_LONG ||| RICHACL_TEXT_DIRECTORY_CONTEXT)
      = "list_directory/add_file".toList ∧
    write_mask 3 RICHACL_TEXT_LONG
      = "read_data/list_directory/write_data/add_file".toList :=
  ⟨((write_mask_default_context 3 RICHACL_TEXT_DIRECTORY_CONTEXT).1 (by decide)).2,
    (write_mask_default_context 3 (RICHACL_TEXT_LONG ||| RICHACL_TEXT_DIRECTORY_CONTEXT)).2.2.1
      (by decide) (by decide) (by decide),
    ((write_mask_default_context 3 RICHACL_TEXT_LONG).2.2.2.2.1 (by decide) (by decide)
      (by decide)).1⟩

/-! ## Flags outside the tables -/

theorem land_zero_of_sub (f e T : Nat) (h : f &&& T = 0) (he : e &&& T = e) : f &&& e = 0 := by
  apply Nat.eq_of_testBit_eq
  intro i
  have h1 := land_eq_zero_bits f T h i
  have h2 := congrArg (fun x => Nat.testBit x i) he
  simp only [Nat.testBit_and] at h2
  simp only [Nat.testBit_and, Nat.zero_testBit]
  revert h1 h2
  cases f.testBit i <;> cases e.testBit i <;> cases T.testBit i <;> simp

theorem flag_rows_in_table :
    (∀ b ∈ ace_flag_bits, b.e_flag &&& ace_table_bits = b.e_flag) ∧
    (∀ b ∈ acl_flag_bits, b.a_flag &&& acl_table_bits = b.a_flag) := by
  decide

theorem write_ace_flags_loop_unknown (fmt f : Nat) : ∀ (bs : List AceFlagBit) (cont : Bool),
    (∀ b ∈ bs, f &&& b.e_flag = 0) →
    write_ace_flags_loop fmt bs f cont
      = if f != 0 then (if cont then ['/'] else []) ++ ('0' :: 'x' :: fmt_x f) else [] := by
  intro bs
  induction bs with
  | nil => intro cont _; rfl
  | cons b bs ih =>
    intro cont h
    rw [write_ace_flags_loop]
    have hb : (f &&& b.e_flag == 0) = true := by simp [h b (List.mem_cons_self _ _)]
    rw [if_pos hb]
    exact ih cont (fun q hq => h q (List.mem_cons_of_mem _ hq))

theorem write_acl_flags_loop_unknown (fmt f : Nat) : ∀ (bs : List AclFlagBit) (cont : Bool),
    (∀ b ∈ bs, f &&& b.a_flag = 0) →
    write_acl_flags_loop fmt bs f cont
      = if f != 0 then (if cont then ['/'] else []) ++ ('0' :: 'x' :: fmt_x f) else [] := by
  intro bs
  induction bs with
  | nil => intro cont _; rfl
  | cons b bs ih =>
    intro cont h
    rw [write_acl_flags_loop]
    have hb : (f &&& b.a_flag == 0) = true := by simp [h b (List.mem_cons_self _ _)]
    rw [if_pos hb]
    exact ih cont (fun q hq => h q (List.mem_cons_of_mem _ hq))

theorem hex_no_sep (v : Nat) :
    ∀ c ∈ ('0' :: 'x' :: fmt_x v), (c == ':' || c == ',' || isspace c) = false := by
  intro c h
  simp only [List.mem_cons] at h
  rcases h with h | h | h
  · subst h; decide
  · subst h; decide
  · rcases fmt_digits_mem 16 (by omega) (by omega) _ _ _ _ h with h | ⟨d, hd, h⟩
    · simp at h
    · subst h
      obtain ⟨_, h2, _, h4⟩ := digit_char_plain d hd
      have e1 : (digit_char d == ':') = false := by simpa using h2
      unfold is_sep at h4
      simp only [Bool.or_eq_false_iff] at h4
      simp [e1, h4.1, h4.2]

theorem flags_carried_cases (T w f : Nat) (h : flags_carried T w f = true) :
    andNot f T = 0 ∨ (f ≠ 0 ∧ f &&& T = 0 ∧ f < 2 ^ w) := by
  unfold flags_carried at h
  simp only [Bool.or_eq_true, Bool.and_eq_true, beq_iff_eq, decide_eq_true_eq] at h
  rcases h with h | ⟨h1, h2⟩
  · exact Or.inl h
  · by_cases h0 : f = 0
    · left; subst h0; simp [andNot]
    · exact Or.inr ⟨h0, h1, h2⟩

theorem ace_flags_carried_round_trip (f fmt : Nat)
    (h : flags_carried ace_table_bits 16 f = true) (ace : richace) :
    ace_flags_from_text (write_ace_flags_loop fmt ace_flag_bits f false) ace
      = some { ace with e_flags := f } ∧
    ':' ∉ write_ace_flags_loop fmt ace_flag_bits f false := by
  rcases flags_carried_cases _ _ _ h with h | ⟨h0, hz, hlt⟩
  · exact ace_flags_table_round_trip f fmt h ace
  · have hne : (f != 0) = true := by simpa using h0
    have hrows : ∀ b ∈ ace_flag_bits, f &&& b.e_flag = 0 :=
      fun b hb => land_zero_of_sub f _ _ hz (flag_rows_in_table.1 b hb)
    rw [write_ace_flags_loop_unknown fmt f ace_flag_bits false hrows]
    simp only [hne, if_true, Bool.false_eq_true, if_false, List.nil_append]
    refine ⟨?_, hex_no_colon f⟩
    unfold ace_flags_from_text
    rw [run_tokens_tok _ _ 0 (by simp) (hex_no_slash f)]
    have hs := strtoul_hex f (by unfold ULONG_MAX; omega)
    simp only [ace_flags_token, hs, List.isEmpty_nil, if_true, Nat.zero_or,
      Nat.mod_eq_of_lt hlt]

theorem acl_flags_carried_round_trip (f fmt : Nat)
    (h : flags_carried acl_table_bits 8 f = true) :
    acl_flags_from_text (write_acl_flags_loop fmt acl_flag_bits f false) = some f ∧
    ∀ c ∈ write_acl_flags_loop fmt acl_flag_bits f false,
      (c == ':' || c == ',' || isspace c) = false := by
  rcases flags_carried_cases _ _ _ h with h | ⟨h0, hz, hlt⟩
  · exact acl_flags_table_round_trip f fmt h
  · have hne : (f != 0) = true := by simpa using h0
    have hrows : ∀ b ∈ acl_flag_bits, f &&& b.a_flag = 0 :=
      fun b hb => land_zero_of_sub f _ _ hz (flag_rows_in_table.2 b hb)
    rw [write_acl_flags_loop_unknown fmt f acl_flag_bits false hrows]
    simp only [hne, if_true, Bool.false_eq_true, if_false, List.nil_append]
    refine ⟨?_, hex_no_sep f⟩
    unfold acl_flags_from_text
    rw [run_tokens_tok _ _ 0 (by simp) (hex_no_slash f)]
    have hs := strtoul_hex f (by unfold ULONG_MAX; omega)
    simp only [acl_flags_token, hs, List.isEmpty_nil, if_true, Nat.zero_or,
      Nat.mod_eq_of_lt hlt]

theorem flags_line_read_back (R : Resolver) (F align fmt : Nat)
    (hF : flags_carried acl_table_bits 8 F = true) (t : Str) :
    from_text_run R (write_acl_flags F align fmt ++ t) ⟨0, 0, 0, 0, []⟩ 0
      = from_text_run R t ⟨F, 0, 0, 0, []⟩ (if F = 0 then 0 else RICHACL_TEXT_FLAGS) := by
  by_cases h0 : F = 0
  · subst h0
    rfl
  · have hb : (F == 0) = false := by simpa using h0
    obtain ⟨r1, r2⟩ := acl_flags_carried_round_trip F fmt hF
    have e : write_acl_flags F align fmt ++ t = pad align "flags".toList ++
        (':' :: (write_acl_flags_loop fmt acl_flag_bits F false ++ '\n' :: t)) := by
      simp [write_acl_flags, hb]
    rw [e, from_text_run_pad,
      from_text_run_entry R _ _ _ (by simp) (by intro c hc; simp at hc; subst hc; decide),
      from_text_entry_flags R "flags".toList _ ('\n' :: t) _ _ (by decide) (by decide) r2
        (by intro c hc; simp at hc; subst hc; decide), r1]
    simp only [Option.map, Option.bind, h0, if_false]
    rw [from_text_run_sep R '\n' t _ _ (by decide)]
    rfl

/-! ## The text of a mask has no separator -/

theorem sep_of_field_sep (c : Char) (h : (c == ':' || c == ',' || isspace c) = false) :
    (c == ',' || isspace c) = false := by
  revert h
  cases c == ':' <;> cases c == ',' <;> cases isspace c <;> simp

theorem mask_names_no_sep : ∀ r ∈ mask_flags, ∀ c ∈ r.e_name,
    (c == ':' || c == ',' || isspace c) = false := by
  decide

theorem mask_chars_no_sep : ∀ r ∈ mask_flags,
    (r.e_char == ':' || r.e_char == ',' || isspace r.e_char) = false := by
  decide

theorem write_mask_loop_no_sep (fmt : Nat) : ∀ rs, (∀ r ∈ rs, r ∈ mask_flags) →
    ∀ nondir dir sw, ∀ c ∈ write_mask_loop fmt rs nondir dir sw,
      (c == ':' || c == ',' || isspace c) = false := by
  have hsl : ∀ (sw : Bool), ∀ c ∈ (if sw then ['/'] else []),
      (c == ':' || c == ',' || isspace c) = false := by
    intro sw c hc
    cases sw
    · simp at hc
    · simp at hc; subst hc; decide
  intro rs
  induction rs with
  | nil =>
    intro _ nondir dir sw c h
    unfold write_mask_loop at h
    split at h
    · rcases List.mem_append.1 h with h | h
      · exact hsl sw c h
      · exact hex_no_sep _ c h
    · simp at h
  | cons r rs ih =>
    intro hrs nondir dir sw c h
    have hr : r ∈ mask_flags := hrs r (List.mem_cons_self _ _)
    have hrs2 : ∀ q ∈ rs, q ∈ mask_flags := fun q hq => hrs q (List.mem_cons_of_mem _ hq)
    rw [write_mask_loop] at h
    split at h
    · exact ih hrs2 _ _ _ c h
    · split at h
      · split at h
        · rcases List.mem_append.1 h with h | h
          · rcases List.mem_append.1 h with h | h
            · exact hsl sw c h
            · exact mask_names_no_sep r hr c h
          · exact ih hrs2 _ _ _ c h
        · rcases List.mem_cons.1 h with h | h
          · subst h; exact mask_chars_no_sep r hr
          · exact ih hrs2 _ _ _ c h
      · split at h
        · rcases List.mem_cons.1 h with h | h
          · subst h; decide
          · exact ih hrs2 _ _ _ c h
        · exact ih hrs2 _ _ _ c h

theorem write_mask_no_sep (m fmt : Nat) :
    ∀ c ∈ write_mask m fmt, (c == ',' || isspace c) = false := by
  intro c h
  unfold write_mask at h
  exact sep_of_field_sep c (write_mask_loop_no_sep _ _ (fun _ h => h) _ _ _ c h)

/-! ## Names of a consistent identity directory -/

theorem who_resolved_facts (lookup : Str → Option Nat) (name : Str) (id : Nat)
    (h : who_resolved lookup name id = true) :
    ':' ∉ name.dropWhile is_sep ∧ '@' ∉ name.dropWhile is_sep ∧
    (∀ c ∈ (name.dropWhile is_sep).head?, is_sep c = false) ∧
    ((strtoul (name.dropWhile is_sep)).2.isEmpty = true →
      (strtoul (name.dropWhile is_sep)).1 % 2 ^ 32 = id) ∧
    ((strtoul (name.dropWhile is_sep)).2.isEmpty = false →
      lookup (name.dropWhile is_sep) = some id) := by
  unfold who_resolved at h
  simp only [Bool.and_eq_true, List.all_eq_true, bne_iff_ne, ne_eq] at h
  obtain ⟨h1, h2⟩ := h
  refine ⟨fun hc => (h1 _ hc).1 rfl, fun hc => (h1 _ hc).2 rfl, ?_, ?_, ?_⟩
  · intro c hc
    have := dropWhile_sep_head name c hc
    exact this
  · intro he
    rw [if_pos he] at h2
    simpa using h2
  · intro he
    rw [if_neg (by simp [he])] at h2
    simpa using h2

theorem identifier_carried_read_back (R : Resolver) (a : richace) (align fmt m : Nat)
    (hid : a.e_id < 2 ^ 32)
    (hsp : (a.e_flags &&& ACE4_SPECIAL_WHO != 0) = true → ∃ p ∈ special_whos, p.1 = a.e_id)
    (hres : (fmt &&& RICHACL_TEXT_NUMERIC_IDS != 0) = true ∨ entry_resolved R a = true) :
    ∃ txt, (∀ (rest : Str) (acl : richacl) (fl : Nat),
        from_text_run R (write_identifier R a align fmt ++ ':' :: rest) acl fl
          = from_text_run R (txt ++ ':' :: rest) acl fl) ∧
      ':' ∉ txt ∧ (∀ c ∈ txt.head?, is_sep c = false) ∧
      identifier_from_text R txt ⟨0, andNot a.e_flags ACE4_SPECIAL_WHO, m, 0⟩
        = some ⟨0, a.e_flags, m, a.e_id⟩ := by
  -- a text written as it is read: a special identity or a number
  have plain : ∀ W : Str, (∃ txt, W = pad align txt ∧
        ':' ∉ txt ∧ (∀ c ∈ txt.head?, is_sep c = false) ∧ txt ≠ [] ∧
        strcasecmp txt "FLAGS".toList = false ∧
        identifier_from_text R txt ⟨0, andNot a.e_flags ACE4_SPECIAL_WHO, m, 0⟩
          = some ⟨0, a.e_flags, m, a.e_id⟩) →
      ∃ txt, (∀ (rest : Str) (acl : richacl) (fl : Nat),
        from_text_run R (W ++ ':' :: rest) acl fl
          = from_text_run R (txt ++ ':' :: rest) acl fl) ∧
      ':' ∉ txt ∧ (∀ c ∈ txt.head?, is_sep c = false) ∧
      identifier_from_text R txt ⟨0, andNot a.e_flags ACE4_SPECIAL_WHO, m, 0⟩
        = some ⟨0, a.e_flags, m, a.e_id⟩ := by
    intro W hW
    obtain ⟨txt, h1, h2, h3, _, _, h6⟩ := hW
    refine ⟨txt, ?_, h2, h3, h6⟩
    intro rest acl fl
    rw [h1, from_text_run_pad]
  have numeric := identifier_read_back R a align RICHACL_TEXT_NUMERIC_IDS m hid hsp (by decide)
  by_cases hs : (a.e_flags &&& ACE4_SPECIAL_WHO != 0) = true
  · apply plain
    simp only [write_identifier, hs, if_true] at numeric ⊢
    exact numeric
  · have hs2 : (a.e_flags &&& ACE4_SPECIAL_WHO != 0) = false := by simpa using hs
    have hclear := special_bit_clear _ hs2
    have number : ∃ txt, pad align (fmt_d a.e_id) = pad align txt ∧
        ':' ∉ txt ∧ (∀ c ∈ txt.head?, is_sep c = false) ∧ txt ≠ [] ∧
        strcasecmp txt "FLAGS".toList = false ∧
        identifier_from_text R txt ⟨0, andNot a.e_flags ACE4_SPECIAL_WHO, m, 0⟩
          = some ⟨0, a.e_flags, m, a.e_id⟩ := by
      have e : write_identifier R a align RICHACL_TEXT_NUMERIC_IDS = pad align (fmt_d a.e_id) := by
        have hn0 : (RICHACL_TEXT_NUMERIC_IDS &&& RICHACL_TEXT_NUMERIC_IDS == 0) = false := by
          decide
        simp only [write_identifier, hs2, hn0, Bool.false_eq_true, if_false]
        split <;> rfl
      rw [e] at numeric
      exact numeric
    -- a name, written when the directory has one
    have named : ∀ (name : Str) (lookup : Str → Option Nat),
        who_resolved lookup name a.e_id = true →
        (∀ w, (if (a.e_flags &&& ACE4_IDENTIFIER_GROUP != 0) = true then R.getgrnam w
          else R.getpwnam w) = lookup w) →
        ∃ txt, (∀ (rest : Str) (acl : richacl) (fl : Nat),
          from_text_run R (pad align name ++ ':' :: rest) acl fl
            = from_text_run R (txt ++ ':' :: rest) acl fl) ∧
        ':' ∉ txt ∧ (∀ c ∈ txt.head?, is_sep c = false) ∧
        identifier_from_text R txt ⟨0, andNot a.e_flags ACE4_SPECIAL_WHO, m, 0⟩
          = some ⟨0, a.e_flags, m, a.e_id⟩ := by
      intro name lookup hname hlook
      obtain ⟨n1, n2, n3, n4, n5⟩ := who_resolved_facts lookup name a.e_id hname
      refine ⟨name.dropWhile is_sep, ?_, n1, n3, ?_⟩
      · intro rest acl fl
        have hcolon : is_sep ':' = false := by decide
        rw [from_text_run_pad, from_text_run_dropWhile,
          (dropWhile_append_stop is_sep ':' rest hcolon name).1,
          from_text_run_dropWhile R (name.dropWhile is_sep ++ ':' :: rest),
          (dropWhile_append_stop is_sep ':' rest hcolon (name.dropWhile is_sep)).1,
          List.dropWhile_idempotent]
      · rw [hclear]
        unfold identifier_from_text
        rw [strchr_split_none _ _ n2]
        cases he : (strtoul (name.dropWhile is_sep)).2.isEmpty with
        | true =>
          simp only [if_true, n4 he]
        | false =>
          simp only [Bool.false_eq_true, if_false]
          have hl := n5 he
          rw [← hlook] at hl
          by_cases hg : (a.e_flags &&& ACE4_IDENTIFIER_GROUP != 0) = true
          · simp only [hg, if_true] at hl ⊢
            rw [hl]
          · simp only [hg, Bool.false_eq_true, if_false] at hl ⊢
            rw [hl]
    by_cases hn : (fmt &&& RICHACL_TEXT_NUMERIC_IDS != 0) = true
    · have hn0 : (fmt &&& RICHACL_TEXT_NUMERIC_IDS == 0) = false := by simpa [bne] using hn
      apply plain
      simp only [write_identifier, hs2, hn0, Bool.false_eq_true, if_false]
      split <;> exact number
    · have hn0 : (fmt &&& RICHACL_TEXT_NUMERIC_IDS == 0) = true := by
        have : (fmt &&& RICHACL_TEXT_NUMERIC_IDS != 0) = false := by simpa using hn
        rw [beq_zero_of_bne, this]; rfl
      have hr : entry_resolved R a = true := by
        rcases hres with h | h
        · exact absurd h hn
        · exact h
      unfold entry_resolved at hr
      simp only [hs2, Bool.false_or] at hr
      simp only [write_identifier, hs2, hn0, Bool.false_eq_true, if_false, if_true]
      by_cases hg : (a.e_flags &&& ACE4_IDENTIFIER_GROUP != 0) = true
      · simp only [hg, if_true] at hr ⊢
        cases hq : R.getgrgid a.e_id with
        | none => exact plain _ number
        | some name =>
          rw [hq] at hr
          exact named name _ hr (fun w => by rw [if_pos hg])
      · simp only [hg, Bool.false_eq_true, if_false] at hr ⊢
        cases hq : R.getpwuid a.e_id with
        | none => exact plain _ number
        | some name =>
          rw [hq] at hr
          exact named name _ hr (fun w => by rw [if_neg hg])

/-! ## Masks under simplify -/

theorem andNot_of_disjoint (m A : Nat) (h : m &&& A = 0) : andNot m A = m := by
  simp [andNot, h]

theorem land_of_andNot_zero (m A : Nat) (h : andNot m A = 0) : m &&& A = m := by
  apply Nat.eq_of_testBit_eq
  intro i
  have := congrArg (fun x => x.testBit i) h
  simp only [testBit_andNot, Nat.zero_testBit] at this
  rw [Nat.testBit_and]
  cases hm : m.testBit i <;> cases hA : A.testBit i <;> simp [hm, hA] at this ⊢

theorem write_mask_loop_simplify_off (fmt : Nat) : ∀ rs,
    (∀ r ∈ rs, r.e_mask &&& ACE4_POSIX_ALWAYS_ALLOWED = 0) → ∀ nondir dir sw,
      write_mask_loop fmt rs nondir dir sw
        = write_mask_loop (andNot fmt RICHACL_TEXT_SIMPLIFY) rs nondir dir sw := by
  intro rs
  induction rs with
  | nil => intro _ nondir dir sw; simp [write_mask_loop]
  | cons r rs ih =>
    intro h nondir dir sw
    have hz := h r (List.mem_cons_self _ _)
    have ih2 := ih (fun x hx => h x (List.mem_cons_of_mem _ hx))
    have hL : (andNot fmt RICHACL_TEXT_SIMPLIFY &&& RICHACL_TEXT_LONG != 0)
        = (fmt &&& RICHACL_TEXT_LONG != 0) := by
      rw [bit_long, bit_long, testBit_andNot]
      have : RICHACL_TEXT_SIMPLIFY.testBit 0 = false := by decide
      simp [this]
    have hA : (andNot fmt RICHACL_TEXT_SIMPLIFY &&& RICHACL_TEXT_ALIGN != 0)
        = (fmt &&& RICHACL_TEXT_ALIGN != 0) := by
      rw [bit_align, bit_align, testBit_andNot]
      have : RICHACL_TEXT_SIMPLIFY.testBit 5 = false := by decide
      simp [this]
    have hz2 : (r.e_mask &&& ACE4_POSIX_ALWAYS_ALLOWED != 0) = false := by simp [hz]
    rw [write_mask_loop, write_mask_loop]
    simp only [hz2, Bool.and_false, Bool.false_eq_true, if_false, beq_zero_of_bne, hL, hA]
    simp only [ih2]

theorem visible_rows_facts : ∀ r ∈ visible_rows,
    r ∈ mask_flags ∧ r.e_mask &&& ACE4_POSIX_ALWAYS_ALLOWED = 0 := by
  intro r hr
  unfold visible_rows at hr
  rw [List.mem_filter] at hr
  exact ⟨hr.1, by simpa using hr.2⟩

theorem write_mask_short_parse_rows (fmt : Nat)
    (hl : (fmt &&& RICHACL_TEXT_LONG != 0) = false)
    (hs : (fmt &&& RICHACL_TEXT_SIMPLIFY != 0) = false) (rs : List MaskFlag)
    (hrs : ∀ r ∈ rs, r ∈ mask_flags) (m : Nat) (hm : m < 2 ^ 32) :
    run_tokens mask_token (write_mask_loop fmt rs m 0 false) 0 = some m := by
  obtain ⟨L, c, v, h1, h2, h3, h4, h5, h6⟩ :=
    write_mask_short_shape fmt hl hs rs hrs m false hm
  rw [h1]
  by_cases hL : L = []
  · subst hL
    have hc : c = 0 := by
      have := h3 0
      simp [mask_chars] at this
      exact this.symm
    subst hc
    simp only [Nat.zero_or] at h4
    subst h4
    simp only [List.nil_append, List.isEmpty_nil, Bool.not_true, Bool.or_false,
      Bool.false_eq_true, if_false]
    split
    · rw [run_tokens_tok _ _ _ (by simp) (hex_no_slash _), mask_token_hex _ _ h5 (by omega)]
      simp
    · rename_i hv
      have : v = 0 := by simpa using hv
      subst this; rfl
  · have hne : L.isEmpty = false := by
      cases L with
      | nil => exact absurd rfl hL
      | cons _ _ => rfl
    simp only [hne, Bool.not_false, Bool.or_true, if_true]
    split
    · rw [List.singleton_append,
        run_tokens_tok_slash _ _ _ _ hL (mask_letters_no_slash L h2),
        mask_token_letters L hL h2, h3]
      simp only [Option.bind, Nat.zero_or]
      rw [run_tokens_tok _ _ _ (by simp) (hex_no_slash _), mask_token_hex _ _ h5 h6, h4]
    · rename_i hv
      have : v = 0 := by simpa using hv
      subst this
      rw [List.append_nil, run_tokens_tok _ _ _ hL (mask_letters_no_slash L h2),
        mask_token_letters L hL h2, h3]
      simp only [Nat.zero_or, Nat.or_zero] at h4 ⊢
      rw [h4]

theorem mask_text_simplify_read_back (m fmt : Nat) (hm : m < 2 ^ 32)
    (hs : fmt &&& RICHACL_TEXT_SIMPLIFY ≠ 0) :
    mask_from_text (write_mask m fmt) = some (andNot m ACE4_POSIX_ALWAYS_ALLOWED) := by
  obtain ⟨b0, _, _, bs, bl⟩ := write_mask_fmt_bits fmt
  have hv := andNot_lt m ACE4_POSIX_ALWAYS_ALLOWED 32 hm
  have hs' : (andNot (write_mask_fmt fmt) RICHACL_TEXT_SIMPLIFY &&& RICHACL_TEXT_SIMPLIFY != 0)
      = false := by
    rw [bit_simplify, testBit_andNot]
    have : RICHACL_TEXT_SIMPLIFY.testBit 4 = true := by decide
    simp [this]
  have hL : (andNot (write_mask_fmt fmt) RICHACL_TEXT_SIMPLIFY &&& RICHACL_TEXT_LONG != 0)
      = fmt.testBit 0 := by
    rw [bit_long, testBit_andNot, b0]
    have : RICHACL_TEXT_SIMPLIFY.testBit 0 = false := by decide
    simp [this]
  rw [simplify_visible m fmt hs,
    write_mask_loop_simplify_off _ _ (fun r hr => (visible_rows_facts r hr).2)]
  unfold mask_from_text
  simp only [bit_file, bit_dir]
  cases h0 : fmt.testBit 0
  · rw [h0] at hL
    obtain ⟨h1, h2⟩ := bs h0
    simp only [h1, h2, if_true, Bool.false_eq_true, if_false]
    exact write_mask_short_parse_rows _ hL hs' _ (fun r hr => (visible_rows_facts r hr).1) _ hv
  · rw [h0] at hL
    rw [write_mask_long_parse _ hL hs' visible_rows (fun r hr => (visible_rows_facts r hr).1)
      _ _ _ 0 (by split <;> omega) (by split <;> omega) (by omega)]
    rcases bl h0 with h | h
    · simp only [h, if_true]
      split
      · simp
      · simp
    · simp only [h, if_true]
      split
      · simp
      · simp

theorem mask_carried_read_back (m fmt : Nat) (hm : m < 2 ^ 32)
    (h : fmt &&& RICHACL_TEXT_SIMPLIFY = 0 ∨ m &&& ACE4_POSIX_ALWAYS_ALLOWED = 0) :
    mask_from_text (write_mask m fmt) = some m := by
  by_cases hs : fmt &&& RICHACL_TEXT_SIMPLIFY = 0
  · exact mask_text_read_back m fmt hm hs
  · have hz : m &&& ACE4_POSIX_ALWAYS_ALLOWED = 0 := by
      rcases h with h | h
      · exact absurd h hs
      · exact h
    rw [mask_text_simplify_read_back m fmt hm hs, andNot_of_disjoint m _ hz]

theorem masks_loop_allowed : ∀ (es : List richace) (allowed fmt2 : Nat),
    (masks_loop es allowed fmt2).1 = allowed ||| allowed_permissions es := by
  intro es
  induction es with
  | nil => intro allowed fmt2; simp [masks_loop, allowed_permissions]
  | cons a es ih =>
    intro allowed fmt2
    unfold masks_loop allowed_permissions
    cases h1 : richace_is_inherit_only a
    · cases h2 : richace_is_allow a
      · simp only [Bool.not_false, Bool.true_and, Bool.false_eq_true, if_false]
        rw [ih]
      · simp only [Bool.not_false, Bool.true_and, if_true, Bool.false_eq_true, if_false]
        rw [ih, Nat.lor_assoc]
    · simp only [if_true, Bool.not_true, Bool.false_and, Bool.false_eq_true, if_false]
      rw [ih]

/-! ## The round trip of a record that the text form carries -/

theorem from_text_run_mask_lines (R : Resolver) (align F2 M1 M2 M3 : Nat)
    (m1 : mask_from_text (write_mask M1 F2) = some M1)
    (m2 : mask_from_text (write_mask M2 F2) = some M2)
    (m3 : mask_from_text (write_mask M3 F2) = some M3) (t : Str) (st : richacl) (fl : Nat) :
    from_text_run R
      (pad align "owner".toList ++ (':' :: (write_mask M1 F2 ++ ':' :: ([] ++ ':' ::
        ("mask".toList ++ '\n' ::
      (pad align "group".toList ++ (':' :: (write_mask M2 F2 ++ ':' :: ([] ++ ':' ::
        ("mask".toList ++ '\n' ::
      (pad align "other".toList ++ (':' :: (write_mask M3 F2 ++ ':' :: ([] ++ ':' ::
        ("mask".toList ++ '\n' :: t))))))))))))))) st fl
      = from_text_run R t
          { st with a_owner_mask := M1, a_group_mask := M2, a_other_mask := M3 }
          (fl ||| RICHACL_TEXT_OWNER_MASK ||| RICHACL_TEXT_GROUP_MASK |||
            RICHACL_TEXT_OTHER_MASK) := by
  have k : strcasecmp "mask".toList "MASK".toList = true := by decide
  rw [from_text_run_mask_line R align _ _ _ _ _ (by decide) (by decide) (by decide) (by decide)
    (write_mask_no_colon _ _)]
  have f1 : from_text_fields R "owner".toList (write_mask M1 F2) [] "mask".toList st fl
      = some ({ st with a_owner_mask := M1 }, fl ||| RICHACL_TEXT_OWNER_MASK) := by
    have k1 : strcasecmp "owner".toList "OWNER".toList = true := by decide
    simp only [from_text_fields, m1, k, k1, if_true]
  rw [f1]
  simp only [Option.bind]
  rw [from_text_run_mask_line R align _ _ _ _ _ (by decide) (by decide) (by decide) (by decide)
    (write_mask_no_colon _ _)]
  have f2 : ∀ (st : richacl) (fl : Nat), from_text_fields R "group".toList
      (write_mask M2 F2) [] "mask".toList st fl
      = some ({ st with a_group_mask := M2 }, fl ||| RICHACL_TEXT_GROUP_MASK) := by
    intro st fl
    have k1 : strcasecmp "group".toList "OWNER".toList = false := by decide
    have k2 : strcasecmp "group".toList "GROUP".toList = true := by decide
    simp only [from_text_fields, m2, k, k1, k2, if_true, Bool.false_eq_true, if_false]
  rw [f2]
  simp only [Option.bind]
  rw [from_text_run_mask_line R align _ _ _ _ _ (by decide) (by decide) (by decide) (by decide)
    (write_mask_no_colon _ _)]
  have f3 : ∀ (st : richacl) (fl : Nat), from_text_fields R "other".toList
      (write_mask M3 F2) [] "mask".toList st fl
      = some ({ st with a_other_mask := M3 }, fl ||| RICHACL_TEXT_OTHER_MASK) := by
    intro st fl
    have k1 : strcasecmp "other".toList "OWNER".toList = false := by decide
    have k2 : strcasecmp "other".toList "GROUP".toList = false := by decide
    have k3 : strcasecmp "other".toList "OTHER".toList = true := by decide
    simp only [from_text_fields, m3, k, k1, k2, k3, if_true, Bool.false_eq_true, if_false]
  rw [f3]
  rfl

theorem lor_land_zero (x y A : Nat) (hx : x &&& A = 0) (hy : y &&& A = 0) :
    (x ||| y) &&& A = 0 := by
  apply Nat.eq_of_testBit_eq
  intro i
  have e1 := land_eq_zero_bits x A hx i
  have e2 := land_eq_zero_bits y A hy i
  rw [Nat.testBit_and, Nat.testBit_or, Nat.zero_testBit]
  cases hxi : x.testBit i <;> cases hyi : y.testBit i <;> cases hA : A.testBit i <;>
    simp [hxi, hyi, hA] at e1 e2 ⊢

theorem allowed_permissions_disjoint (A : Nat) : ∀ (es : List richace),
    (∀ a ∈ es, a.e_mask &&& A = 0) → allowed_permissions es &&& A = 0 := by
  intro es
  induction es with
  | nil => intro _; simp [allowed_permissions]
  | cons a es ih =>
    intro h
    have h1 := h a (List.mem_cons_self _ _)
    have h2 := ih (fun b hb => h b (List.mem_cons_of_mem _ hb))
    unfold allowed_permissions
    split
    · exact lor_land_zero _ _ A h1 h2
    · exact h2

theorem land_zero_of_within (m B A : Nat) (h : andNot m B = 0) (hB : B &&& A = 0) :
    m &&& A = 0 := by
  rw [← land_of_andNot_zero m B h, Nat.land_assoc, hB, Nat.and_zero]

theorem simplify_carried_facts (acl : richacl) (h : simplify_carried acl = true) :
    (∀ a ∈ acl.a_entries, a.e_mask &&& ACE4_POSIX_ALWAYS_ALLOWED = 0) ∧
    (∀ m, m = acl.a_owner_mask ∨ m = acl.a_group_mask ∨ m = acl.a_other_mask →
      m &&& ACE4_POSIX_ALWAYS_ALLOWED = 0 ∧
      andNot m (allowed_permissions acl.a_entries) = 0) := by
  unfold simplify_carried at h
  simp only [Bool.and_eq_true, List.all_eq_true, beq_iff_eq, List.mem_cons, List.mem_singleton,
    List.not_mem_nil, or_false] at h
  refine ⟨h.1, fun m hm => ⟨?_, h.2 m hm⟩⟩
  exact land_zero_of_within m _ _ (h.2 m hm) (allowed_permissions_disjoint _ _ h.1)

theorem masks_read_back (R : Resolver) (acl : richacl) (align fmt : Nat)
    (hm : fmt &&& RICHACL_TEXT_SHOW_MASKS ≠ 0 ∨
      (acl.a_owner_mask = 0 ∧ acl.a_group_mask = 0 ∧ acl.a_other_mask = 0))
    (hs : fmt &&& RICHACL_TEXT_SIMPLIFY = 0 ∨ simplify_carried acl = true)
    (h1 : acl.a_owner_mask < 2 ^ 32) (h2 : acl.a_group_mask < 2 ^ 32)
    (h3 : acl.a_other_mask < 2 ^ 32) (t : Str) (F : Nat) (fl : Nat) :
    ∃ fl2, from_text_run R (write_masks acl align fmt ++ t) ⟨F, 0, 0, 0, []⟩ fl
      = from_text_run R t ⟨F, acl.a_owner_mask, acl.a_group_mask, acl.a_other_mask, []⟩ fl2 := by
  by_cases hshow : (fmt &&& RICHACL_TEXT_SHOW_MASKS != 0) = true
  · have key : ∀ M, M < 2 ^ 32 →
        (M = acl.a_owner_mask ∨ M = acl.a_group_mask ∨ M = acl.a_other_mask) →
        M &&& (if (fmt &&& RICHACL_TEXT_SIMPLIFY == 0) = true then 0xffffffff
          else (masks_loop acl.a_entries 0 fmt).1) = M ∧
        mask_from_text (write_mask M (masks_loop acl.a_entries 0 fmt).2) = some M := by
      intro M hM hin
      by_cases hz : fmt &&& RICHACL_TEXT_SIMPLIFY = 0
      · have hb : (fmt &&& RICHACL_TEXT_SIMPLIFY == 0) = true := by simp [hz]
        have h4 : fmt.testBit 4 = false := by rw [← bit_simplify, hz]; rfl
        refine ⟨by rw [if_pos hb]; exact land_mask32 M hM, ?_⟩
        exact mask_carried_read_back M _ hM
          (Or.inl (simplify_zero_of_bit _ (by rw [masks_loop_simplify]; exact h4)))
      · have hb : ¬ (fmt &&& RICHACL_TEXT_SIMPLIFY == 0) = true := by simpa using hz
        have hc : simplify_carried acl = true := by
          rcases hs with h | h
          · exact absurd h hz
          · exact h
        obtain ⟨c1, c2⟩ := (simplify_carried_facts acl hc).2 M hin
        refine ⟨?_, mask_carried_read_back M _ hM (Or.inr c1)⟩
        rw [if_neg hb, masks_loop_allowed, Nat.zero_or]
        exact land_of_andNot_zero M _ c2
    obtain ⟨a1, b1⟩ := key _ h1 (Or.inl rfl)
    obtain ⟨a2, b2⟩ := key _ h2 (Or.inr (Or.inl rfl))
    obtain ⟨a3, b3⟩ := key _ h3 (Or.inr (Or.inr rfl))
    refine ⟨fl ||| RICHACL_TEXT_OWNER_MASK ||| RICHACL_TEXT_GROUP_MASK |||
      RICHACL_TEXT_OTHER_MASK, ?_⟩
    have e : write_masks acl align fmt ++ t =
        pad align "owner".toList ++ (':' :: (write_mask acl.a_owner_mask
          (masks_loop acl.a_entries 0 fmt).2 ++ ':' :: ([] ++ ':' :: ("mask".toList ++ '\n' ::
        (pad align "group".toList ++ (':' :: (write_mask acl.a_group_mask
          (masks_loop acl.a_entries 0 fmt).2 ++ ':' :: ([] ++ ':' :: ("mask".toList ++ '\n' ::
        (pad align "other".toList ++ (':' :: (write_mask acl.a_other_mask
          (masks_loop acl.a_entries 0 fmt).2 ++ ':' :: ([] ++ ':' :: ("mask".toList ++ '\n' ::
            t)))))))))))))) := by
      simp only [write_masks, hshow, if_true]
      rw [a1, a2, a3]
      simp
    rw [e]
    exact from_text_run_mask_lines R align _ _ _ _ b1 b2 b3 t _ fl
  · have hz : acl.a_owner_mask = 0 ∧ acl.a_group_mask = 0 ∧ acl.a_other_mask = 0 := by
      rcases hm with h | h
      · exact absurd (by simpa using h) hshow
      · exact h
    refine ⟨fl, ?_⟩
    simp only [write_masks, hshow, Bool.false_eq_true, if_false, List.nil_append, hz.1, hz.2.1,
      hz.2.2]

theorem entry_carried_facts (a : richace) (h : entry_carried a = true) :
    a.e_type < 2 ^ 16 ∧ a.e_mask < 2 ^ 32 ∧ a.e_id < 2 ^ 32 ∧
    flags_carried ace_table_bits 16 (andNot a.e_flags ACE4_SPECIAL_WHO) = true ∧
    ((a.e_flags &&& ACE4_SPECIAL_WHO != 0) = true → ∃ p ∈ special_whos, p.1 = a.e_id) := by
  unfold entry_carried at h
  simp only [Bool.and_eq_true, decide_eq_true_eq, beq_iff_eq, Bool.or_eq_true,
    List.any_eq_true] at h
  obtain ⟨⟨⟨⟨h1, h2⟩, h3⟩, h4⟩, h5⟩ := h
  refine ⟨h1, h2, h3, h4, ?_⟩
  intro hs
  rcases h5 with h5 | ⟨p, hp, hpe⟩
  · rw [h5] at hs; simp at hs
  · exact ⟨p, hp, hpe⟩

theorem entry_carried_line (R : Resolver) (a : richace) (align fmt : Nat)
    (hc : entry_carried a = true)
    (hres : (fmt &&& RICHACL_TEXT_NUMERIC_IDS != 0) = true ∨ entry_resolved R a = true)
    (hs : fmt &&& RICHACL_TEXT_SIMPLIFY = 0 ∨ a.e_mask &&& ACE4_POSIX_ALWAYS_ALLOWED = 0)
    (t : Str) (acl : richacl) (fl : Nat) :
    from_text_run R (write_entry R a align fmt ++ t) acl fl
      = from_text_run R t { acl with a_entries := acl.a_entries ++ [a] } fl := by
  obtain ⟨ht, hm, hid, hfl, hsp⟩ := entry_carried_facts a hc
  obtain ⟨txt, hw, w1, w2, w5⟩ :=
    identifier_carried_read_back R a align fmt a.e_mask hid hsp hres
  have hmask := mask_carried_read_back a.e_mask (entry_fmt a fmt) hm
    (by
      rcases hs with h | h
      · refine Or.inl (simplify_zero_of_bit _ ?_)
        rw [entry_fmt_simplify, ← bit_simplify, h]; rfl
      · exact Or.inr h)
  have hflags := ace_flags_carried_round_trip (andNot a.e_flags ACE4_SPECIAL_WHO)
    (entry_fmt a fmt) hfl ⟨0, 0, a.e_mask, 0⟩
  have htype := type_from_text_write_type a.e_type ht ⟨0, a.e_flags, a.e_mask, a.e_id⟩
  have htf := write_type_field a.e_type ht
  have e : write_entry R a align fmt ++ t = write_identifier R a align fmt ++
      (':' :: (write_mask a.e_mask (entry_fmt a fmt) ++ ':' ::
        (write_ace_flags a.e_flags (entry_fmt a fmt) ++ ':' ::
          (write_type a.e_type ++ '\n' :: t)))) := by
    simp [write_entry]
  rw [e, hw]
  rw [from_text_run_entry R _ acl fl (by cases txt <;> simp)
    (by
      intro c hc
      cases txt with
      | nil =>
        have : c = ':' := by simpa using hc.symm
        subst this; decide
      | cons x tl => exact w2 c (by simpa using hc))]
  rw [from_text_entry_fields R txt (write_mask a.e_mask (entry_fmt a fmt))
    (write_ace_flags a.e_flags (entry_fmt a fmt)) (write_type a.e_type) ('\n' :: t) acl fl w1
    (write_mask_no_colon _ _) hflags.2 htf.1 (by intro c hc; simp at hc; subst hc; decide)
    (fun _ => write_mask_no_sep _ _)]
  have hff : from_text_fields R txt (write_mask a.e_mask (entry_fmt a fmt))
      (write_ace_flags a.e_flags (entry_fmt a fmt)) (write_type a.e_type) acl fl
      = some ({ acl with a_entries := acl.a_entries ++ [a] }, fl) := by
    unfold from_text_fields
    unfold write_ace_flags
    simp only [hmask, htf.2, hflags.1, w5, htype.1, Bool.false_eq_true, if_false]
  rw [hff]
  simp only [Option.map, Option.bind]
  exact from_text_run_sep R '\n' t _ _ (by decide)

theorem entry_carried_lines (R : Resolver) (align fmt : Nat) :
    ∀ (es : List richace), (∀ a ∈ es, entry_carried a = true) →
    (∀ a ∈ es, (fmt &&& RICHACL_TEXT_NUMERIC_IDS != 0) = true ∨ entry_resolved R a = true) →
    (∀ a ∈ es, fmt &&& RICHACL_TEXT_SIMPLIFY = 0 ∨ a.e_mask &&& ACE4_POSIX_ALWAYS_ALLOWED = 0) →
    ∀ (t : Str) (acl : richacl) (fl : Nat),
    from_text_run R (write_entries R align fmt es ++ t) acl fl
      = from_text_run R t { acl with a_entries := acl.a_entries ++ es } fl := by
  intro es
  induction es with
  | nil => intro _ _ _ t acl fl; simp [write_entries]
  | cons a es ih =>
    intro hes hres hsim t acl fl
    simp only [write_entries, List.append_assoc]
    rw [entry_carried_line R a align fmt (hes a (List.mem_cons_self _ _))
        (hres a (List.mem_cons_self _ _)) (hsim a (List.mem_cons_self _ _)),
      ih (fun b hb => hes b (List.mem_cons_of_mem _ hb))
        (fun b hb => hres b (List.mem_cons_of_mem _ hb))
        (fun b hb => hsim b (List.mem_cons_of_mem _ hb))]
    simp

theorem acl_carried_facts (acl : richacl) (h : acl_carried acl = true) :
    flags_carried acl_table_bits 8 acl.a_flags = true ∧ acl.a_owner_mask < 2 ^ 32 ∧
    acl.a_group_mask < 2 ^ 32 ∧ acl.a_other_mask < 2 ^ 32 ∧
    ∀ a ∈ acl.a_entries, entry_carried a = true := by
  unfold acl_carried at h
  simp only [Bool.and_eq_true, decide_eq_true_eq, List.all_eq_true] at h
  obtain ⟨⟨⟨⟨h1, h2⟩, h3⟩, h4⟩, h5⟩ := h
  exact ⟨h1, h2, h3, h4, h5⟩

theorem record_carried_read_back (R : Resolver) (acl : richacl) (fmt : Nat)
    (hs : fmt &&& RICHACL_TEXT_SIMPLIFY = 0 ∨ simplify_carried acl = true)
    (hm : fmt &&& RICHACL_TEXT_SHOW_MASKS ≠ 0 ∨
      (acl.a_owner_mask = 0 ∧ acl.a_group_mask = 0 ∧ acl.a_other_mask = 0))
    (hn : fmt &&& RICHACL_TEXT_NUMERIC_IDS ≠ 0 ∨
      ∀ a ∈ acl.a_entries, entry_resolved R a = true)
    (hc : acl_carried acl = true) :
    (richacl_from_text R (richacl_to_text R acl fmt)).map Prod.fst = some acl := by
  obtain ⟨w1, w2, w3, w4, w5⟩ := acl_carried_facts acl hc
  have hres : ∀ a ∈ acl.a_entries,
      (fmt &&& RICHACL_TEXT_NUMERIC_IDS != 0) = true ∨ entry_resolved R a = true := by
    intro a ha
    rcases hn with h | h
    · exact Or.inl (by simpa using h)
    · exact Or.inr (h a ha)
  have hsim : ∀ a ∈ acl.a_entries,
      fmt &&& RICHACL_TEXT_SIMPLIFY = 0 ∨ a.e_mask &&& ACE4_POSIX_ALWAYS_ALLOWED = 0 := by
    intro a ha
    rcases hs with h | h
    · exact Or.inl h
    · exact Or.inr ((simplify_carried_facts acl h).1 a ha)
  unfold richacl_from_text richacl_to_text
  simp only []
  have e : ∀ (A B C : Str), A ++ B ++ C = A ++ (B ++ (C ++ [])) := by
    intro A B C; simp
  rw [e, flags_line_read_back R _ _ _ w1]
  obtain ⟨fl2, hmasks⟩ := masks_read_back R acl (compute_align R acl fmt) fmt hm hs w2 w3 w4
    (write_entries R (compute_align R acl fmt) fmt acl.a_entries ++ []) acl.a_flags
    (if acl.a_flags = 0 then 0 else RICHACL_TEXT_FLAGS)
  rw [hmasks, entry_carried_lines R _ fmt acl.a_entries w5 hres hsim, from_text_run_nil]
  cases acl
  simp

/-- C1, as amended: the round trip of a record that the text form carries.  Take a record
whose ACL flags are bits of acl_flag_bits only, or an 8-bit value without any bit of that
table, whose three masks are 32-bit values and whose entries have a 16-bit type, a 32-bit
mask, a 32-bit identifier, flags that apart from special_who are bits of ace_flag_bits
only, or a 16-bit value without any bit of that table, and, with special_who, the
identifier of a fixed special identity.  Take a format, short or long, with or without
align, with any contexts.  Let the format have show masks set, or the three masks be
zero.  Let the format have simplify clear, or let no mask of an entry have one of the
always allowed permissions and the three masks hold only permissions of the masks of the
Allow entries that are not inherit only.  Let the format have numeric ids set, or let
every entry without special_who whose identifier has a name in the identity directory be
resolved: the name, after its leading white space and commas, is without colon and at
sign, and is either read in full as a number by strtoul, whose value in 32 bits is the
identifier, or is mapped to the identifier by the directory.  Then richacl_from_text
applied to the text of richacl_to_text succeeds and returns the record: the same ACL
flags, the same three masks and the same entries in the same order. -/
theorem round_trip_carried (R : Resolver) (acl : richacl) (fmt : Nat)
    (hs : fmt &&& RICHACL_TEXT_SIMPLIFY = 0 ∨ simplify_carried acl = true)
    (hm : fmt &&& RICHACL_TEXT_SHOW_MASKS ≠ 0 ∨
      (acl.a_owner_mask = 0 ∧ acl.a_group_mask = 0 ∧ acl.a_other_mask = 0))
    (hn : fmt &&& RICHACL_TEXT_NUMERIC_IDS ≠ 0 ∨
      ∀ a ∈ acl.a_entries, entry_resolved R a = true)
    (hc : acl_carried acl = true) :
    (richacl_from_text R (richacl_to_text R acl fmt)).map Prod.fst = some acl :=
  record_carried_read_back R acl fmt hs hm hn hc

/-- Witness of the amended C1.  In the long form with align and without numeric ids, with
the consistent directory of the user bob and the group staff: a record with an ACL flag
outside the table, three masks, an entry for the special identity group that has the
identifier_group flag, an entry of bob with a flag and a mask bit outside the tables, an
entry of the group staff, and an entry of type 7 for the identifier 2^32 - 1, which has no
name.  In the short form without show masks: a record with zero masks.  With simplify and
show masks in the long form: a record whose masks are within the mask of its Allow entry.
And with a directory that names the user 5 by the number 5. -/
theorem round_trip_carried_witness :
    (richacl_from_text bob_staff (richacl_to_text bob_staff
      ⟨0x40, 0x1f01bf, 0x21, 0x100000,
        [⟨0, 0x4040, 0x1601ff, 1⟩, ⟨1, 0x100, 0x800021, 1000⟩, ⟨0, 0x41, 3, 50⟩,
          ⟨7, 0, 0, 4294967295⟩]⟩
      (RICHACL_TEXT_SHOW_MASKS ||| RICHACL_TEXT_LONG ||| RICHACL_TEXT_ALIGN))).map Prod.fst =
    some ⟨0x40, 0x1f01bf, 0x21, 0x100000,
        [⟨0, 0x4040, 0x1601ff, 1⟩, ⟨1, 0x100, 0x800021, 1000⟩, ⟨0, 0x41, 3, 50⟩,
          ⟨7, 0, 0, 4294967295⟩]⟩ ∧
    (richacl_from_text bob_staff (richacl_to_text bob_staff
      ⟨0, 0, 0, 0, [⟨1, 0, 0x21, 1000⟩]⟩ 0)).map Prod.fst =
    some ⟨0, 0, 0, 0, [⟨1, 0, 0x21, 1000⟩]⟩ ∧
    (richacl_from_text bob_staff (richacl_to_text bob_staff
      ⟨0, 0x21, 1, 0, [⟨0, 0, 0x21, 1000⟩, ⟨1, 0x40, 4, 50⟩]⟩
      (RICHACL_TEXT_SHOW_MASKS ||| RICHACL_TEXT_SIMPLIFY ||| RICHACL_TEXT_LONG))).map
      Prod.fst =
    some ⟨0, 0x21, 1, 0, [⟨0, 0, 0x21, 1000⟩, ⟨1, 0x40, 4, 50⟩]⟩ ∧
    (richacl_from_text (single_user "5".toList) (richacl_to_text (single_user "5".toList)
      ⟨0, 0, 0, 0, [⟨0, 0, 3, 5⟩]⟩ 0)).map Prod.fst =
    some ⟨0, 0, 0, 0, [⟨0, 0, 3, 5⟩]⟩ :=
  ⟨round_trip_carried bob_staff _ _ (Or.inl (by decide)) (Or.inl (by decide))
      (Or.inr (by decide)) (by decide),
    round_trip_carried bob_staff _ _ (Or.inl (by decide)) (Or.inr (by decide))
      (Or.inr (by decide)) (by decide),
    round_trip_carried bob_staff _ _ (Or.inr (by decide)) (Or.inl (by decide))
      (Or.inr (by decide)) (by decide),
    round_trip_carried (single_user "5".toList) _ _ (Or.inl (by decide)) (Or.inr (by decide))
      (Or.inr (by decide)) (by decide)⟩

/-- C1 as stated fails.  Without show masks the three masks are not written: the record
with owner mask READ_DATA and nothing else is written as the empty text, in the short and
in the long form, and read back with owner mask 0.  With simplify, READ_ATTRIBUTES is
hidden: an Allow entry with that mask is read back with mask 0; and the owner mask
READ_DATA, which no Allow entry has, is written empty and read back as 0.  Without
numeric ids, the user 5 named 123 by a consistent directory is written as 123 and read
back as the identifier 123; named a:b, bob@ or bob after a space, the text is rejected;
and named owner@, the entry is read back as the special identity owner.  An entry with
special_who and the identifier 100, which no special identity has, is read back with the
identifier of unknown. -/
theorem round_trip_fails :
    richacl_to_text no_names ⟨0, 1, 0, 0, []⟩ 0 = [] ∧
    richacl_from_text no_names (richacl_to_text no_names ⟨0, 1, 0, 0, []⟩ 0)
      = some (⟨0, 0, 0, 0, []⟩, 0) ∧
    richacl_from_text no_names (richacl_to_text no_names ⟨0, 1, 0, 0, []⟩ RICHACL_TEXT_LONG)
      = some (⟨0, 0, 0, 0, []⟩, 0) ∧
    (richacl_from_text no_names (richacl_to_text no_names
        ⟨0, 0, 0, 0, [⟨0, 0, ACE4_READ_ATTRIBUTES, 7⟩]⟩
        (RICHACL_TEXT_SHOW_MASKS ||| RICHACL_TEXT_NUMERIC_IDS ||| RICHACL_TEXT_SIMPLIFY))).map
      Prod.fst = some ⟨0, 0, 0, 0, [⟨0, 0, 0, 7⟩]⟩ ∧
    (richacl_from_text no_names (richacl_to_text no_names
        ⟨0, ACE4_READ_DATA, 0, 0, [⟨1, 0, ACE4_READ_DATA, 7⟩]⟩
        (RICHACL_TEXT_SHOW_MASKS ||| RICHACL_TEXT_SIMPLIFY))).map
      Prod.fst = some ⟨0, 0, 0, 0, [⟨1, 0, ACE4_READ_DATA, 7⟩]⟩ ∧
    (richacl_from_text numeric_name (richacl_to_text numeric_name
        ⟨0, 0, 0, 0, [⟨0, 0, 0, 5⟩]⟩ RICHACL_TEXT_SHOW_MASKS)).map
      Prod.fst = some ⟨0, 0, 0, 0, [⟨0, 0, 0, 123⟩]⟩ ∧
    richacl_from_text (single_user "a:b".toList) (richacl_to_text (single_user "a:b".toList)
        ⟨0, 0, 0, 0, [⟨0, 0, 0, 5⟩]⟩ RICHACL_TEXT_SHOW_MASKS) = none ∧
    richacl_from_text (single_user "bob@".toList) (richacl_to_text (single_user "bob@".toList)
        ⟨0, 0, 0, 0, [⟨0, 0, 0, 5⟩]⟩ RICHACL_TEXT_SHOW_MASKS) = none ∧
    richacl_from_text (single_user " bob".toList) (richacl_to_text (single_user " bob".toList)
        ⟨0, 0, 0, 0, [⟨0, 0, 0, 5⟩]⟩ RICHACL_TEXT_SHOW_MASKS) = none ∧
    (richacl_from_text (single_user "owner@".toList)
        (richacl_to_text (single_user "owner@".toList)
          ⟨0, 0, 0, 0, [⟨0, 0, 0, 5⟩]⟩ RICHACL_TEXT_SHOW_MASKS)).map
      Prod.fst = some ⟨0, 0, 0, 0, [⟨0, ACE4_SPECIAL_WHO, 0, ACE_OWNER_ID⟩]⟩ ∧
    (richacl_from_text no_names (richacl_to_text no_names
        ⟨0, 0, 0, 0, [⟨0, ACE4_SPECIAL_WHO, 0, 100⟩]⟩ RICHACL_TEXT_SHOW_MASKS)).map
      Prod.fst = some ⟨0, 0, 0, 0, [⟨0, ACE4_SPECIAL_WHO, 0, ACE_UNKNOWN_ID⟩]⟩ := by
  decide

end RichaclText
